import Mathlib

/-!
# umeshu: geometric predicate kernel and half-edge mesh operators

A shallow embedding of `umeshu++/ExactAdaptiveKernel.cpp` (the predicate kernel) over exact
rational coordinates, followed by the theorems about it.
-/

namespace Umeshu

/-! ## Data model of the kernel -/

/-- A point of the plane (`Point2`), with exact coordinates. -/
structure Point2 where
  x : ℚ
  y : ℚ
deriving DecidableEq, Repr

/-- The three answers of the orientation predicates (`Oriented_side`). -/
inductive Oriented_side where
  | ON_NEGATIVE_SIDE
  | ON_ORIENTED_BOUNDARY
  | ON_POSITIVE_SIDE
deriving DecidableEq

/-- How a call of `circumcenter` or `offcenter` ends. -/
inductive Outcome where
  /-- The function returns the point `p`. -/
  | point (p : Point2)
  /-- The `BOOST_ASSERT(denominator > 0.0)` does not hold and aborts the call. -/
  | assertion_failed
  /-- The divisor `2.0 * signed_area(p1, p2, p3)` is zero. The double quotient `0.5 / 0.0` is
  then an infinity carrying the sign of that zero: `+inf` for `+0.0`, which passes the assertion,
  and `-inf` for `-0.0`, which does not. Neither is a number of exact arithmetic, and the
  computation is not followed beyond the division. -/
  | division_by_zero
deriving DecidableEq

/-- Modelled from the spec: `orient2d` of `Predicates.h`, which is not among the sources; the
exact orientation determinant `(ax-cx)(by-cy) - (ay-cy)(bx-cx)`. -/
def orient2d (pa pb pc : Point2) : ℚ :=
  (pa.x - pc.x) * (pb.y - pc.y) - (pa.y - pc.y) * (pb.x - pc.x)

/-- Modelled from the spec: `incircle` of `Predicates.h`, which is not among the sources; the
exact in-circle determinant of the three points translated by `pd` and lifted to the paraboloid. -/
def incircle (pa pb pc pd : Point2) : ℚ :=
  let adx := pa.x - pd.x
  let ady := pa.y - pd.y
  let bdx := pb.x - pd.x
  let bdy := pb.y - pd.y
  let cdx := pc.x - pd.x
  let cdy := pc.y - pd.y
  let alift := adx * adx + ady * ady
  let blift := bdx * bdx + bdy * bdy
  let clift := cdx * cdx + cdy * cdy
  alift * (bdx * cdy - cdx * bdy) + blift * (cdx * ady - adx * cdy)
    + clift * (adx * bdy - bdx * ady)

/-! ## The kernel functions -/

/-- `ExactAdaptiveKernel::oriented_side(pa, pb, test)`. -/
def oriented_side (pa pb test : Point2) : Oriented_side :=
  let r := orient2d pa pb test
  if r > 0 then Oriented_side.ON_POSITIVE_SIDE
  else if r < 0 then Oriented_side.ON_NEGATIVE_SIDE
  else Oriented_side.ON_ORIENTED_BOUNDARY

/-- `ExactAdaptiveKernel::oriented_circle(pa, pb, pc, test)`. -/
def oriented_circle (pa pb pc test : Point2) : Oriented_side :=
  let r := incircle pa pb pc test
  if r > 0 then Oriented_side.ON_POSITIVE_SIDE
  else if r < 0 then Oriented_side.ON_NEGATIVE_SIDE
  else Oriented_side.ON_ORIENTED_BOUNDARY

/-- `ExactAdaptiveKernel::signed_area(pa, pb, pc)`. -/
def signed_area (pa pb pc : Point2) : ℚ :=
  0.5 * orient2d pa pb pc

/-- `ExactAdaptiveKernel::circumcenter(p1, p2, p3)`. The division
`0.5 / (2.0 * signed_area(p1, p2, p3))` is guarded: a zero divisor ends the call with
`Outcome.division_by_zero`. With a nonzero divisor the assertion `denominator > 0.0` is evaluated
as written, and its failure is `Outcome.assertion_failed`. -/
def circumcenter (p1 p2 p3 : Point2) : Outcome :=
  let p2p1 : Point2 := ⟨p2.x - p1.x, p2.y - p1.y⟩
  let p3p1 : Point2 := ⟨p3.x - p1.x, p3.y - p1.y⟩
  let p2p1dist := p2p1.x * p2p1.x + p2p1.y * p2p1.y
  let p3p1dist := p3p1.x * p3p1.x + p3p1.y * p3p1.y
  if 2.0 * signed_area p1 p2 p3 = 0 then Outcome.division_by_zero
  else
    let denominator := 0.5 / (2.0 * signed_area p1 p2 p3)
    if denominator > 0 then
      let dx := (p3p1.y * p2p1dist - p2p1.y * p3p1dist) * denominator
      let dy := (p2p1.x * p3p1dist - p3p1.x * p2p1dist) * denominator
      Outcome.point ⟨p1.x + dx, p1.y + dy⟩
    else Outcome.assertion_failed

/-- `ExactAdaptiveKernel::offcenter(p1, p2, p3, offconstant)`, with the same reading of the
division and of the assertion as in `circumcenter`. -/
def offcenter (p1 p2 p3 : Point2) (offconstant : ℚ) : Outcome :=
  let p2p1 : Point2 := ⟨p2.x - p1.x, p2.y - p1.y⟩
  let p3p1 : Point2 := ⟨p3.x - p1.x, p3.y - p1.y⟩
  let p2p3 : Point2 := ⟨p2.x - p3.x, p2.y - p3.y⟩
  let p2p1dist := p2p1.x * p2p1.x + p2p1.y * p2p1.y
  let p3p1dist := p3p1.x * p3p1.x + p3p1.y * p3p1.y
  let p2p3dist := p2p3.x * p2p3.x + p2p3.y * p2p3.y
  if 2.0 * signed_area p1 p2 p3 = 0 then Outcome.division_by_zero
  else
    let denominator := 0.5 / (2.0 * signed_area p1 p2 p3)
    if denominator > 0 then
      let dx := (p3p1.y * p2p1dist - p2p1.y * p3p1dist) * denominator
      let dy := (p2p1.x * p3p1dist - p3p1.x * p2p1dist) * denominator
      if p2p1dist < p3p1dist ∧ p2p1dist < p2p3dist then
        let dxoff := 0.5 * p2p1.x - offconstant * p2p1.y
        let dyoff := 0.5 * p2p1.y + offconstant * p2p1.x
        if dxoff * dxoff + dyoff * dyoff < dx * dx + dy * dy then
          Outcome.point ⟨p1.x + dxoff, p1.y + dyoff⟩
        else Outcome.point ⟨p1.x + dx, p1.y + dy⟩
      else if p3p1dist < p2p3dist then
        let dxoff := 0.5 * p3p1.x + offconstant * p3p1.y
        let dyoff := 0.5 * p3p1.y - offconstant * p3p1.x
        if dxoff * dxoff + dyoff * dyoff < dx * dx + dy * dy then
          Outcome.point ⟨p1.x + dxoff, p1.y + dyoff⟩
        else Outcome.point ⟨p1.x + dx, p1.y + dy⟩
      else
        let dxoff := 0.5 * p2p3.x - offconstant * p2p3.y
        let dyoff := 0.5 * p2p3.y + offconstant * p2p3.x
        if dxoff * dxoff + dyoff * dyoff
            < (dx - p2p1.x) * (dx - p2p1.x) + (dy - p2p1.y) * (dy - p2p1.y) then
          Outcome.point ⟨p1.x + (p2p1.x + dxoff), p1.y + (p2p1.y + dyoff)⟩
        else Outcome.point ⟨p1.x + dx, p1.y + dy⟩
    else Outcome.assertion_failed

/-! ## Half-edge mesh: data model

The implementation file of the mesh operators (`old/src/mesh.c`) and the type declarations
(`mesh_types.h`) are not among the sources; only the interface `old/src/mesh.h` and the test
`old/tests/test_mesh.c` are. The model below follows the specification. Pointers are identities
(natural numbers handed out by the allocator counter `fresh`); the `next`/`previous` threading of
half-edges is not represented: the 3-cycle that `next` spans around an element is stored in the
element as the triple of its half-edges. -/

/-- Modelled from the spec: `Node` of `mesh_types.h`, a vertex with its position. -/
structure Node where
  id : Nat
  position : Point2
deriving DecidableEq, Repr

/-- Modelled from the spec: `HalfEdge` of `mesh_types.h`, a directed traversal of an edge: its
origin node and the element it bounds, if any. -/
structure HalfEdge where
  origin : Nat
  element : Option Nat
deriving DecidableEq, Repr

/-- Modelled from the spec: `Edge` of `mesh_types.h`, the owning unit of the two half-edges
`he[0]` and `he[1]`, which are twins of each other. -/
structure Edge where
  id : Nat
  he0 : HalfEdge
  he1 : HalfEdge
deriving DecidableEq, Repr

/-- A reference `&e->he[i]` to a half-edge: the owning edge and the index (`false` for
`he[0]`, `true` for `he[1]`). -/
structure HalfEdgeRef where
  edge : Nat
  idx : Bool
deriving DecidableEq, Repr

/-- Modelled from the spec: `Element` of `mesh_types.h`, a triangular face with its three
bounding half-edges in cyclic order. -/
structure Element where
  id : Nat
  he1 : HalfEdgeRef
  he2 : HalfEdgeRef
  he3 : HalfEdgeRef
deriving DecidableEq, Repr

/-- Modelled from the spec: `Mesh` of `mesh_types.h`, the collections of nodes, edges and
elements with the redundant counts `Np`, `Ne`, `Nt`. -/
structure Mesh where
  nodes : List Node
  edges : List Edge
  elements : List Element
  Np : Nat
  Ne : Nat
  Nt : Nat
  fresh : Nat
deriving Repr

/-- The half-edge `he[i]` of an edge. -/
def Edge.he (e : Edge) (i : Bool) : HalfEdge :=
  if i then e.he1 else e.he0

/-- The twin of a half-edge: the other half-edge of the same edge. -/
def HalfEdgeRef.pair (r : HalfEdgeRef) : HalfEdgeRef :=
  ⟨r.edge, !r.idx⟩

/-- The node of the mesh with a given identity. -/
def Mesh.find_node (mesh : Mesh) (n : Nat) : Option Node :=
  mesh.nodes.find? (fun x => x.id == n)

/-- The edge of the mesh with a given identity. -/
def Mesh.find_edge (mesh : Mesh) (e : Nat) : Option Edge :=
  mesh.edges.find? (fun x => x.id == e)

/-- The element of the mesh with a given identity. -/
def Mesh.find_element (mesh : Mesh) (el : Nat) : Option Element :=
  mesh.elements.find? (fun x => x.id == el)

/-- Dereference of a half-edge reference in a collection of edges. -/
def find_halfedge (es : List Edge) (r : HalfEdgeRef) : Option HalfEdge :=
  (es.find? (fun x => x.id == r.edge)).map (fun e => e.he r.idx)

/-- Dereference of a half-edge reference. -/
def Mesh.halfedge (mesh : Mesh) (r : HalfEdgeRef) : Option HalfEdge :=
  find_halfedge mesh.edges r

/-- Origin node of a half-edge. -/
def Mesh.origin (mesh : Mesh) (r : HalfEdgeRef) : Option Nat :=
  (mesh.halfedge r).map (fun h => h.origin)

/-- Target node of a half-edge: the origin of its twin. -/
def Mesh.target (mesh : Mesh) (r : HalfEdgeRef) : Option Nat :=
  mesh.origin r.pair

/-- An edge is incident to a node when one of its half-edges starts there. -/
def Edge.incident (e : Edge) (n : Nat) : Bool :=
  e.he0.origin == n || e.he1.origin == n

/-- An edge has a free (unbound) half-edge starting at the node. -/
def Edge.free_at (e : Edge) (n : Nat) : Bool :=
  (e.he0.origin == n && e.he0.element.isNone) || (e.he1.origin == n && e.he1.element.isNone)

/-- A node is isolated: no edge is incident to it. -/
def Mesh.is_isolated (mesh : Mesh) (n : Nat) : Bool :=
  mesh.edges.all (fun e => !e.incident n)

/-- A new edge can be attached at the node: the node is isolated or has a free incident
half-edge. -/
def Mesh.has_free_slot (mesh : Mesh) (n : Nat) : Bool :=
  mesh.is_isolated n || mesh.edges.any (fun e => e.free_at n)

/-- Writes the element field of one half-edge. -/
def Edge.set_element (e : Edge) (i : Bool) (v : Option Nat) : Edge :=
  if i then { e with he1 := { e.he1 with element := v } }
  else { e with he0 := { e.he0 with element := v } }

/-- Writes the element field of the half-edge `r` in a collection of edges. -/
def set_element (es : List Edge) (r : HalfEdgeRef) (v : Option Nat) : List Edge :=
  es.map (fun e => if e.id = r.edge then e.set_element r.idx v else e)

/-! ## Half-edge mesh: operators -/

/-- Modelled from the spec: `mesh_new`, the empty mesh. -/
def mesh_new : Mesh :=
  ⟨[], [], [], 0, 0, 0, 0⟩

/-- Modelled from the spec: `mesh_add_node` of `mesh.c`. A new isolated node; always succeeds;
increments `Np`. -/
def mesh_add_node (mesh : Mesh) (x y : ℚ) : Mesh × Node :=
  let n : Node := ⟨mesh.fresh, ⟨x, y⟩⟩
  ({ mesh with nodes := n :: mesh.nodes, Np := mesh.Np + 1, fresh := mesh.fresh + 1 }, n)

/-- Modelled from the spec: `mesh_add_edge` of `mesh.c`. Fails when the two nodes are equal, when
one of them does not belong to the mesh, or when one of them has no free incident half-edge slot;
otherwise creates the pair of free half-edges `node1 → node2`, `node2 → node1` and increments
`Ne`. -/
def mesh_add_edge (mesh : Mesh) (node1 node2 : Nat) : Option (Mesh × Edge) :=
  if node1 = node2 then none
  else if (mesh.find_node node1).isNone || (mesh.find_node node2).isNone then none
  else if !mesh.has_free_slot node1 || !mesh.has_free_slot node2 then none
  else
    let e : Edge := ⟨mesh.fresh, ⟨node1, none⟩, ⟨node2, none⟩⟩
    some ({ mesh with edges := e :: mesh.edges, Ne := mesh.Ne + 1, fresh := mesh.fresh + 1 }, e)

/-- Modelled from the spec: `mesh_remove_element` of `mesh.c`. Unbinds the three half-edges of
the element and deletes the element; decrements `Nt`; the edges stay. A reference to an element
that is not in the mesh is an error. -/
def mesh_remove_element (mesh : Mesh) (element : Nat) : Option Mesh :=
  match mesh.find_element element with
  | none => none
  | some t =>
    some { mesh with
      edges := set_element (set_element (set_element mesh.edges t.he1 none) t.he2 none) t.he3 none
      elements := mesh.elements.filter (fun x => x.id != element)
      Nt := mesh.Nt - 1 }

/-- Removal of the element that the half-edge `r` bounds, if it bounds one. -/
def remove_adjacent_element (mesh : Mesh) (r : HalfEdgeRef) : Option Mesh :=
  match mesh.halfedge r with
  | none => none
  | some h =>
    match h.element with
    | none => some mesh
    | some el => mesh_remove_element mesh el

/-- Modelled from the spec: `mesh_remove_edge` of `mesh.c`. Removes the up-to-two elements
adjacent to the edge (through the element reference of each half-edge), then deletes the edge;
decrements `Ne`. -/
def mesh_remove_edge (mesh : Mesh) (edge : Nat) : Option Mesh :=
  match remove_adjacent_element mesh ⟨edge, false⟩ with
  | none => none
  | some m1 =>
    match remove_adjacent_element m1 ⟨edge, true⟩ with
    | none => none
    | some m2 =>
      some { m2 with edges := m2.edges.filter (fun x => x.id != edge), Ne := m2.Ne - 1 }

/-- Removal of a list of edges, one after the other. -/
def remove_edges (mesh : Mesh) : List Nat → Option Mesh
  | [] => some mesh
  | e :: es =>
    match mesh_remove_edge mesh e with
    | none => none
    | some m1 => remove_edges m1 es

/-- The identities of the edges incident to a node. -/
def Mesh.incident_edges (mesh : Mesh) (n : Nat) : List Nat :=
  (mesh.edges.filter (fun e => e.incident n)).map (fun e => e.id)

/-- Modelled from the spec: `mesh_remove_node` of `mesh.c`. An isolated node is simply deleted;
for a connected node every incident edge is removed first (which removes the adjacent
elements), then the node is deleted; decrements `Np`. -/
def mesh_remove_node (mesh : Mesh) (node : Nat) : Option Mesh :=
  match mesh.find_node node with
  | none => none
  | some _ =>
    if mesh.is_isolated node then
      some { mesh with nodes := mesh.nodes.filter (fun x => x.id != node), Np := mesh.Np - 1 }
    else
      match remove_edges mesh (mesh.incident_edges node) with
      | none => none
      | some m1 =>
        some { m1 with nodes := m1.nodes.filter (fun x => x.id != node), Np := m1.Np - 1 }

/-- Modelled from the spec: `mesh_add_element` of `mesh.c`. The three half-edges have to exist,
be pairwise distinct, be unbound, and form a head-to-tail chain; then the new element is bound to
them and `Nt` is incremented. -/
def mesh_add_element (mesh : Mesh) (e1 e2 e3 : HalfEdgeRef) : Option (Mesh × Element) :=
  match mesh.halfedge e1, mesh.halfedge e2, mesh.halfedge e3 with
  | some h1, some h2, some h3 =>
    if e1 = e2 ∨ e2 = e3 ∨ e3 = e1 then none
    else if h1.element.isSome || h2.element.isSome || h3.element.isSome then none
    else if mesh.target e1 ≠ mesh.origin e2 ∨ mesh.target e2 ≠ mesh.origin e3
        ∨ mesh.target e3 ≠ mesh.origin e1 then none
    else
      let t : Element := ⟨mesh.fresh, e1, e2, e3⟩
      some ({ mesh with
        edges := set_element (set_element (set_element mesh.edges e1 (some t.id)) e2 (some t.id))
          e3 (some t.id)
        elements := t :: mesh.elements
        Nt := mesh.Nt + 1
        fresh := mesh.fresh + 1 }, t)
  | _, _, _ => none

/-- Modelled from the spec: `mesh_split_element` of `mesh.c`. Inserts a new node at `p` and three
new edges from it to the three corners of the element, and replaces the element by the three
elements around the new node. Returns the new node. -/
def mesh_split_element (mesh : Mesh) (el : Nat) (p : Point2) : Option (Mesh × Node) :=
  match mesh.find_element el with
  | none => none
  | some t =>
    match mesh.origin t.he1, mesh.origin t.he2, mesh.origin t.he3 with
    | some n1, some n2, some n3 =>
      match mesh_remove_element (mesh_add_node mesh p.x p.y).1 el with
      | none => none
      | some m1 =>
        let n := (mesh_add_node mesh p.x p.y).2
        match mesh_add_edge m1 n.id n1 with
        | none => none
        | some (m2, e1) =>
          match mesh_add_edge m2 n.id n2 with
          | none => none
          | some (m3, e2) =>
            match mesh_add_edge m3 n.id n3 with
            | none => none
            | some (m4, e3) =>
              match mesh_add_element m4 t.he1 ⟨e2.id, true⟩ ⟨e1.id, false⟩ with
              | none => none
              | some (m5, _) =>
                match mesh_add_element m5 t.he2 ⟨e3.id, true⟩ ⟨e2.id, false⟩ with
                | none => none
                | some (m6, _) =>
                  match mesh_add_element m6 t.he3 ⟨e1.id, true⟩ ⟨e3.id, false⟩ with
                  | none => none
                  | some (m7, _) => some (m7, n)
    | _, _, _ => none

/-- What `mesh_split_edge` records of the element on one side of the edge: the opposite corner
and the two other half-edges of the element (the one after and the one before the half-edge of
the edge). -/
structure Side where
  apex : Nat
  next : HalfEdgeRef
  previous : HalfEdgeRef
deriving Repr

/-- The element on the side of the half-edge `r`, if there is one. The outer `none` is an
error (a dangling reference). -/
def Mesh.side (mesh : Mesh) (r : HalfEdgeRef) : Option (Option Side) :=
  match mesh.halfedge r with
  | none => none
  | some h =>
    match h.element with
    | none => some none
    | some el =>
      match mesh.find_element el with
      | none => none
      | some t =>
        if t.he1 = r then (mesh.origin t.he3).map (fun c => some ⟨c, t.he2, t.he3⟩)
        else if t.he2 = r then (mesh.origin t.he1).map (fun c => some ⟨c, t.he3, t.he1⟩)
        else if t.he3 = r then (mesh.origin t.he2).map (fun c => some ⟨c, t.he1, t.he2⟩)
        else none

/-- Connects the new midpoint node `n` of a split edge to the opposite corner of the element
that was on one side, if there was one. -/
def connect_apex (mesh : Mesh) (n : Nat) : Option Side → Option (Mesh × Option Edge)
  | none => some (mesh, none)
  | some s =>
    match mesh_add_edge mesh n s.apex with
    | none => none
    | some (m1, e) => some (m1, some e)

/-- Creates the two elements that replace the element on one side of a split edge. `first` and
`second` are the half-edges of the two subedges on that side, in the direction of the old
half-edge; `spoke` is the new edge from the midpoint to the opposite corner. -/
def fill_side (mesh : Mesh) (first second : HalfEdgeRef) :
    Option Side → Option Edge → Option Mesh
  | some s, some spoke =>
    match mesh_add_element mesh first ⟨spoke.id, false⟩ s.previous with
    | none => none
    | some (m1, _) =>
      match mesh_add_element m1 second s.next ⟨spoke.id, true⟩ with
      | none => none
      | some (m2, _) => some m2
  | none, none => some mesh
  | _, _ => none

/-- Modelled from the spec: `mesh_split_edge` of `mesh.c`. Inserts a new node at the midpoint of
the edge and replaces the edge by two subedges; each element adjacent to the edge is split into
two by an edge from the new node to its opposite corner. `subedge1` and `subedge2` tell whether
the output pointers are non-NULL; the subedges are written only through non-NULL pointers. -/
def mesh_split_edge (mesh : Mesh) (edge : Nat) (subedge1 subedge2 : Bool) :
    Option (Mesh × Option Edge × Option Edge) :=
  match mesh.find_edge edge with
  | none => none
  | some ed =>
    match mesh.find_node ed.he0.origin, mesh.find_node ed.he1.origin,
        mesh.side ⟨edge, false⟩, mesh.side ⟨edge, true⟩ with
    | some a, some b, some side0, some side1 =>
      let mid := mesh_add_node mesh ((a.position.x + b.position.x) / 2)
        ((a.position.y + b.position.y) / 2)
      match mesh_remove_edge mid.1 edge with
      | none => none
      | some m1 =>
        match mesh_add_edge m1 a.id mid.2.id with
        | none => none
        | some (m2, s1) =>
          match mesh_add_edge m2 mid.2.id b.id with
          | none => none
          | some (m3, s2) =>
            match connect_apex m3 mid.2.id side0 with
            | none => none
            | some (m4, spoke0) =>
              match connect_apex m4 mid.2.id side1 with
              | none => none
              | some (m5, spoke1) =>
                match fill_side m5 ⟨s1.id, false⟩ ⟨s2.id, false⟩ side0 spoke0 with
                | none => none
                | some m6 =>
                  match fill_side m6 ⟨s2.id, true⟩ ⟨s1.id, true⟩ side1 spoke1 with
                  | none => none
                  | some m7 =>
                    some (m7, if subedge1 then some s1 else none,
                      if subedge2 then some s2 else none)
    | _, _, _, _ => none

/-- One of the three half-edges of the element lies on the edge `e`. -/
def Element.uses (t : Element) (e : Nat) : Bool :=
  t.he1.edge == e || t.he2.edge == e || t.he3.edge == e

/-- The node `n` is a corner of the element: one of its half-edges starts there. -/
def Mesh.corner (mesh : Mesh) (t : Element) (n : Nat) : Bool :=
  mesh.origin t.he1 == some n || mesh.origin t.he2 == some n || mesh.origin t.he3 == some n

/-- The elements incident to a node. -/
def Mesh.incident_elements (mesh : Mesh) (n : Nat) : List Element :=
  mesh.elements.filter (fun t => mesh.corner t n)

/-- The half-edge `r` lies on another edge than `e`, starts at the node `n`, and is free or
bounds an element that lies on `e`: once `e` is removed, it is a free half-edge at `n`. -/
def Mesh.frees (mesh : Mesh) (e : Nat) (r : HalfEdgeRef) (n : Nat) : Prop :=
  r.edge ≠ e ∧ ∃ x, mesh.halfedge r = some x ∧ x.origin = n ∧
    (x.element = none ∨ ∃ t ∈ mesh.elements, x.element = some t.id ∧ t.uses e = true)

/-- The identity and the two end nodes of an edge: what an operator that only rewrites element
references leaves unchanged. -/
def Edge.ends (e : Edge) : Nat × Nat × Nat :=
  (e.id, e.he0.origin, e.he1.origin)

/-! ## Well-formed meshes

The invariants of the specification, as far as the model represents them. -/

/-- The half-edge `r` is one of the three half-edges of the element. -/
def Element.has (t : Element) (r : HalfEdgeRef) : Prop :=
  t.he1 = r ∨ t.he2 = r ∨ t.he3 = r

/-- The half-edge `r` is in the mesh and bounds the element `el`. -/
def Mesh.bounds (mesh : Mesh) (r : HalfEdgeRef) (el : Nat) : Prop :=
  (mesh.halfedge r).map (fun h => h.element) = some (some el)

/-- The element reference of the half-edge `he[i]` of `e` is consistent: the element it names is
in the mesh and has this half-edge among its three. -/
def Mesh.binding_ok (mesh : Mesh) (e : Edge) (i : Bool) : Prop :=
  ∀ el ∈ (e.he i).element, ∃ t ∈ mesh.find_element el, t.has ⟨e.id, i⟩

/-- A free half-edge `he[i]` of `e` is followed by a free half-edge: one that starts at its
target node (the role of `next` along the boundary). -/
def Mesh.free_next_ok (mesh : Mesh) (e : Edge) (i : Bool) : Prop :=
  (e.he i).element = none → mesh.edges.any (fun x => x.free_at (e.he (!i)).origin) = true

/-- Invariants of one edge: its identity was allocated, it is not a loop, its endpoints are
nodes of the mesh, and both half-edges have consistent element references. -/
def Mesh.edge_ok (mesh : Mesh) (e : Edge) : Prop :=
  e.id < mesh.fresh ∧ e.he0.origin ≠ e.he1.origin ∧
  (mesh.find_node e.he0.origin).isSome = true ∧ (mesh.find_node e.he1.origin).isSome = true ∧
  mesh.binding_ok e false ∧ mesh.binding_ok e true

/-- Invariants of one element: its identity was allocated, its three half-edges are in the mesh,
are bound to it, and form a head-to-tail cycle. -/
def Mesh.element_ok (mesh : Mesh) (t : Element) : Prop :=
  t.id < mesh.fresh ∧
  mesh.bounds t.he1 t.id ∧ mesh.bounds t.he2 t.id ∧ mesh.bounds t.he3 t.id ∧
  mesh.target t.he1 = mesh.origin t.he2 ∧ mesh.target t.he2 = mesh.origin t.he3 ∧
  mesh.target t.he3 = mesh.origin t.he1

/-- A consistent mesh: the counts equal the sizes of the collections, identities are unique and
allocated, and every edge and element satisfies its invariants. -/
def Mesh.consistent (mesh : Mesh) : Prop :=
  mesh.Np = mesh.nodes.length ∧ mesh.Ne = mesh.edges.length ∧ mesh.Nt = mesh.elements.length ∧
  (mesh.nodes.map (fun n => n.id)).Nodup ∧ (mesh.edges.map (fun e => e.id)).Nodup ∧
  (mesh.elements.map (fun t => t.id)).Nodup ∧
  (∀ n ∈ mesh.nodes, n.id < mesh.fresh) ∧
  (∀ e ∈ mesh.edges, mesh.edge_ok e) ∧
  (∀ t ∈ mesh.elements, mesh.element_ok t)

/-- A well-formed mesh: a consistent mesh in which every free half-edge has a free successor. -/
def Mesh.wf (mesh : Mesh) : Prop :=
  mesh.consistent ∧
  ∀ e ∈ mesh.edges, mesh.free_next_ok e false ∧ mesh.free_next_ok e true

instance (t : Element) (r : HalfEdgeRef) : Decidable (t.has r) := by
  delta Element.has; infer_instance

instance (mesh : Mesh) (r : HalfEdgeRef) (el : Nat) : Decidable (mesh.bounds r el) := by
  delta Mesh.bounds; infer_instance

instance (mesh : Mesh) (e : Edge) (i : Bool) : Decidable (mesh.binding_ok e i) := by
  delta Mesh.binding_ok; infer_instance

instance (mesh : Mesh) (e : Edge) (i : Bool) : Decidable (mesh.free_next_ok e i) := by
  delta Mesh.free_next_ok; infer_instance

instance (mesh : Mesh) (e : Edge) : Decidable (mesh.edge_ok e) := by
  delta Mesh.edge_ok; infer_instance

instance (mesh : Mesh) (t : Element) : Decidable (mesh.element_ok t) := by
  delta Mesh.element_ok Mesh.target; infer_instance

instance (mesh : Mesh) : Decidable mesh.consistent := by
  delta Mesh.consistent; infer_instance

instance (mesh : Mesh) : Decidable mesh.wf := by
  delta Mesh.wf; infer_instance

/-- The quadrilateral of `test_mesh.c`: four nodes, the four sides and the diagonal `n1 n3`, and
the two elements on the two sides of the diagonal. -/
def test_quad_build : Option Mesh :=
  let a1 := mesh_add_node mesh_new 1 2
  let a2 := mesh_add_node a1.1 0 1
  let a3 := mesh_add_node a2.1 1 0
  let a4 := mesh_add_node a3.1 2 1
  (mesh_add_edge a4.1 a1.2.id a2.2.id).bind fun b1 =>
  (mesh_add_edge b1.1 a2.2.id a3.2.id).bind fun b2 =>
  (mesh_add_edge b2.1 a3.2.id a4.2.id).bind fun b3 =>
  (mesh_add_edge b3.1 a4.2.id a1.2.id).bind fun b4 =>
  (mesh_add_edge b4.1 a1.2.id a3.2.id).bind fun b5 =>
  (mesh_add_element b5.1 ⟨b1.2.id, false⟩ ⟨b2.2.id, false⟩ ⟨b5.2.id, true⟩).bind fun c1 =>
  (mesh_add_element c1.1 ⟨b5.2.id, false⟩ ⟨b3.2.id, false⟩ ⟨b4.2.id, false⟩).map fun c2 =>
  c2.1

/-- The mesh that `test_quad_build` builds. -/
def test_quad : Mesh :=
  test_quad_build.getD mesh_new

/-! ## Bounding box -/

/-- Modelled from the spec: `Box2` of `box2.h`, which is not among the sources; an axis-aligned
box given by its corners `min` and `max`. -/
structure Box2 where
  min : Point2
  max : Point2
deriving DecidableEq, Repr

/-- Modelled from the spec: the extension of a box that makes it contain a point. -/
def box2_include_point (box : Box2) (p : Point2) : Box2 :=
  ⟨⟨min box.min.x p.x, min box.min.y p.y⟩, ⟨max box.max.x p.x, max box.max.y p.y⟩⟩

/-- Modelled from the spec: `mesh_get_bounding_box` of `mesh.c`. The axis-aligned box covering
all node positions, recomputed by a scan over all nodes of the mesh. The specification does not
say what the box of a mesh without nodes is; the result is `none` there. -/
def mesh_get_bounding_box (mesh : Mesh) : Option Box2 :=
  match mesh.nodes with
  | [] => none
  | n :: ns =>
    some (ns.foldl (fun box x => box2_include_point box x.position) ⟨n.position, n.position⟩)

/-- The unit square of `test_mesh.c`: four nodes, the four sides and the diagonal `n1 n3`, and
the two elements on the two sides of the diagonal. -/
def test_square_build : Option Mesh :=
  let a1 := mesh_add_node mesh_new 0 0
  let a2 := mesh_add_node a1.1 1 0
  let a3 := mesh_add_node a2.1 1 1
  let a4 := mesh_add_node a3.1 0 1
  (mesh_add_edge a4.1 a1.2.id a2.2.id).bind fun b1 =>
  (mesh_add_edge b1.1 a2.2.id a3.2.id).bind fun b2 =>
  (mesh_add_edge b2.1 a3.2.id a4.2.id).bind fun b3 =>
  (mesh_add_edge b3.1 a4.2.id a1.2.id).bind fun b4 =>
  (mesh_add_edge b4.1 a1.2.id a3.2.id).bind fun b5 =>
  (mesh_add_element b5.1 ⟨b1.2.id, false⟩ ⟨b2.2.id, false⟩ ⟨b5.2.id, true⟩).bind fun c1 =>
  (mesh_add_element c1.1 ⟨b5.2.id, false⟩ ⟨b3.2.id, false⟩ ⟨b4.2.id, false⟩).map fun c2 =>
  c2.1

/-- The mesh that `test_square_build` builds. -/
def test_square : Mesh :=
  test_square_build.getD mesh_new

/-! ## Edge selection of `offcenter` -/

/-- The three edges of the triangle `p1 p2 p3`. -/
inductive TriangleEdge where
  | p1p2
  | p1p3
  | p2p3
deriving DecidableEq, Repr

/-- The edge on which `ExactAdaptiveKernel::offcenter` builds its off-center candidate: the
conditions of its `if`, `else if`, `else` (lines 79, 86, 93), on the squared lengths
`p2p1dist`, `p3p1dist`, `p2p3dist`. -/
def offcenter_edge (p1 p2 p3 : Point2) : TriangleEdge :=
  let p2p1 : Point2 := ⟨p2.x - p1.x, p2.y - p1.y⟩
  let p3p1 : Point2 := ⟨p3.x - p1.x, p3.y - p1.y⟩
  let p2p3 : Point2 := ⟨p2.x - p3.x, p2.y - p3.y⟩
  let p2p1dist := p2p1.x * p2p1.x + p2p1.y * p2p1.y
  let p3p1dist := p3p1.x * p3p1.x + p3p1.y * p3p1.y
  let p2p3dist := p2p3.x * p2p3.x + p2p3.y * p2p3.y
  if p2p1dist < p3p1dist ∧ p2p1dist < p2p3dist then TriangleEdge.p1p2
  else if p3p1dist < p2p3dist then TriangleEdge.p1p3
  else TriangleEdge.p2p3

/-! ## Notions used to state the properties -/

/-- Squared Euclidean distance between two points. -/
def dist2 (p q : Point2) : ℚ :=
  (p.x - q.x) * (p.x - q.x) + (p.y - q.y) * (p.y - q.y)

/-- Three points are collinear: the cross product of `b - a` and `c - a` vanishes. -/
def collinear (a b c : Point2) : Prop :=
  (b.x - a.x) * (c.y - a.y) - (b.y - a.y) * (c.x - a.x) = 0

/-- The off-center candidate of the directed edge `a → b`: the midpoint of the edge displaced
along the left normal of the edge by `k` times the edge length. -/
def offcandidate (a b : Point2) (k : ℚ) : Point2 :=
  ⟨(a.x + b.x) / 2 - k * (b.y - a.y), (a.y + b.y) / 2 + k * (b.x - a.x)⟩

/-- The point `p1 + (dx, dy)` of `circumcenter`, written with the denominator
`0.5 / (2.0 * signed_area p1 p2 p3)` simplified to `(1/2) / orient2d p1 p2 p3`. -/
def ccpoint (p1 p2 p3 : Point2) : Point2 :=
  let p2p1 : Point2 := ⟨p2.x - p1.x, p2.y - p1.y⟩
  let p3p1 : Point2 := ⟨p3.x - p1.x, p3.y - p1.y⟩
  let p2p1dist := p2p1.x * p2p1.x + p2p1.y * p2p1.y
  let p3p1dist := p3p1.x * p3p1.x + p3p1.y * p3p1.y
  let denominator := (1 / 2) / orient2d p1 p2 p3
  ⟨p1.x + (p3p1.y * p2p1dist - p2p1.y * p3p1dist) * denominator,
   p1.y + (p2p1.x * p3p1dist - p3p1.x * p2p1dist) * denominator⟩

/-! ## Lemmas on the kernel -/

theorem orient2d_swap (a b t : Point2) : orient2d b a t = - orient2d a b t := by
  unfold orient2d; ring

theorem signed_area_pos_iff (a b c : Point2) : signed_area a b c > 0 ↔ orient2d a b c > 0 := by
  unfold signed_area
  constructor
  · intro h; norm_num at h; linarith
  · intro h; norm_num; linarith

theorem denominator_eq (a b c : Point2) :
    (0.5 : ℚ) / (2.0 * signed_area a b c) = (1 / 2) / orient2d a b c := by
  have h : (2.0 : ℚ) * signed_area a b c = orient2d a b c := by
    unfold signed_area; rw [← mul_assoc]; norm_num
  rw [h]; norm_num

theorem denominator_pos_iff (a b c : Point2) :
    (0.5 : ℚ) / (2.0 * signed_area a b c) > 0 ↔ orient2d a b c > 0 := by
  rw [denominator_eq]
  constructor
  · intro hd
    by_contra hn
    have : orient2d a b c ≤ 0 := not_lt.mp hn
    have : (1 / 2 : ℚ) / orient2d a b c ≤ 0 := div_nonpos_of_nonneg_of_nonpos (by norm_num) this
    linarith
  · intro hp
    positivity

theorem divisor_eq (a b c : Point2) : (2.0 : ℚ) * signed_area a b c = orient2d a b c := by
  unfold signed_area; rw [← mul_assoc]; norm_num

/-- The point computed by `circumcenter` once its assertion has passed. -/
theorem circumcenter_eq_point (p1 p2 p3 : Point2) (h : orient2d p1 p2 p3 > 0) :
    circumcenter p1 p2 p3 = Outcome.point (ccpoint p1 p2 p3) := by
  have hd := (denominator_pos_iff p1 p2 p3).mpr h
  rw [denominator_eq] at hd
  have hne : orient2d p1 p2 p3 ≠ 0 := ne_of_gt h
  unfold circumcenter
  simp only [denominator_eq]
  simp only [divisor_eq, hne, hd, if_true, if_false, ccpoint]

theorem circumcenter_eq_assertion_failed (p1 p2 p3 : Point2) (h : orient2d p1 p2 p3 < 0) :
    circumcenter p1 p2 p3 = Outcome.assertion_failed := by
  have hd : ¬ (0.5 : ℚ) / (2.0 * signed_area p1 p2 p3) > 0 :=
    fun hh => absurd ((denominator_pos_iff p1 p2 p3).mp hh) (not_lt.mpr (le_of_lt h))
  rw [denominator_eq] at hd
  have hne : orient2d p1 p2 p3 ≠ 0 := ne_of_lt h
  unfold circumcenter
  simp only [denominator_eq]
  simp only [divisor_eq, hne, hd, if_false]

theorem circumcenter_eq_division_by_zero (p1 p2 p3 : Point2) (h : orient2d p1 p2 p3 = 0) :
    circumcenter p1 p2 p3 = Outcome.division_by_zero := by
  unfold circumcenter
  simp only [divisor_eq, h, if_true]

theorem ccpoint_dist_p2 (p1 p2 p3 : Point2) (h : orient2d p1 p2 p3 ≠ 0) :
    dist2 (ccpoint p1 p2 p3) p1 = dist2 (ccpoint p1 p2 p3) p2 := by
  unfold orient2d at h
  unfold dist2 ccpoint orient2d
  simp only
  field_simp
  ring

theorem ccpoint_dist_p3 (p1 p2 p3 : Point2) (h : orient2d p1 p2 p3 ≠ 0) :
    dist2 (ccpoint p1 p2 p3) p1 = dist2 (ccpoint p1 p2 p3) p3 := by
  unfold orient2d at h
  unfold dist2 ccpoint orient2d
  simp only
  field_simp
  ring

theorem equidistant_eq_ccpoint (p1 p2 p3 q : Point2) (h : orient2d p1 p2 p3 ≠ 0)
    (h12 : dist2 q p1 = dist2 q p2) (h23 : dist2 q p2 = dist2 q p3) :
    q = ccpoint p1 p2 p3 := by
  have h13 : dist2 q p1 = dist2 q p3 := h12.trans h23
  unfold dist2 at h12 h13
  have hx : 2 * orient2d p1 p2 p3 * (q.x - p1.x)
      = (p3.y - p1.y) * ((p2.x - p1.x) * (p2.x - p1.x) + (p2.y - p1.y) * (p2.y - p1.y))
        - (p2.y - p1.y) * ((p3.x - p1.x) * (p3.x - p1.x) + (p3.y - p1.y) * (p3.y - p1.y)) := by
    unfold orient2d
    linear_combination (p3.y - p1.y) * h12 - (p2.y - p1.y) * h13
  have hy : 2 * orient2d p1 p2 p3 * (q.y - p1.y)
      = (p2.x - p1.x) * ((p3.x - p1.x) * (p3.x - p1.x) + (p3.y - p1.y) * (p3.y - p1.y))
        - (p3.x - p1.x) * ((p2.x - p1.x) * (p2.x - p1.x) + (p2.y - p1.y) * (p2.y - p1.y)) := by
    unfold orient2d
    linear_combination (p2.x - p1.x) * h13 - (p3.x - p1.x) * h12
  have hx2 : q.x = (ccpoint p1 p2 p3).x := by
    unfold ccpoint
    simp only
    rw [← hx]
    field_simp
  have hy2 : q.y = (ccpoint p1 p2 p3).y := by
    unfold ccpoint
    simp only
    rw [← hy]
    field_simp
  cases q
  cases hc : ccpoint p1 p2 p3
  rw [hc] at hx2 hy2
  simp only at hx2 hy2
  simp [hx2, hy2]

theorem incircle_eq (a b c t : Point2) (h : orient2d a b c ≠ 0) :
    incircle a b c t
      = orient2d a b c * (dist2 a (ccpoint a b c) - dist2 t (ccpoint a b c)) := by
  unfold orient2d at h
  unfold incircle dist2 ccpoint orient2d
  simp only
  field_simp
  ring

theorem oriented_side_pos (a b t : Point2) :
    oriented_side a b t = Oriented_side.ON_POSITIVE_SIDE ↔ orient2d a b t > 0 := by
  unfold oriented_side
  simp only
  split_ifs with h1 h2
  · simp [h1]
  · simp [h1]
  · simp [h1]

theorem oriented_side_neg (a b t : Point2) :
    oriented_side a b t = Oriented_side.ON_NEGATIVE_SIDE ↔ orient2d a b t < 0 := by
  unfold oriented_side
  simp only
  split_ifs with h1 h2
  · simp only [reduceCtorEq, false_iff, not_lt]; exact le_of_lt h1
  · simp [h2]
  · simp [h2]

theorem oriented_side_zero (a b t : Point2) :
    oriented_side a b t = Oriented_side.ON_ORIENTED_BOUNDARY ↔ orient2d a b t = 0 := by
  unfold oriented_side
  simp only
  split_ifs with h1 h2
  · simp only [reduceCtorEq, false_iff]; exact ne_of_gt h1
  · simp only [reduceCtorEq, false_iff]; exact ne_of_lt h2
  · simp only [true_iff]; exact le_antisymm (not_lt.mp h1) (not_lt.mp h2)

theorem oriented_circle_pos (a b c t : Point2) :
    oriented_circle a b c t = Oriented_side.ON_POSITIVE_SIDE ↔ incircle a b c t > 0 := by
  unfold oriented_circle
  simp only
  split_ifs with h1 h2
  · simp [h1]
  · simp [h1]
  · simp [h1]

theorem oriented_circle_neg (a b c t : Point2) :
    oriented_circle a b c t = Oriented_side.ON_NEGATIVE_SIDE ↔ incircle a b c t < 0 := by
  unfold oriented_circle
  simp only
  split_ifs with h1 h2
  · simp only [reduceCtorEq, false_iff, not_lt]; exact le_of_lt h1
  · simp [h2]
  · simp [h2]

theorem oriented_circle_zero (a b c t : Point2) :
    oriented_circle a b c t = Oriented_side.ON_ORIENTED_BOUNDARY ↔ incircle a b c t = 0 := by
  unfold oriented_circle
  simp only
  split_ifs with h1 h2
  · simp only [reduceCtorEq, false_iff]; exact ne_of_gt h1
  · simp only [reduceCtorEq, false_iff]; exact ne_of_lt h2
  · simp only [true_iff]; exact le_antisymm (not_lt.mp h1) (not_lt.mp h2)

theorem offcenter_eq_division_by_zero (p1 p2 p3 : Point2) (k : ℚ) (h : orient2d p1 p2 p3 = 0) :
    offcenter p1 p2 p3 k = Outcome.division_by_zero := by
  unfold offcenter
  simp only [divisor_eq, h, if_true]

theorem point2_ext (p q : Point2) (hx : p.x = q.x) (hy : p.y = q.y) : p = q := by
  cases p; cases q
  simp only at hx hy
  simp [hx, hy]

/-- The three branches of `offcenter` on a counter-clockwise triple, in terms of squared
distances, the circumcenter and the off-center candidates of the edges. In the third branch the
point taken is the mirror image through `p2` of the candidate of the edge `p2 → p3`. -/
theorem offcenter_branches (p1 p2 p3 : Point2) (k : ℚ) (h : orient2d p1 p2 p3 > 0) :
    offcenter p1 p2 p3 k =
      if dist2 p2 p1 < dist2 p3 p1 ∧ dist2 p2 p1 < dist2 p2 p3 then
        if dist2 (offcandidate p1 p2 k) p1 < dist2 (ccpoint p1 p2 p3) p1
        then Outcome.point (offcandidate p1 p2 k) else Outcome.point (ccpoint p1 p2 p3)
      else if dist2 p3 p1 < dist2 p2 p3 then
        if dist2 (offcandidate p3 p1 k) p1 < dist2 (ccpoint p1 p2 p3) p1
        then Outcome.point (offcandidate p3 p1 k) else Outcome.point (ccpoint p1 p2 p3)
      else
        if dist2 (offcandidate p2 p3 k) p2 < dist2 (ccpoint p1 p2 p3) p2
        then Outcome.point ⟨2 * p2.x - (offcandidate p2 p3 k).x, 2 * p2.y - (offcandidate p2 p3 k).y⟩
        else Outcome.point (ccpoint p1 p2 p3) := by
  have hd := (denominator_pos_iff p1 p2 p3).mpr h
  rw [denominator_eq] at hd
  have hne : orient2d p1 p2 p3 ≠ 0 := ne_of_gt h
  unfold offcenter
  simp only [denominator_eq]
  simp only [divisor_eq, hne, hd, if_true, if_false]
  have e1 : (0.5 * (p2.x - p1.x) - k * (p2.y - p1.y)) * (0.5 * (p2.x - p1.x) - k * (p2.y - p1.y))
      + (0.5 * (p2.y - p1.y) + k * (p2.x - p1.x)) * (0.5 * (p2.y - p1.y) + k * (p2.x - p1.x))
      = dist2 (offcandidate p1 p2 k) p1 := by
    unfold dist2 offcandidate; norm_num; ring
  have e2 : (0.5 * (p3.x - p1.x) + k * (p3.y - p1.y)) * (0.5 * (p3.x - p1.x) + k * (p3.y - p1.y))
      + (0.5 * (p3.y - p1.y) - k * (p3.x - p1.x)) * (0.5 * (p3.y - p1.y) - k * (p3.x - p1.x))
      = dist2 (offcandidate p3 p1 k) p1 := by
    unfold dist2 offcandidate; norm_num; ring
  have e3 : (0.5 * (p2.x - p3.x) - k * (p2.y - p3.y)) * (0.5 * (p2.x - p3.x) - k * (p2.y - p3.y))
      + (0.5 * (p2.y - p3.y) + k * (p2.x - p3.x)) * (0.5 * (p2.y - p3.y) + k * (p2.x - p3.x))
      = dist2 (offcandidate p2 p3 k) p2 := by
    unfold dist2 offcandidate; norm_num; ring
  rw [e1, e2, e3]
  have c0 : ∀ dx dy : ℚ, (⟨p1.x + dx, p1.y + dy⟩ : Point2) = ccpoint p1 p2 p3 →
      dx * dx + dy * dy = dist2 (ccpoint p1 p2 p3) p1 ∧
      (dx - (p2.x - p1.x)) * (dx - (p2.x - p1.x)) + (dy - (p2.y - p1.y)) * (dy - (p2.y - p1.y))
        = dist2 (ccpoint p1 p2 p3) p2 := by
    intro dx dy hc
    rw [← hc]
    unfold dist2
    simp only
    constructor <;> ring
  obtain ⟨c1, c2⟩ := c0 _ _ (rfl : _ = ccpoint p1 p2 p3)
  simp only at c1 c2
  rw [c1, c2]
  have b1 : (p2.x - p1.x) * (p2.x - p1.x) + (p2.y - p1.y) * (p2.y - p1.y) = dist2 p2 p1 := rfl
  have b2 : (p3.x - p1.x) * (p3.x - p1.x) + (p3.y - p1.y) * (p3.y - p1.y) = dist2 p3 p1 := rfl
  have b3 : (p2.x - p3.x) * (p2.x - p3.x) + (p2.y - p3.y) * (p2.y - p3.y) = dist2 p2 p3 := rfl
  rw [b1, b2, b3]
  split_ifs <;> congr 1 <;> apply point2_ext <;> simp only [offcandidate, ccpoint, dist2] <;>
    (try norm_num) <;> (try ring)

/-- The off-center candidate lies on the perpendicular bisector of its edge, at `k` times the
edge length from the midpoint of the edge. -/
theorem offcandidate_on_bisector (a b : Point2) (k : ℚ) :
    dist2 (offcandidate a b k) a = dist2 (offcandidate a b k) b ∧
    dist2 (offcandidate a b k) ⟨(a.x + b.x) / 2, (a.y + b.y) / 2⟩ = k * k * dist2 a b := by
  unfold dist2 offcandidate
  simp only
  constructor <;> ring

/-! ## Theorems on the kernel -/

/-- C1: for a strictly counter-clockwise triple (`signed_area p1 p2 p3 > 0`), `circumcenter`
returns a point `c` at equal squared distance from `p1`, `p2` and `p3`, and every point
equidistant from the three is `c`. -/
theorem circumcenter_equidistant_unique (p1 p2 p3 : Point2) (h : signed_area p1 p2 p3 > 0) :
    ∃ c, circumcenter p1 p2 p3 = Outcome.point c ∧
      dist2 c p1 = dist2 c p2 ∧ dist2 c p2 = dist2 c p3 ∧
      ∀ q, dist2 q p1 = dist2 q p2 → dist2 q p2 = dist2 q p3 → q = c := by
  have ho : orient2d p1 p2 p3 > 0 := (signed_area_pos_iff p1 p2 p3).mp h
  have hne : orient2d p1 p2 p3 ≠ 0 := ne_of_gt ho
  refine ⟨ccpoint p1 p2 p3, circumcenter_eq_point p1 p2 p3 ho, ccpoint_dist_p2 p1 p2 p3 hne, ?_, ?_⟩
  · rw [← ccpoint_dist_p2 p1 p2 p3 hne, ccpoint_dist_p3 p1 p2 p3 hne]
  · intro q h12 h23
    exact equidistant_eq_ccpoint p1 p2 p3 q hne h12 h23

/-- Witness of C1 on the triangle (0,0), (2,0), (0,2). -/
theorem circumcenter_equidistant_unique_witness :
    signed_area ⟨0, 0⟩ ⟨2, 0⟩ ⟨0, 2⟩ > 0 ∧
    ∃ c, circumcenter ⟨0, 0⟩ ⟨2, 0⟩ ⟨0, 2⟩ = Outcome.point c ∧
      dist2 c ⟨0, 0⟩ = dist2 c ⟨2, 0⟩ ∧ dist2 c ⟨2, 0⟩ = dist2 c ⟨0, 2⟩ ∧
      ∀ q, dist2 q ⟨0, 0⟩ = dist2 q ⟨2, 0⟩ → dist2 q ⟨2, 0⟩ = dist2 q ⟨0, 2⟩ → q = c :=
  ⟨by norm_num [signed_area, orient2d],
   circumcenter_equidistant_unique ⟨0, 0⟩ ⟨2, 0⟩ ⟨0, 2⟩ (by norm_num [signed_area, orient2d])⟩

/-- C2: for a counter-clockwise triple `a`, `b`, `c` and any `test`, `oriented_circle` answers
ON_POSITIVE_SIDE exactly when `test` is strictly nearer to `circumcenter a b c` than `a` is,
ON_NEGATIVE_SIDE exactly when it is strictly farther, ON_ORIENTED_BOUNDARY exactly when it is at
the same distance. -/
theorem oriented_circle_inside_iff (a b c test : Point2) (h : signed_area a b c > 0) :
    ∃ cc, circumcenter a b c = Outcome.point cc ∧
      (oriented_circle a b c test = Oriented_side.ON_POSITIVE_SIDE
        ↔ dist2 test cc < dist2 a cc) ∧
      (oriented_circle a b c test = Oriented_side.ON_NEGATIVE_SIDE
        ↔ dist2 a cc < dist2 test cc) ∧
      (oriented_circle a b c test = Oriented_side.ON_ORIENTED_BOUNDARY
        ↔ dist2 test cc = dist2 a cc) := by
  have ho : orient2d a b c > 0 := (signed_area_pos_iff a b c).mp h
  have hne : orient2d a b c ≠ 0 := ne_of_gt ho
  have hin := incircle_eq a b c test hne
  refine ⟨ccpoint a b c, circumcenter_eq_point a b c ho, ?_, ?_, ?_⟩
  · rw [oriented_circle_pos, hin]
    constructor
    · intro hp
      have := (mul_pos_iff_of_pos_left ho).mp hp
      linarith
    · intro hp
      exact mul_pos ho (by linarith)
  · rw [oriented_circle_neg, hin]
    constructor
    · intro hp
      by_contra hc
      have h2 : 0 ≤ dist2 a (ccpoint a b c) - dist2 test (ccpoint a b c) := by linarith
      have := mul_nonneg (le_of_lt ho) h2
      linarith
    · intro hp
      exact mul_neg_of_pos_of_neg ho (by linarith)
  · rw [oriented_circle_zero, hin]
    constructor
    · intro hp
      rcases mul_eq_zero.mp hp with h0 | h0
      · exact absurd h0 hne
      · linarith
    · intro hp
      rw [hp]; ring

/-- Witness of C2 on the triangle (0,0), (2,0), (0,2) and the test point (1,1). -/
theorem oriented_circle_inside_iff_witness :
    signed_area ⟨0, 0⟩ ⟨2, 0⟩ ⟨0, 2⟩ > 0 ∧
    ∃ cc, circumcenter ⟨0, 0⟩ ⟨2, 0⟩ ⟨0, 2⟩ = Outcome.point cc ∧
      (oriented_circle ⟨0, 0⟩ ⟨2, 0⟩ ⟨0, 2⟩ ⟨1, 1⟩ = Oriented_side.ON_POSITIVE_SIDE
        ↔ dist2 ⟨1, 1⟩ cc < dist2 ⟨0, 0⟩ cc) ∧
      (oriented_circle ⟨0, 0⟩ ⟨2, 0⟩ ⟨0, 2⟩ ⟨1, 1⟩ = Oriented_side.ON_NEGATIVE_SIDE
        ↔ dist2 ⟨0, 0⟩ cc < dist2 ⟨1, 1⟩ cc) ∧
      (oriented_circle ⟨0, 0⟩ ⟨2, 0⟩ ⟨0, 2⟩ ⟨1, 1⟩ = Oriented_side.ON_ORIENTED_BOUNDARY
        ↔ dist2 ⟨1, 1⟩ cc = dist2 ⟨0, 0⟩ cc) :=
  ⟨by norm_num [signed_area, orient2d],
   oriented_circle_inside_iff ⟨0, 0⟩ ⟨2, 0⟩ ⟨0, 2⟩ ⟨1, 1⟩ (by norm_num [signed_area, orient2d])⟩

/-- C3: `oriented_side a b test` is ON_POSITIVE_SIDE exactly when the determinant
`(ax-tx)(by-ty) - (ay-ty)(bx-tx)` is positive, ON_NEGATIVE_SIDE exactly when it is negative and
ON_ORIENTED_BOUNDARY exactly when it is zero, which is exactly when the three points are
collinear. -/
theorem oriented_side_sign (a b test : Point2) :
    (oriented_side a b test = Oriented_side.ON_POSITIVE_SIDE
      ↔ (a.x - test.x) * (b.y - test.y) - (a.y - test.y) * (b.x - test.x) > 0) ∧
    (oriented_side a b test = Oriented_side.ON_NEGATIVE_SIDE
      ↔ (a.x - test.x) * (b.y - test.y) - (a.y - test.y) * (b.x - test.x) < 0) ∧
    (oriented_side a b test = Oriented_side.ON_ORIENTED_BOUNDARY
      ↔ (a.x - test.x) * (b.y - test.y) - (a.y - test.y) * (b.x - test.x) = 0) ∧
    (oriented_side a b test = Oriented_side.ON_ORIENTED_BOUNDARY ↔ collinear a b test) := by
  refine ⟨oriented_side_pos a b test, oriented_side_neg a b test, oriented_side_zero a b test, ?_⟩
  rw [oriented_side_zero]
  unfold orient2d collinear
  constructor
  · intro h; linear_combination h
  · intro h; linear_combination h

/-- C10: exchanging the first two arguments of `oriented_side` exchanges ON_POSITIVE_SIDE and
ON_NEGATIVE_SIDE and keeps ON_ORIENTED_BOUNDARY. -/
theorem oriented_side_swap (a b test : Point2) :
    (oriented_side a b test = Oriented_side.ON_POSITIVE_SIDE →
      oriented_side b a test = Oriented_side.ON_NEGATIVE_SIDE) ∧
    (oriented_side a b test = Oriented_side.ON_NEGATIVE_SIDE →
      oriented_side b a test = Oriented_side.ON_POSITIVE_SIDE) ∧
    (oriented_side a b test = Oriented_side.ON_ORIENTED_BOUNDARY →
      oriented_side b a test = Oriented_side.ON_ORIENTED_BOUNDARY) := by
  refine ⟨?_, ?_, ?_⟩
  · rw [oriented_side_pos, oriented_side_neg, orient2d_swap]; intro h; linarith
  · rw [oriented_side_pos, oriented_side_neg, orient2d_swap]; intro h; linarith
  · rw [oriented_side_zero, oriented_side_zero, orient2d_swap]; intro h; linarith

/-- Witness of C10 on a = (0,0), b = (1,0), test = (0,1). -/
theorem oriented_side_swap_witness :
    oriented_side ⟨0, 0⟩ ⟨1, 0⟩ ⟨0, 1⟩ = Oriented_side.ON_POSITIVE_SIDE ∧
    oriented_side ⟨1, 0⟩ ⟨0, 0⟩ ⟨0, 1⟩ = Oriented_side.ON_NEGATIVE_SIDE :=
  have h : oriented_side ⟨0, 0⟩ ⟨1, 0⟩ ⟨0, 1⟩ = Oriented_side.ON_POSITIVE_SIDE := by
    norm_num [oriented_side, orient2d]
  ⟨h, (oriented_side_swap ⟨0, 0⟩ ⟨1, 0⟩ ⟨0, 1⟩).1 h⟩

/-- On the collinear triple (0,0), (1,0), (2,0) the divisor `2.0 * signed_area` is zero, and both
`circumcenter` and `offcenter` end in the division by zero, not in a failed assertion. -/
theorem division_by_zero_on_collinear_triple :
    collinear ⟨0, 0⟩ ⟨1, 0⟩ ⟨2, 0⟩ ∧
    2.0 * signed_area ⟨0, 0⟩ ⟨1, 0⟩ ⟨2, 0⟩ = 0 ∧
    circumcenter ⟨0, 0⟩ ⟨1, 0⟩ ⟨2, 0⟩ = Outcome.division_by_zero ∧
    offcenter ⟨0, 0⟩ ⟨1, 0⟩ ⟨2, 0⟩ (1 / 2) = Outcome.division_by_zero := by
  refine ⟨?_, ?_, ?_, ?_⟩
  · norm_num [collinear]
  · norm_num [signed_area, orient2d]
  · exact circumcenter_eq_division_by_zero _ _ _ (by norm_num [orient2d])
  · exact offcenter_eq_division_by_zero _ _ _ _ (by norm_num [orient2d])

/-- C9 does not hold as stated: on the counter-clockwise triple (0,0), (2,0), (1,10) the edge
`p1p2` is the shortest, the candidate built on it with `offconstant = 1/2` (on either side of the
edge) is farther from the opposite vertex `p3` than the circumcenter (1, 99/20) is, and
`offcenter` still returns the candidate (1,1), not the circumcenter. -/
theorem offcenter_not_by_opposite_vertex :
    signed_area ⟨0, 0⟩ ⟨2, 0⟩ ⟨1, 10⟩ > 0 ∧
    dist2 ⟨2, 0⟩ ⟨0, 0⟩ < dist2 ⟨1, 10⟩ ⟨0, 0⟩ ∧
    dist2 ⟨2, 0⟩ ⟨0, 0⟩ < dist2 ⟨2, 0⟩ ⟨1, 10⟩ ∧
    circumcenter ⟨0, 0⟩ ⟨2, 0⟩ ⟨1, 10⟩ = Outcome.point ⟨1, 99 / 20⟩ ∧
    ¬ dist2 (offcandidate ⟨0, 0⟩ ⟨2, 0⟩ (1 / 2)) ⟨1, 10⟩ < dist2 ⟨1, 99 / 20⟩ ⟨1, 10⟩ ∧
    ¬ dist2 (offcandidate ⟨2, 0⟩ ⟨0, 0⟩ (1 / 2)) ⟨1, 10⟩ < dist2 ⟨1, 99 / 20⟩ ⟨1, 10⟩ ∧
    offcenter ⟨0, 0⟩ ⟨2, 0⟩ ⟨1, 10⟩ (1 / 2) = Outcome.point ⟨1, 1⟩ ∧
    offcenter ⟨0, 0⟩ ⟨2, 0⟩ ⟨1, 10⟩ (1 / 2) ≠ circumcenter ⟨0, 0⟩ ⟨2, 0⟩ ⟨1, 10⟩ := by
  have hc : circumcenter ⟨0, 0⟩ ⟨2, 0⟩ ⟨1, 10⟩ = Outcome.point ⟨1, 99 / 20⟩ := by
    norm_num [circumcenter, signed_area, orient2d]
  have ho : offcenter ⟨0, 0⟩ ⟨2, 0⟩ ⟨1, 10⟩ (1 / 2) = Outcome.point ⟨1, 1⟩ := by
    norm_num [offcenter, signed_area, orient2d]
  refine ⟨?_, ?_, ?_, hc, ?_, ?_, ho, ?_⟩
  · norm_num [signed_area, orient2d]
  · norm_num [dist2]
  · norm_num [dist2]
  · norm_num [dist2, offcandidate]
  · norm_num [dist2, offcandidate]
  · rw [hc, ho]; norm_num

/-- C9, amended: on a counter-clockwise triple `offcenter` works on the edge `p1p2` when it is
strictly the shortest, else on `p1p3` when it is strictly shorter than `p2p3`, else on `p2p3`.
On `p1p2` and on `p1p3` it returns the off-center candidate of that edge (the midpoint displaced
perpendicular to the edge, towards the triangle, by `offconstant` times the edge length) when
the candidate is strictly nearer to the endpoint `p1` of the edge than the circumcenter is, and
the circumcenter otherwise. On `p2p3` it returns the circumcenter when the candidate of that
edge is not strictly nearer to the endpoint `p2` than the circumcenter is. -/
theorem offcenter_candidate_or_circumcenter (p1 p2 p3 : Point2) (offconstant : ℚ)
    (h : signed_area p1 p2 p3 > 0) :
    ∃ cc, circumcenter p1 p2 p3 = Outcome.point cc ∧
      (dist2 p2 p1 < dist2 p3 p1 ∧ dist2 p2 p1 < dist2 p2 p3 →
        offcenter p1 p2 p3 offconstant
          = Outcome.point (if dist2 (offcandidate p1 p2 offconstant) p1 < dist2 cc p1
                  then offcandidate p1 p2 offconstant else cc)) ∧
      (¬ (dist2 p2 p1 < dist2 p3 p1 ∧ dist2 p2 p1 < dist2 p2 p3) ∧ dist2 p3 p1 < dist2 p2 p3 →
        offcenter p1 p2 p3 offconstant
          = Outcome.point (if dist2 (offcandidate p3 p1 offconstant) p1 < dist2 cc p1
                  then offcandidate p3 p1 offconstant else cc)) ∧
      (¬ (dist2 p2 p1 < dist2 p3 p1 ∧ dist2 p2 p1 < dist2 p2 p3) ∧ ¬ dist2 p3 p1 < dist2 p2 p3
          ∧ ¬ dist2 (offcandidate p2 p3 offconstant) p2 < dist2 cc p2 →
        offcenter p1 p2 p3 offconstant = Outcome.point cc) := by
  have ho : orient2d p1 p2 p3 > 0 := (signed_area_pos_iff p1 p2 p3).mp h
  refine ⟨ccpoint p1 p2 p3, circumcenter_eq_point p1 p2 p3 ho, ?_, ?_, ?_⟩
  · intro hb
    rw [offcenter_branches p1 p2 p3 offconstant ho, if_pos hb]
    split_ifs <;> rfl
  · rintro ⟨hb1, hb2⟩
    rw [offcenter_branches p1 p2 p3 offconstant ho, if_neg hb1, if_pos hb2]
    split_ifs <;> rfl
  · rintro ⟨hb1, hb2, hb3⟩
    rw [offcenter_branches p1 p2 p3 offconstant ho, if_neg hb1, if_neg hb2, if_neg hb3]

/-- Witness of C9, amended, on the triple (0,0), (2,0), (1,10) with `offconstant = 1/2`. -/
theorem offcenter_candidate_or_circumcenter_witness :
    signed_area ⟨0, 0⟩ ⟨2, 0⟩ ⟨1, 10⟩ > 0 ∧
    ∃ cc, circumcenter ⟨0, 0⟩ ⟨2, 0⟩ ⟨1, 10⟩ = Outcome.point cc ∧
      (dist2 ⟨2, 0⟩ ⟨0, 0⟩ < dist2 ⟨1, 10⟩ ⟨0, 0⟩ ∧ dist2 ⟨2, 0⟩ ⟨0, 0⟩ < dist2 ⟨2, 0⟩ ⟨1, 10⟩ →
        offcenter ⟨0, 0⟩ ⟨2, 0⟩ ⟨1, 10⟩ (1 / 2)
          = Outcome.point (if dist2 (offcandidate ⟨0, 0⟩ ⟨2, 0⟩ (1 / 2)) ⟨0, 0⟩ < dist2 cc ⟨0, 0⟩
                  then offcandidate ⟨0, 0⟩ ⟨2, 0⟩ (1 / 2) else cc)) ∧
      (¬ (dist2 ⟨2, 0⟩ ⟨0, 0⟩ < dist2 ⟨1, 10⟩ ⟨0, 0⟩ ∧ dist2 ⟨2, 0⟩ ⟨0, 0⟩ < dist2 ⟨2, 0⟩ ⟨1, 10⟩)
          ∧ dist2 ⟨1, 10⟩ ⟨0, 0⟩ < dist2 ⟨2, 0⟩ ⟨1, 10⟩ →
        offcenter ⟨0, 0⟩ ⟨2, 0⟩ ⟨1, 10⟩ (1 / 2)
          = Outcome.point (if dist2 (offcandidate ⟨1, 10⟩ ⟨0, 0⟩ (1 / 2)) ⟨0, 0⟩ < dist2 cc ⟨0, 0⟩
                  then offcandidate ⟨1, 10⟩ ⟨0, 0⟩ (1 / 2) else cc)) ∧
      (¬ (dist2 ⟨2, 0⟩ ⟨0, 0⟩ < dist2 ⟨1, 10⟩ ⟨0, 0⟩ ∧ dist2 ⟨2, 0⟩ ⟨0, 0⟩ < dist2 ⟨2, 0⟩ ⟨1, 10⟩)
          ∧ ¬ dist2 ⟨1, 10⟩ ⟨0, 0⟩ < dist2 ⟨2, 0⟩ ⟨1, 10⟩
          ∧ ¬ dist2 (offcandidate ⟨2, 0⟩ ⟨1, 10⟩ (1 / 2)) ⟨2, 0⟩ < dist2 cc ⟨2, 0⟩ →
        offcenter ⟨0, 0⟩ ⟨2, 0⟩ ⟨1, 10⟩ (1 / 2) = Outcome.point cc) :=
  ⟨by norm_num [signed_area, orient2d],
   offcenter_candidate_or_circumcenter ⟨0, 0⟩ ⟨2, 0⟩ ⟨1, 10⟩ (1 / 2)
     (by norm_num [signed_area, orient2d])⟩

/-! ## Lemmas on the mesh operators -/

theorem find?_filter_ne {α : Type} (f : α → Nat) (l : List α) (k j : Nat) :
    (l.filter (fun x => f x != k)).find? (fun x => f x == j)
      = if j = k then none else l.find? (fun x => f x == j) := by
  induction l with
  | nil => simp
  | cons a l ih =>
    by_cases hak : f a = k
    · by_cases hjk : j = k
      · simp [List.filter_cons, hak, hjk, ih]
      · have hne : ¬ k = j := fun h => hjk h.symm
        simp [List.filter_cons, hak, hjk, hne, ih, List.find?_cons]
    · by_cases hjk : j = k
      · subst hjk
        simp [List.filter_cons, hak, ih, List.find?_cons]
      · by_cases haj : f a = j
        · simp [List.filter_cons, hak, hjk, haj, List.find?_cons]
        · simp [List.filter_cons, hak, hjk, haj, ih, List.find?_cons]

theorem find?_id_mem {α : Type} (f : α → Nat) (l : List α) (j : Nat) (a : α)
    (h : l.find? (fun x => f x == j) = some a) : a ∈ l ∧ f a = j := by
  constructor
  · exact List.mem_of_find?_eq_some h
  · have := List.find?_some h
    simpa using this

theorem find?_of_nodup {α : Type} (f : α → Nat) (l : List α) (hn : (l.map f).Nodup) (a : α)
    (ha : a ∈ l) : l.find? (fun x => f x == f a) = some a := by
  induction l with
  | nil => cases ha
  | cons b l ih =>
    rw [List.map_cons, List.nodup_cons] at hn
    rcases List.mem_cons.mp ha with hab | hal
    · subst hab; simp [List.find?_cons]
    · have hne : f b ≠ f a := by
        intro hba
        apply hn.1
        rw [hba]
        exact List.mem_map_of_mem f hal
      simp [List.find?_cons, hne, ih hn.2 hal]

theorem find_halfedge_cons (e : Edge) (es : List Edge) (r : HalfEdgeRef) :
    find_halfedge (e :: es) r
      = if e.id = r.edge then some (e.he r.idx) else find_halfedge es r := by
  unfold find_halfedge
  by_cases h : e.id = r.edge
  · simp [List.find?_cons, h]
  · simp [List.find?_cons, h]

theorem find_halfedge_filter (es : List Edge) (k : Nat) (r : HalfEdgeRef) :
    find_halfedge (es.filter (fun x => x.id != k)) r
      = if r.edge = k then none else find_halfedge es r := by
  unfold find_halfedge
  rw [find?_filter_ne (fun x : Edge => x.id)]
  split_ifs <;> simp

theorem Edge.set_element_id (e : Edge) (i : Bool) (v : Option Nat) :
    (e.set_element i v).id = e.id := by
  unfold Edge.set_element; split_ifs <;> rfl

theorem Edge.set_element_he (e : Edge) (i j : Bool) (v : Option Nat) :
    (e.set_element i v).he j
      = if j = i then { e.he j with element := v } else e.he j := by
  unfold Edge.set_element Edge.he
  cases i <;> cases j <;> simp

theorem find_halfedge_set_element (es : List Edge) (r s : HalfEdgeRef) (v : Option Nat) :
    find_halfedge (set_element es r v) s
      = if s = r then (find_halfedge es s).map (fun h => { h with element := v })
        else find_halfedge es s := by
  induction es with
  | nil => simp [find_halfedge, set_element]
  | cons e es ih =>
    have hcons : set_element (e :: es) r v
        = (if e.id = r.edge then e.set_element r.idx v else e) :: set_element es r v := rfl
    rw [hcons, find_halfedge_cons, find_halfedge_cons, ih]
    have hid : (if e.id = r.edge then e.set_element r.idx v else e).id = e.id := by
      split_ifs
      · exact Edge.set_element_id e _ _
      · rfl
    rw [hid]
    by_cases hes : e.id = s.edge
    · simp only [hes, if_true]
      by_cases hsr : s = r
      · subst hsr
        simp [Edge.set_element_he]
      · simp only [hsr, if_false]
        by_cases hse : s.edge = r.edge
        · have hidx : s.idx ≠ r.idx := by
            intro hi
            apply hsr
            cases s; cases r
            simp only at hse hi
            simp [hse, hi]
          simp [hse, Edge.set_element_he, hidx]
        · simp [hse]
    · simp only [hes, if_false]

theorem length_filter_ne_of_nodup {α : Type} (f : α → Nat) (l : List α)
    (hn : (l.map f).Nodup) (a : α) (ha : a ∈ l) :
    (l.filter (fun x => f x != f a)).length + 1 = l.length := by
  induction l with
  | nil => cases ha
  | cons b l ih =>
    rw [List.map_cons, List.nodup_cons] at hn
    rcases List.mem_cons.mp ha with hab | hal
    · subst hab
      have hall : ∀ x ∈ l, (f x != f a) = true := by
        intro x hx
        have : f x ≠ f a := by
          intro hxa
          apply hn.1
          rw [← hxa]
          exact List.mem_map_of_mem f hx
        simpa using this
      have hfl : l.filter (fun x => f x != f a) = l := List.filter_eq_self.mpr hall
      simp [List.filter_cons, hfl]
    · have hne : f b ≠ f a := by
        intro hba
        apply hn.1
        rw [hba]
        exact List.mem_map_of_mem f hal
      have := ih hn.2 hal
      simp [List.filter_cons, hne, this]

theorem mem_set_element (es : List Edge) (r : HalfEdgeRef) (v : Option Nat) (x : Edge) :
    x ∈ set_element es r v
      ↔ ∃ e ∈ es, x = if e.id = r.edge then e.set_element r.idx v else e := by
  unfold set_element
  rw [List.mem_map]
  constructor
  · rintro ⟨e, he, hx⟩; exact ⟨e, he, hx.symm⟩
  · rintro ⟨e, he, hx⟩; exact ⟨e, he, hx.symm⟩

theorem set_element_ids (es : List Edge) (r : HalfEdgeRef) (v : Option Nat) :
    (set_element es r v).map (fun e => e.id) = es.map (fun e => e.id) := by
  unfold set_element
  rw [List.map_map]
  apply List.map_congr_left
  intro e _
  simp only [Function.comp]
  split_ifs
  · exact Edge.set_element_id e _ _
  · rfl

theorem set_element_length (es : List Edge) (r : HalfEdgeRef) (v : Option Nat) :
    (set_element es r v).length = es.length := by
  unfold set_element; simp

/-- What writing `none` into the half-edge `r` does to one edge. -/
theorem ite_set_element_none (e : Edge) (r : HalfEdgeRef) :
    (if e.id = r.edge then e.set_element r.idx none else e).id = e.id ∧
    (if e.id = r.edge then e.set_element r.idx none else e).he0.origin = e.he0.origin ∧
    (if e.id = r.edge then e.set_element r.idx none else e).he1.origin = e.he1.origin ∧
    ∀ i, ((if e.id = r.edge then e.set_element r.idx none else e).he i).element
      = if (⟨e.id, i⟩ : HalfEdgeRef) = r then none else (e.he i).element := by
  cases r with
  | mk k j =>
    by_cases h : e.id = k
    · simp only [h, if_true]
      refine ⟨?_, ?_, ?_, ?_⟩
      · rw [Edge.set_element_id]; exact h
      · unfold Edge.set_element; split_ifs <;> rfl
      · unfold Edge.set_element; split_ifs <;> rfl
      · intro i
        rw [Edge.set_element_he]
        by_cases hij : i = j
        · simp [hij]
        · simp [hij]
    · simp [h]

theorem set_element_ends (es : List Edge) (r : HalfEdgeRef) (v : Option Nat) :
    (set_element es r v).map Edge.ends = es.map Edge.ends := by
  unfold set_element
  rw [List.map_map]
  apply List.map_congr_left
  intro e _
  simp only [Function.comp]
  split_ifs
  · unfold Edge.ends Edge.set_element; split_ifs <;> rfl
  · rfl

/-- The edges after the three half-edges of `t` have been unbound. -/
theorem mem_unbind (es : List Edge) (t : Element) (x : Edge)
    (hx : x ∈ set_element (set_element (set_element es t.he1 none) t.he2 none) t.he3 none) :
    ∃ e ∈ es, x.id = e.id ∧ x.he0.origin = e.he0.origin ∧ x.he1.origin = e.he1.origin ∧
      ∀ i, (x.he i).element = if t.has ⟨e.id, i⟩ then none else (e.he i).element := by
  obtain ⟨e2, he2, hx2⟩ := (mem_set_element _ _ _ _).mp hx
  obtain ⟨e1, he1, hx1⟩ := (mem_set_element _ _ _ _).mp he2
  obtain ⟨e, he, hx0⟩ := (mem_set_element _ _ _ _).mp he1
  obtain ⟨a1, a2, a3, a4⟩ := ite_set_element_none e t.he1
  obtain ⟨b1, b2, b3, b4⟩ := ite_set_element_none e1 t.he2
  obtain ⟨c1, c2, c3, c4⟩ := ite_set_element_none e2 t.he3
  rw [← hx0] at a1 a2 a3 a4
  rw [← hx1] at b1 b2 b3 b4
  rw [← hx2] at c1 c2 c3 c4
  refine ⟨e, he, by rw [c1, b1, a1], by rw [c2, b2, a2], by rw [c3, b3, a3], ?_⟩
  intro i
  rw [c4 i, b4 i, a4 i, b1, a1]
  unfold Element.has
  by_cases h1 : t.he1 = ⟨e.id, i⟩ <;> by_cases h2 : t.he2 = ⟨e.id, i⟩ <;>
    by_cases h3 : t.he3 = ⟨e.id, i⟩ <;>
    simp [h1, h2, h3, eq_comm]

theorem find_halfedge_unbind (es : List Edge) (t : Element) (r : HalfEdgeRef) :
    find_halfedge (set_element (set_element (set_element es t.he1 none) t.he2 none) t.he3 none) r
      = if t.has r then (find_halfedge es r).map (fun h => { h with element := none })
        else find_halfedge es r := by
  rw [find_halfedge_set_element, find_halfedge_set_element, find_halfedge_set_element]
  unfold Element.has
  have hh : (t.he1 = r ∨ t.he2 = r ∨ t.he3 = r) ↔ (r = t.he1 ∨ r = t.he2 ∨ r = t.he3) := by
    constructor <;> (rintro (h | h | h) <;> simp [h])
  simp only [hh]
  cases find_halfedge es r with
  | none => split_ifs <;> simp
  | some h => split_ifs <;> simp_all

theorem mesh_remove_element_spec (m : Mesh) (el : Nat) (t : Element)
    (hf : m.find_element el = some t) :
    ∃ m1, mesh_remove_element m el = some m1 ∧ m1.nodes = m.nodes ∧
      m1.edges = set_element (set_element (set_element m.edges t.he1 none) t.he2 none) t.he3 none ∧
      m1.elements = m.elements.filter (fun x => x.id != el) ∧
      m1.Np = m.Np ∧ m1.Ne = m.Ne ∧ m1.Nt = m.Nt - 1 ∧ m1.fresh = m.fresh := by
  unfold mesh_remove_element
  rw [hf]
  exact ⟨_, rfl, rfl, rfl, rfl, rfl, rfl, rfl, rfl⟩

theorem find_element_mem (m : Mesh) (el : Nat) (t : Element)
    (hf : m.find_element el = some t) : t ∈ m.elements ∧ t.id = el :=
  find?_id_mem (fun x : Element => x.id) m.elements el t hf

theorem consistent_find_element (m : Mesh) (hc : m.consistent) (t : Element)
    (ht : t ∈ m.elements) : m.find_element t.id = some t :=
  find?_of_nodup (fun x : Element => x.id) m.elements hc.2.2.2.2.2.1 t ht

theorem consistent_find_edge (m : Mesh) (hc : m.consistent) (e : Edge)
    (he : e ∈ m.edges) : m.find_edge e.id = some e :=
  find?_of_nodup (fun x : Edge => x.id) m.edges hc.2.2.2.2.1 e he

/-- In a consistent mesh a half-edge belongs to at most one element. -/
theorem consistent_has_unique (m : Mesh) (hc : m.consistent) (t u : Element)
    (ht : t ∈ m.elements) (hu : u ∈ m.elements) (r : HalfEdgeRef)
    (htr : t.has r) (hur : u.has r) : t.id = u.id := by
  have hto := hc.2.2.2.2.2.2.2.2
  have bt : m.bounds r t.id := by
    obtain ⟨_, b1, b2, b3, _⟩ := hto t ht
    rcases htr with h | h | h
    · rw [← h]; exact b1
    · rw [← h]; exact b2
    · rw [← h]; exact b3
  have bu : m.bounds r u.id := by
    obtain ⟨_, b1, b2, b3, _⟩ := hto u hu
    rcases hur with h | h | h
    · rw [← h]; exact b1
    · rw [← h]; exact b2
    · rw [← h]; exact b3
  unfold Mesh.bounds at bt bu
  rw [bt] at bu
  simpa using bu

/-- Removing an element of a consistent mesh succeeds and leaves a consistent mesh with the same
nodes, the same edges up to element references, and one element less. -/
theorem mesh_remove_element_consistent (m : Mesh) (hc : m.consistent) (el : Nat) (t : Element)
    (hf : m.find_element el = some t) :
    ∃ m1, mesh_remove_element m el = some m1 ∧ m1.consistent ∧ m1.nodes = m.nodes ∧
      m1.edges.map Edge.ends = m.edges.map Edge.ends ∧
      m1.elements = m.elements.filter (fun x => x.id != el) ∧
      m1.Np = m.Np ∧ m1.Ne = m.Ne ∧ m1.Nt + 1 = m.Nt ∧ m1.fresh = m.fresh ∧
      (∀ r, m1.halfedge r
        = if t.has r then (m.halfedge r).map (fun h => { h with element := none })
          else m.halfedge r) ∧
      (∀ r, m1.origin r = m.origin r) := by
  obtain ⟨m1, hrm, hnodes, hedges, helems, hNp1, hNe1, hNt1, hfresh⟩ :=
    mesh_remove_element_spec m el t hf
  obtain ⟨htm, htid⟩ := find_element_mem m el t hf
  have hc0 := hc
  obtain ⟨hNp, hNe, hNt, hnn, hen, htn, hnf, heo, hto⟩ := hc
  have hlen : (m.elements.filter (fun x => x.id != el)).length + 1 = m.elements.length := by
    rw [← htid]
    exact length_filter_ne_of_nodup (fun x : Element => x.id) m.elements htn t htm
  have hhalf : ∀ r, m1.halfedge r
      = if t.has r then (m.halfedge r).map (fun h => { h with element := none })
        else m.halfedge r := by
    intro r
    unfold Mesh.halfedge
    rw [hedges]
    exact find_halfedge_unbind m.edges t r
  have horigin : ∀ r, m1.origin r = m.origin r := by
    intro r
    unfold Mesh.origin
    rw [hhalf r]
    split_ifs
    · cases m.halfedge r <;> simp
    · rfl
  have hfindel : ∀ k, k ≠ el → m1.find_element k = m.find_element k := by
    intro k hk
    unfold Mesh.find_element
    rw [helems, find?_filter_ne (fun x : Element => x.id)]
    simp [hk]
  have hfindnode : ∀ k, m1.find_node k = m.find_node k := by
    intro k
    unfold Mesh.find_node
    rw [hnodes]
  refine ⟨m1, hrm, ?_, hnodes, ?_, helems, hNp1, hNe1, ?_, hfresh, hhalf, horigin⟩
  · refine ⟨?_, ?_, ?_, ?_, ?_, ?_, ?_, ?_, ?_⟩
    · rw [hNp1, hnodes]; exact hNp
    · rw [hNe1, hedges, set_element_length, set_element_length, set_element_length]; exact hNe
    · rw [hNt1, helems]; omega
    · rw [hnodes]; exact hnn
    · rw [hedges, set_element_ids, set_element_ids, set_element_ids]; exact hen
    · rw [helems]
      exact List.Nodup.sublist (List.Sublist.map _ (List.filter_sublist _)) htn
    · rw [hnodes, hfresh]; exact hnf
    · intro x hx
      rw [hedges] at hx
      obtain ⟨e, he, hxid, hx0, hx1, hxel⟩ := mem_unbind m.edges t x hx
      obtain ⟨o1, o2, o3, o4, o5, o6⟩ := heo e he
      have hbind : ∀ i, m.binding_ok e i → m1.binding_ok x i := by
        intro i hb k hk
        have hk2 : (x.he i).element = some k := hk
        rw [hxel i] at hk2
        by_cases hhas : t.has ⟨e.id, i⟩
        · simp [hhas] at hk2
        · simp only [hhas, if_false] at hk2
          obtain ⟨u, hu, huhas⟩ := hb k hk2
          have hu2 : m.find_element k = some u := hu
          have hkel : k ≠ el := by
            intro hkel
            rw [hkel, hf] at hu2
            have : t = u := by simpa using hu2
            rw [← this] at huhas
            exact hhas huhas
          refine ⟨u, ?_, ?_⟩
          · show m1.find_element k = some u
            rw [hfindel k hkel]; exact hu2
          · rw [hxid]; exact huhas
      refine ⟨?_, ?_, ?_, ?_, hbind false o5, hbind true o6⟩
      · rw [hxid, hfresh]; exact o1
      · rw [hx0, hx1]; exact o2
      · rw [hx0, hfindnode]; exact o3
      · rw [hx1, hfindnode]; exact o4
    · intro u hu
      rw [helems] at hu
      obtain ⟨hum, hune⟩ := List.mem_filter.mp hu
      have hune2 : u.id ≠ el := by simpa using hune
      obtain ⟨p1, p2, p3, p4, p5, p6, p7⟩ := hto u hum
      have hnot : ∀ r, u.has r → ¬ t.has r := by
        intro r hur htr
        apply hune2
        rw [← htid]
        exact (consistent_has_unique m hc0 t u htm hum r htr hur).symm
      have hb : ∀ r, u.has r → m.bounds r u.id → m1.bounds r u.id := by
        intro r hur hbr
        unfold Mesh.bounds
        rw [hhalf r, if_neg (hnot r hur)]
        exact hbr
      refine ⟨?_, hb _ (Or.inl rfl) p2, hb _ (Or.inr (Or.inl rfl)) p3,
        hb _ (Or.inr (Or.inr rfl)) p4, ?_, ?_, ?_⟩
      · rw [hfresh]; exact p1
      · unfold Mesh.target; rw [horigin, horigin]; exact p5
      · unfold Mesh.target; rw [horigin, horigin]; exact p6
      · unfold Mesh.target; rw [horigin, horigin]; exact p7
  · rw [hedges, set_element_ends, set_element_ends, set_element_ends]
  · rw [hNt1]; omega

theorem halfedge_mem (m : Mesh) (r : HalfEdgeRef) (h : HalfEdge)
    (hr : m.halfedge r = some h) :
    ∃ e ∈ m.edges, e.id = r.edge ∧ e.he r.idx = h ∧ m.find_edge r.edge = some e := by
  unfold Mesh.halfedge find_halfedge at hr
  cases hfe : m.edges.find? (fun x => x.id == r.edge) with
  | none => rw [hfe] at hr; simp at hr
  | some e =>
    rw [hfe] at hr
    obtain ⟨hm, hid⟩ := find?_id_mem (fun x : Edge => x.id) m.edges r.edge e hfe
    refine ⟨e, hm, hid, ?_, hfe⟩
    simpa using hr

theorem halfedge_of_find_edge (m : Mesh) (e : Nat) (ed : Edge) (hf : m.find_edge e = some ed)
    (i : Bool) : m.halfedge ⟨e, i⟩ = some (ed.he i) := by
  unfold Mesh.halfedge find_halfedge
  unfold Mesh.find_edge at hf
  simp only
  rw [hf]
  rfl

theorem uses_iff_has (t : Element) (e : Nat) :
    t.uses e = true ↔ t.has ⟨e, false⟩ ∨ t.has ⟨e, true⟩ := by
  unfold Element.uses Element.has
  have key : ∀ r : HalfEdgeRef, r.edge = e ↔ (r = ⟨e, false⟩ ∨ r = ⟨e, true⟩) := by
    intro r
    cases r with
    | mk k j =>
      constructor
      · intro h
        simp only at h
        subst h
        cases j <;> simp
      · rintro (h | h) <;> (rw [h])
  simp only [Bool.or_eq_true, beq_iff_eq, key]
  tauto

/-- Removing the element adjacent to a half-edge of a consistent mesh. -/
theorem remove_adjacent_element_consistent (m : Mesh) (hc : m.consistent) (r : HalfEdgeRef)
    (h : HalfEdge) (hr : m.halfedge r = some h) :
    ∃ m1, remove_adjacent_element m r = some m1 ∧ m1.consistent ∧ m1.nodes = m.nodes ∧
      m1.edges.map Edge.ends = m.edges.map Edge.ends ∧
      m1.elements = m.elements.filter (fun x => !decide (x.has r)) ∧
      m1.Np = m.Np ∧ m1.Ne = m.Ne ∧ m1.fresh = m.fresh ∧
      (m1.halfedge r).map (fun x => x.element) = some none ∧
      (∀ s, (m.halfedge s).map (fun x => x.element) = some none →
        (m1.halfedge s).map (fun x => x.element) = some none) ∧
      (∀ s, m1.origin s = m.origin s) := by
  obtain ⟨e, hem, heid, hhe, _⟩ := halfedge_mem m r h hr
  have hto := hc.2.2.2.2.2.2.2.2
  have hreq : (⟨e.id, r.idx⟩ : HalfEdgeRef) = r := by
    cases r; simp only at heid; simp [heid]
  have hra_none : h.element = none → remove_adjacent_element m r = some m := by
    intro hel
    unfold remove_adjacent_element
    rw [hr]
    simp only [hel]
  have hra_some : ∀ k, h.element = some k →
      remove_adjacent_element m r = mesh_remove_element m k := by
    intro k hel
    unfold remove_adjacent_element
    rw [hr]
    simp only [hel]
  cases hel : h.element with
  | none =>
    refine ⟨m, hra_none hel, hc, rfl, rfl, ?_, rfl, rfl, rfl, ?_, fun s hs => hs, fun s => rfl⟩
    · symm
      apply List.filter_eq_self.mpr
      intro x hx
      have : ¬ x.has r := by
        intro hxr
        have bx : m.bounds r x.id := by
          obtain ⟨_, b1, b2, b3, _⟩ := hto x hx
          rcases hxr with h1 | h1 | h1
          · rw [← h1]; exact b1
          · rw [← h1]; exact b2
          · rw [← h1]; exact b3
        unfold Mesh.bounds at bx
        rw [hr] at bx
        simp [hel] at bx
      simp [this]
    · rw [hr]; simp [hel]
  | some k =>
    have hb : m.binding_ok e r.idx := by
      obtain ⟨_, _, _, _, o5, o6⟩ := hc.2.2.2.2.2.2.2.1 e hem
      cases hi : r.idx
      · exact o5
      · exact o6
    have hk : (e.he r.idx).element = some k := by rw [hhe]; exact hel
    obtain ⟨u, hu, huhas⟩ := hb k hk
    have hu2 : m.find_element k = some u := hu
    rw [hreq] at huhas
    obtain ⟨hum, huid⟩ := find_element_mem m k u hu2
    obtain ⟨m1, hrm, hc1, hnodes, hends, helems, hNp1, hNe1, _, hfresh, hhalf, horigin⟩ :=
      mesh_remove_element_consistent m hc k u hu2
    refine ⟨m1, (hra_some k hel).trans hrm, hc1, hnodes, hends, ?_, hNp1, hNe1, hfresh, ?_, ?_,
      horigin⟩
    · rw [helems]
      apply List.filter_congr
      intro x hx
      by_cases hxr : x.has r
      · have : x.id = k := by
          rw [← huid]
          exact consistent_has_unique m hc x u hx hum r hxr huhas
        simp [hxr, this]
      · have : x.id ≠ k := by
          intro hxk
          have h1 := consistent_find_element m hc x hx
          rw [hxk, hu2] at h1
          have : u = x := by simpa using h1
          rw [← this] at hxr
          exact hxr huhas
        simp [hxr, this]
    · rw [hhalf r, if_pos huhas, hr]; rfl
    · intro s hs
      rw [hhalf s]
      split_ifs
      · cases hms : m.halfedge s with
        | none => rw [hms] at hs; simp at hs
        | some x => rfl
      · exact hs

theorem halfedge_of_origin (m : Mesh) (r : HalfEdgeRef) (n : Nat) (h : m.origin r = some n) :
    ∃ x, m.halfedge r = some x ∧ x.origin = n := by
  unfold Mesh.origin at h
  cases hx : m.halfedge r with
  | none => rw [hx] at h; simp at h
  | some x =>
    rw [hx] at h
    exact ⟨x, rfl, by simpa using h⟩

/-- Removing an edge of a consistent mesh succeeds and leaves a consistent mesh: the same nodes,
the other edges, and the elements that do not lie on the edge. -/
theorem mesh_remove_edge_consistent (m : Mesh) (hc : m.consistent) (e : Nat) (ed : Edge)
    (hf : m.find_edge e = some ed) :
    ∃ m3, mesh_remove_edge m e = some m3 ∧ m3.consistent ∧ m3.nodes = m.nodes ∧
      m3.edges.map Edge.ends = (m.edges.map Edge.ends).filter (fun x => x.1 != e) ∧
      m3.elements = m.elements.filter (fun x => !x.uses e) ∧
      m3.Np = m.Np ∧ m3.Ne + 1 = m.Ne ∧ m3.fresh = m.fresh := by
  have h0 := halfedge_of_find_edge m e ed hf false
  have h1 := halfedge_of_find_edge m e ed hf true
  obtain ⟨m1, hr1, hc1, hnodes1, hends1, helems1, hNp1, hNe1, hfresh1, hfree1, hmono1, horig1⟩ :=
    remove_adjacent_element_consistent m hc ⟨e, false⟩ _ h0
  have h1o : m1.origin ⟨e, true⟩ = some (ed.he true).origin := by
    rw [horig1]; unfold Mesh.origin; rw [h1]; rfl
  obtain ⟨x1, hx1, _⟩ := halfedge_of_origin m1 _ _ h1o
  obtain ⟨m2, hr2, hc2, hnodes2, hends2, helems2, hNp2, hNe2, hfresh2, hfree2, hmono2, _⟩ :=
    remove_adjacent_element_consistent m1 hc1 ⟨e, true⟩ x1 hx1
  have hfree0 := hmono2 _ hfree1
  have hfree : ∀ i, (m2.halfedge ⟨e, i⟩).map (fun x => x.element) = some none := by
    intro i
    cases i
    · exact hfree0
    · exact hfree2
  obtain ⟨hNp, hNe, hNt, hnn, hen, htn, hnf, heo, hto⟩ := hc2
  cases hx0 : m2.halfedge ⟨e, false⟩ with
  | none => have := hfree false; rw [hx0] at this; simp at this
  | some x0 =>
    obtain ⟨ed2, hed2m, hed2id, _, _⟩ := halfedge_mem m2 _ _ hx0
    simp only at hed2id
    have hlen : (m2.edges.filter (fun x => x.id != e)).length + 1 = m2.edges.length := by
      rw [← hed2id]
      exact length_filter_ne_of_nodup (fun x : Edge => x.id) m2.edges hen ed2 hed2m
    have hnot : ∀ u ∈ m2.elements, ∀ r, u.has r → r.edge ≠ e := by
      intro u hu r hur hre
      have br : m2.bounds r u.id := by
        obtain ⟨_, b1, b2, b3, _⟩ := hto u hu
        rcases hur with h | h | h
        · rw [← h]; exact b1
        · rw [← h]; exact b2
        · rw [← h]; exact b3
      have hri : r = ⟨e, r.idx⟩ := by
        cases r; simp only at hre; simp [hre]
      unfold Mesh.bounds at br
      rw [hri] at br
      rw [hfree r.idx] at br
      simp at br
    have hunf : mesh_remove_edge m e
        = some { m2 with edges := m2.edges.filter (fun x => x.id != e), Ne := m2.Ne - 1 } := by
      unfold mesh_remove_edge
      rw [hr1]
      simp only
      rw [hr2]
    refine ⟨_, hunf, ?_, ?_, ?_, ?_, ?_, ?_, ?_⟩
    · refine ⟨hNp, ?_, hNt, hnn, ?_, htn, hnf, ?_, ?_⟩
      · show m2.Ne - 1 = (m2.edges.filter (fun x => x.id != e)).length
        omega
      · exact List.Nodup.sublist (List.Sublist.map _ (List.filter_sublist _)) hen
      · intro x hx
        have hx2 : x ∈ m2.edges := (List.mem_filter.mp hx).1
        exact heo x hx2
      · intro u hu
        obtain ⟨p1, p2, p3, p4, p5, p6, p7⟩ := hto u hu
        have hhalf : ∀ r, r.edge ≠ e →
            Mesh.halfedge { m2 with edges := m2.edges.filter (fun x => x.id != e),
                                    Ne := m2.Ne - 1 } r = m2.halfedge r := by
          intro r hre
          unfold Mesh.halfedge
          simp only
          rw [find_halfedge_filter, if_neg hre]
        have horigin : ∀ r, r.edge ≠ e →
            Mesh.origin { m2 with edges := m2.edges.filter (fun x => x.id != e),
                                  Ne := m2.Ne - 1 } r = m2.origin r := by
          intro r hre
          unfold Mesh.origin
          rw [hhalf r hre]
        have n1 := hnot u hu u.he1 (Or.inl rfl)
        have n2 := hnot u hu u.he2 (Or.inr (Or.inl rfl))
        have n3 := hnot u hu u.he3 (Or.inr (Or.inr rfl))
        refine ⟨p1, ?_, ?_, ?_, ?_, ?_, ?_⟩
        · unfold Mesh.bounds; rw [hhalf _ n1]; exact p2
        · unfold Mesh.bounds; rw [hhalf _ n2]; exact p3
        · unfold Mesh.bounds; rw [hhalf _ n3]; exact p4
        · unfold Mesh.target; rw [horigin u.he1.pair n1, horigin u.he2 n2]; exact p5
        · unfold Mesh.target; rw [horigin u.he2.pair n2, horigin u.he3 n3]; exact p6
        · unfold Mesh.target; rw [horigin u.he3.pair n3, horigin u.he1 n1]; exact p7
    · show m2.nodes = m.nodes
      rw [hnodes2, hnodes1]
    · show (m2.edges.filter (fun x => x.id != e)).map Edge.ends = _
      rw [← hends1, ← hends2, List.filter_map]
      rfl
    · show m2.elements = _
      rw [helems2, helems1, List.filter_filter]
      apply List.filter_congr
      intro x _
      have := uses_iff_has x e
      by_cases h0 : x.has ⟨e, false⟩ <;> by_cases h1 : x.has ⟨e, true⟩ <;>
        cases hu : x.uses e <;> simp_all
    · show m2.Np = m.Np
      rw [hNp2, hNp1]
    · show m2.Ne - 1 + 1 = m.Ne
      rw [← hNe1, ← hNe2]
      omega
    · show m2.fresh = m.fresh
      rw [hfresh2, hfresh1]

theorem find_edge_of_mem_ids (m : Mesh) (e : Nat)
    (h : e ∈ (m.edges.map Edge.ends).map (fun x => x.1)) : ∃ ed, m.find_edge e = some ed := by
  rw [List.map_map] at h
  obtain ⟨x, hx, hxe⟩ := List.mem_map.mp h
  have hxid : x.id = e := hxe
  cases hfe : m.find_edge e with
  | some ed => exact ⟨ed, rfl⟩
  | none =>
    unfold Mesh.find_edge at hfe
    have := List.find?_eq_none.mp hfe x hx
    simp [hxid] at this

/-- Removing a list of distinct edges of a consistent mesh, one after the other. -/
theorem remove_edges_consistent (L : List Nat) :
    ∀ m : Mesh, m.consistent → L.Nodup →
      (∀ e ∈ L, e ∈ (m.edges.map Edge.ends).map (fun x => x.1)) →
      ∃ m1, remove_edges m L = some m1 ∧ m1.consistent ∧ m1.nodes = m.nodes ∧
        m1.edges.map Edge.ends
          = (m.edges.map Edge.ends).filter (fun x => !L.contains x.1) ∧
        m1.elements = m.elements.filter (fun x => !L.any (fun e => x.uses e)) ∧
        m1.Np = m.Np ∧ m1.Ne + L.length = m.Ne ∧ m1.fresh = m.fresh := by
  induction L with
  | nil =>
    intro m hc _ _
    refine ⟨m, rfl, hc, rfl, ?_, ?_, rfl, rfl, rfl⟩
    · simp
    · simp
  | cons e es ih =>
    intro m hc hnd hmem
    rw [List.nodup_cons] at hnd
    obtain ⟨ed, hed⟩ := find_edge_of_mem_ids m e (hmem e (List.mem_cons_self _ _))
    obtain ⟨m1, hr1, hc1, hnodes1, hends1, helems1, hNp1, hNe1, hfresh1⟩ :=
      mesh_remove_edge_consistent m hc e ed hed
    have hmem1 : ∀ x ∈ es, x ∈ (m1.edges.map Edge.ends).map (fun x => x.1) := by
      intro x hx
      have hxm := hmem x (List.mem_cons_of_mem _ hx)
      rw [hends1]
      obtain ⟨y, hy, hyx⟩ := List.mem_map.mp hxm
      apply List.mem_map.mpr
      refine ⟨y, ?_, hyx⟩
      apply List.mem_filter.mpr
      refine ⟨hy, ?_⟩
      have hxe : x ≠ e := by
        intro hxe
        rw [hxe] at hx
        exact hnd.1 hx
      rw [hyx]
      simpa using hxe
    obtain ⟨m2, hr2, hc2, hnodes2, hends2, helems2, hNp2, hNe2, hfresh2⟩ :=
      ih m1 hc1 hnd.2 hmem1
    have hunf : remove_edges m (e :: es) = remove_edges m1 es := by
      show (match mesh_remove_edge m e with
        | none => none
        | some m1 => remove_edges m1 es) = _
      rw [hr1]
    refine ⟨m2, hunf.trans hr2, hc2, hnodes2.trans hnodes1, ?_, ?_, hNp2.trans hNp1, ?_,
      hfresh2.trans hfresh1⟩
    · rw [hends2, hends1, List.filter_filter]
      apply List.filter_congr
      intro x _
      by_cases hxe : x.1 = e
      · simp [hxe]
      · have hne : ¬ e = x.1 := fun h => hxe h.symm
        simp [hxe, hne, List.contains_cons]
    · rw [helems2, helems1, List.filter_filter]
      apply List.filter_congr
      intro x _
      simp [List.any_cons, Bool.and_comm]
    · rw [List.length_cons]
      omega

theorem length_filter_add_not {α : Type} (p : α → Bool) (l : List α) :
    (l.filter p).length + (l.filter (fun x => !p x)).length = l.length := by
  induction l with
  | nil => rfl
  | cons a l ih =>
    cases hp : p a
    · simp [List.filter_cons, hp]; omega
    · simp [List.filter_cons, hp]; omega

theorem origin_target_of_find_edge (m : Mesh) (r : HalfEdgeRef) (ed : Edge)
    (hf : m.find_edge r.edge = some ed) :
    m.origin r = some (ed.he r.idx).origin ∧ m.target r = some (ed.he (!r.idx)).origin := by
  have h1 := halfedge_of_find_edge m r.edge ed hf r.idx
  have h2 := halfedge_of_find_edge m r.edge ed hf (!r.idx)
  constructor
  · unfold Mesh.origin
    have : (⟨r.edge, r.idx⟩ : HalfEdgeRef) = r := by cases r; rfl
    rw [this] at h1
    rw [h1]; rfl
  · unfold Mesh.target Mesh.origin HalfEdgeRef.pair
    rw [h2]; rfl

theorem incident_iff (ed : Edge) (n : Nat) (i : Bool) :
    ed.incident n = true ↔ ((ed.he i).origin = n ∨ (ed.he (!i)).origin = n) := by
  unfold Edge.incident Edge.he
  cases i <;> simp [or_comm]

theorem mem_incident_edges (m : Mesh) (hc : m.consistent) (n : Nat) (ed : Edge)
    (hed : ed ∈ m.edges) : ed.id ∈ m.incident_edges n ↔ ed.incident n = true := by
  unfold Mesh.incident_edges
  constructor
  · intro h
    obtain ⟨x, hx, hxid⟩ := List.mem_map.mp h
    obtain ⟨hxm, hxi⟩ := List.mem_filter.mp hx
    have h1 := consistent_find_edge m hc x hxm
    have h2 := consistent_find_edge m hc ed hed
    rw [hxid, h2] at h1
    have : ed = x := by simpa using h1
    rw [this]; exact hxi
  · intro h
    exact List.mem_map.mpr ⟨ed, List.mem_filter.mpr ⟨hed, h⟩, rfl⟩

/-- In a consistent mesh an element lies on an edge incident to `n` exactly when `n` is one of
its corners. -/
theorem uses_incident_iff_corner (m : Mesh) (hc : m.consistent) (n : Nat) (t : Element)
    (ht : t ∈ m.elements) :
    (m.incident_edges n).any (fun e => t.uses e) = m.corner t n := by
  obtain ⟨_, b1, b2, b3, c1, c2, c3⟩ := hc.2.2.2.2.2.2.2.2 t ht
  have hedge : ∀ r, m.bounds r t.id → ∃ ed ∈ m.edges, ed.id = r.edge ∧
      m.origin r = some (ed.he r.idx).origin ∧ m.target r = some (ed.he (!r.idx)).origin := by
    intro r hb
    unfold Mesh.bounds at hb
    cases hh : m.halfedge r with
    | none => rw [hh] at hb; simp at hb
    | some h =>
      obtain ⟨ed, hm, hid, _, hfe⟩ := halfedge_mem m r h hh
      obtain ⟨o1, o2⟩ := origin_target_of_find_edge m r ed hfe
      exact ⟨ed, hm, hid, o1, o2⟩
  obtain ⟨d1, hd1, i1, o1, g1⟩ := hedge _ b1
  obtain ⟨d2, hd2, i2, o2, g2⟩ := hedge _ b2
  obtain ⟨d3, hd3, i3, o3, g3⟩ := hedge _ b3
  have m1 := mem_incident_edges m hc n d1 hd1
  have m2 := mem_incident_edges m hc n d2 hd2
  have m3 := mem_incident_edges m hc n d3 hd3
  rw [incident_iff d1 n t.he1.idx] at m1
  rw [incident_iff d2 n t.he2.idx] at m2
  rw [incident_iff d3 n t.he3.idx] at m3
  rw [c1, o2] at g1
  rw [c2, o3] at g2
  rw [c3, o1] at g3
  have e1 : (d1.he (!t.he1.idx)).origin = (d2.he t.he2.idx).origin := by
    have := g1; simp only [Option.some.injEq] at this; exact this.symm
  have e2 : (d2.he (!t.he2.idx)).origin = (d3.he t.he3.idx).origin := by
    have := g2; simp only [Option.some.injEq] at this; exact this.symm
  have e3 : (d3.he (!t.he3.idx)).origin = (d1.he t.he1.idx).origin := by
    have := g3; simp only [Option.some.injEq] at this; exact this.symm
  rw [e1] at m1
  rw [e2] at m2
  rw [e3] at m3
  rw [i1] at m1
  rw [i2] at m2
  rw [i3] at m3
  have hcorner : m.corner t n = true ↔
      ((d1.he t.he1.idx).origin = n ∨ (d2.he t.he2.idx).origin = n
        ∨ (d3.he t.he3.idx).origin = n) := by
    unfold Mesh.corner
    rw [o1, o2, o3]
    simp [or_assoc]
  have hany : (m.incident_edges n).any (fun e => t.uses e) = true ↔
      (t.he1.edge ∈ m.incident_edges n ∨ t.he2.edge ∈ m.incident_edges n
        ∨ t.he3.edge ∈ m.incident_edges n) := by
    rw [List.any_eq_true]
    unfold Element.uses
    constructor
    · rintro ⟨x, hx, hu⟩
      simp only [Bool.or_eq_true, beq_iff_eq] at hu
      rcases hu with (h | h) | h
      · left; rw [h]; exact hx
      · right; left; rw [h]; exact hx
      · right; right; rw [h]; exact hx
    · rintro (h | h | h)
      · exact ⟨_, h, by simp⟩
      · exact ⟨_, h, by simp⟩
      · exact ⟨_, h, by simp⟩
  have hiff : (m.incident_edges n).any (fun e => t.uses e) = true ↔ m.corner t n = true := by
    rw [hany, hcorner]
    constructor
    · rintro (h | h | h)
      · rcases m1.mp h with h | h
        · exact Or.inl h
        · exact Or.inr (Or.inl h)
      · rcases m2.mp h with h | h
        · exact Or.inr (Or.inl h)
        · exact Or.inr (Or.inr h)
      · rcases m3.mp h with h | h
        · exact Or.inr (Or.inr h)
        · exact Or.inl h
    · rintro (h | h | h)
      · exact Or.inl (m1.mpr (Or.inl h))
      · exact Or.inr (Or.inl (m2.mpr (Or.inl h)))
      · exact Or.inr (Or.inr (m3.mpr (Or.inl h)))
  cases ha : (m.incident_edges n).any (fun e => t.uses e) <;>
    cases hb : m.corner t n <;> simp_all

theorem find_halfedge_set3 (es : List Edge) (r1 r2 r3 : HalfEdgeRef) (v : Option Nat)
    (r : HalfEdgeRef) :
    find_halfedge (set_element (set_element (set_element es r1 v) r2 v) r3 v) r
      = if r = r1 ∨ r = r2 ∨ r = r3
        then (find_halfedge es r).map (fun h => { h with element := v })
        else find_halfedge es r := by
  rw [find_halfedge_set_element, find_halfedge_set_element, find_halfedge_set_element]
  cases find_halfedge es r with
  | none => split_ifs <;> simp
  | some h => split_ifs <;> simp_all

theorem mesh_add_edge_spec (m : Mesh) (n1 n2 : Nat) (hne : n1 ≠ n2)
    (h1 : (m.find_node n1).isSome = true) (h2 : (m.find_node n2).isSome = true)
    (s1 : m.has_free_slot n1 = true) (s2 : m.has_free_slot n2 = true) :
    ∃ m1, mesh_add_edge m n1 n2 = some (m1, ⟨m.fresh, ⟨n1, none⟩, ⟨n2, none⟩⟩) ∧
      m1.nodes = m.nodes ∧ m1.edges = ⟨m.fresh, ⟨n1, none⟩, ⟨n2, none⟩⟩ :: m.edges ∧
      m1.elements = m.elements ∧ m1.Np = m.Np ∧ m1.Ne = m.Ne + 1 ∧ m1.Nt = m.Nt ∧
      m1.fresh = m.fresh + 1 := by
  refine ⟨{ m with edges := ⟨m.fresh, ⟨n1, none⟩, ⟨n2, none⟩⟩ :: m.edges, Ne := m.Ne + 1,
                   fresh := m.fresh + 1 }, ?_, rfl, rfl, rfl, rfl, rfl, rfl, rfl⟩
  unfold mesh_add_edge
  rw [if_neg hne]
  have hn : ¬ (((m.find_node n1).isNone || (m.find_node n2).isNone) = true) := by
    cases hx : m.find_node n1 <;> cases hy : m.find_node n2 <;> simp_all
  have hs : ¬ ((!m.has_free_slot n1 || !m.has_free_slot n2) = true) := by simp [s1, s2]
  rw [if_neg hn, if_neg hs]

theorem mesh_add_element_spec (m : Mesh) (e1 e2 e3 : HalfEdgeRef) (h1 h2 h3 : HalfEdge)
    (hh1 : m.halfedge e1 = some h1) (hh2 : m.halfedge e2 = some h2)
    (hh3 : m.halfedge e3 = some h3)
    (d12 : e1 ≠ e2) (d23 : e2 ≠ e3) (d31 : e3 ≠ e1)
    (f1 : h1.element = none) (f2 : h2.element = none) (f3 : h3.element = none)
    (c1 : m.target e1 = m.origin e2) (c2 : m.target e2 = m.origin e3)
    (c3 : m.target e3 = m.origin e1) :
    ∃ m1, mesh_add_element m e1 e2 e3 = some (m1, ⟨m.fresh, e1, e2, e3⟩) ∧
      m1.nodes = m.nodes ∧
      m1.edges = set_element (set_element (set_element m.edges e1 (some m.fresh)) e2
        (some m.fresh)) e3 (some m.fresh) ∧
      m1.elements = ⟨m.fresh, e1, e2, e3⟩ :: m.elements ∧
      m1.Np = m.Np ∧ m1.Ne = m.Ne ∧ m1.Nt = m.Nt + 1 ∧ m1.fresh = m.fresh + 1 := by
  refine ⟨{ m with
      edges := set_element (set_element (set_element m.edges e1 (some m.fresh)) e2
        (some m.fresh)) e3 (some m.fresh)
      elements := ⟨m.fresh, e1, e2, e3⟩ :: m.elements
      Nt := m.Nt + 1
      fresh := m.fresh + 1 }, ?_, rfl, rfl, rfl, rfl, rfl, rfl, rfl⟩
  unfold mesh_add_element
  rw [hh1, hh2, hh3]
  simp only
  have hd : ¬ (e1 = e2 ∨ e2 = e3 ∨ e3 = e1) := by
    rintro (h | h | h)
    · exact d12 h
    · exact d23 h
    · exact d31 h
  have hf : ¬ ((h1.element.isSome || h2.element.isSome || h3.element.isSome) = true) := by
    simp [f1, f2, f3]
  have hch : ¬ (m.target e1 ≠ m.origin e2 ∨ m.target e2 ≠ m.origin e3
      ∨ m.target e3 ≠ m.origin e1) := by
    rintro (h | h | h)
    · exact h c1
    · exact h c2
    · exact h c3
  rw [if_neg hd, if_neg hf, if_neg hch]

theorem has_free_slot_of_halfedge (m : Mesh) (r : HalfEdgeRef) (h : HalfEdge) (n : Nat)
    (hr : m.halfedge r = some h) (ho : h.origin = n) (hf : h.element = none) :
    m.has_free_slot n = true := by
  obtain ⟨e, hem, _, hhe, _⟩ := halfedge_mem m r h hr
  unfold Mesh.has_free_slot
  have : m.edges.any (fun e => e.free_at n) = true := by
    rw [List.any_eq_true]
    refine ⟨e, hem, ?_⟩
    unfold Edge.free_at
    unfold Edge.he at hhe
    cases hi : r.idx
    · rw [hi] at hhe
      simp only [Bool.false_eq_true, if_false] at hhe
      rw [hhe]; simp [ho, hf]
    · rw [hi] at hhe
      simp only [if_true] at hhe
      rw [hhe]; simp [ho, hf]
  simp [this]

theorem has_free_slot_of_isolated (m : Mesh) (n : Nat)
    (h : ∀ e ∈ m.edges, e.he0.origin ≠ n ∧ e.he1.origin ≠ n) : m.has_free_slot n = true := by
  unfold Mesh.has_free_slot
  have : m.is_isolated n = true := by
    unfold Mesh.is_isolated
    rw [List.all_eq_true]
    intro e he
    obtain ⟨a, b⟩ := h e he
    unfold Edge.incident
    simp [a, b]
  simp [this]

/-- What a half-edge of a consistent mesh satisfies: its edge was allocated, and its origin and
its target are two different nodes of the mesh. -/
theorem consistent_halfedge (m : Mesh) (hc : m.consistent) (r : HalfEdgeRef) (x : HalfEdge)
    (hr : m.halfedge r = some x) :
    r.edge < m.fresh ∧ m.origin r = some x.origin ∧
    ∃ b, m.target r = some b ∧ x.origin ≠ b ∧
      x.origin < m.fresh ∧ b < m.fresh ∧
      (m.find_node x.origin).isSome = true ∧ (m.find_node b).isSome = true := by
  obtain ⟨e, hem, hid, hhe, hfe⟩ := halfedge_mem m r x hr
  obtain ⟨o1, o2, o3, o4, _, _⟩ := hc.2.2.2.2.2.2.2.1 e hem
  obtain ⟨g1, g2⟩ := origin_target_of_find_edge m r e hfe
  have hlt : ∀ k, (m.find_node k).isSome = true → k < m.fresh := by
    intro k hk
    cases hfn : m.find_node k with
    | none => rw [hfn] at hk; simp at hk
    | some nd =>
      obtain ⟨hm, hi⟩ := find?_id_mem (fun x : Node => x.id) m.nodes k nd hfn
      have := hc.2.2.2.2.2.2.1 nd hm
      omega
  rw [hhe] at g1
  refine ⟨by rw [← hid]; exact o1, g1, (e.he (!r.idx)).origin, g2, ?_, ?_, ?_, ?_, ?_⟩
  · rw [← hhe]
    unfold Edge.he
    cases r.idx
    · simpa using o2
    · simpa using fun h => o2 h.symm
  · rw [← hhe]
    unfold Edge.he
    cases r.idx
    · simpa using hlt _ o3
    · simpa using hlt _ o4
  · unfold Edge.he
    cases r.idx
    · simpa using hlt _ o4
    · simpa using hlt _ o3
  · rw [← hhe]
    unfold Edge.he
    cases r.idx
    · simpa using o3
    · simpa using o4
  · unfold Edge.he
    cases r.idx
    · simpa using o4
    · simpa using o3

/-- The three half-edges of an element of a consistent mesh, with their origins. -/
theorem consistent_element (m : Mesh) (hc : m.consistent) (t : Element) (ht : t ∈ m.elements) :
    ∃ n1 n2 n3,
      m.halfedge t.he1 = some ⟨n1, some t.id⟩ ∧ m.halfedge t.he2 = some ⟨n2, some t.id⟩ ∧
      m.halfedge t.he3 = some ⟨n3, some t.id⟩ ∧
      m.origin t.he1 = some n1 ∧ m.origin t.he2 = some n2 ∧ m.origin t.he3 = some n3 ∧
      m.target t.he1 = some n2 ∧ m.target t.he2 = some n3 ∧ m.target t.he3 = some n1 ∧
      n1 ≠ n2 ∧ n2 ≠ n3 ∧ n3 ≠ n1 ∧
      t.he1 ≠ t.he2 ∧ t.he2 ≠ t.he3 ∧ t.he3 ≠ t.he1 := by
  obtain ⟨_, b1, b2, b3, c1, c2, c3⟩ := hc.2.2.2.2.2.2.2.2 t ht
  have hb : ∀ r, m.bounds r t.id → ∃ x, m.halfedge r = some x ∧ x.element = some t.id := by
    intro r hb
    unfold Mesh.bounds at hb
    cases hh : m.halfedge r with
    | none => rw [hh] at hb; simp at hb
    | some x => rw [hh] at hb; exact ⟨x, rfl, by simpa using hb⟩
  obtain ⟨x1, hx1, hel1⟩ := hb _ b1
  obtain ⟨x2, hx2, hel2⟩ := hb _ b2
  obtain ⟨x3, hx3, hel3⟩ := hb _ b3
  obtain ⟨_, o1, y1, g1, ne1, _⟩ := consistent_halfedge m hc _ _ hx1
  obtain ⟨_, o2, y2, g2, ne2, _⟩ := consistent_halfedge m hc _ _ hx2
  obtain ⟨_, o3, y3, g3, ne3, _⟩ := consistent_halfedge m hc _ _ hx3
  have e1 : y1 = x2.origin := by rw [g1, o2] at c1; simpa using c1
  have e2 : y2 = x3.origin := by rw [g2, o3] at c2; simpa using c2
  have e3 : y3 = x1.origin := by rw [g3, o1] at c3; simpa using c3
  subst e1 e2 e3
  have hx1e : x1 = ⟨x1.origin, some t.id⟩ := by cases x1; simp only at hel1; simp [hel1]
  have hx2e : x2 = ⟨x2.origin, some t.id⟩ := by cases x2; simp only at hel2; simp [hel2]
  have hx3e : x3 = ⟨x3.origin, some t.id⟩ := by cases x3; simp only at hel3; simp [hel3]
  refine ⟨x1.origin, x2.origin, x3.origin, ?_, ?_, ?_, o1, o2, o3, g1, g2, g3, ne1, ne2, ne3,
    ?_, ?_, ?_⟩
  · rw [hx1]; rw [← hx1e]
  · rw [hx2]; rw [← hx2e]
  · rw [hx3]; rw [← hx3e]
  · intro h
    rw [h, g2] at g1
    rw [h, o2] at o1
    have a : x3.origin = x2.origin := by simpa using g1
    have b : x2.origin = x1.origin := by simpa using o1
    exact ne3 (a.trans b)
  · intro h
    rw [h, g3] at g2
    rw [h, o3] at o2
    have a : x1.origin = x3.origin := by simpa using g2
    have b : x3.origin = x2.origin := by simpa using o2
    exact ne1 (a.trans b)
  · intro h
    rw [h, g1] at g3
    rw [h, o1] at o3
    have a : x2.origin = x1.origin := by simpa using g3
    have b : x1.origin = x3.origin := by simpa using o3
    exact ne2 (a.trans b)

theorem consistent_edge_origins_lt (m : Mesh) (hc : m.consistent) (e : Edge)
    (he : e ∈ m.edges) : e.he0.origin < m.fresh ∧ e.he1.origin < m.fresh := by
  have hfe := consistent_find_edge m hc e he
  have hh := halfedge_of_find_edge m e.id e hfe false
  obtain ⟨_, _, b, g, _, q1, q2, _, _⟩ := consistent_halfedge m hc _ _ hh
  obtain ⟨_, g2⟩ := origin_target_of_find_edge m ⟨e.id, false⟩ e hfe
  rw [g2] at g
  have hb : (e.he true).origin = b := by simpa using g
  rw [← hb] at q2
  exact ⟨q1, q2⟩

theorem halfedge_cons (m1 m2 : Mesh) (E : Edge) (h : m2.edges = E :: m1.edges)
    (r : HalfEdgeRef) :
    m2.halfedge r = if E.id = r.edge then some (E.he r.idx) else m1.halfedge r := by
  unfold Mesh.halfedge
  rw [h, find_halfedge_cons]

theorem halfedge_set3 (m1 m2 : Mesh) (r1 r2 r3 : HalfEdgeRef) (v : Option Nat)
    (h : m2.edges = set_element (set_element (set_element m1.edges r1 v) r2 v) r3 v)
    (r : HalfEdgeRef) :
    m2.halfedge r = if r = r1 ∨ r = r2 ∨ r = r3
      then (m1.halfedge r).map (fun x => { x with element := v }) else m1.halfedge r := by
  unfold Mesh.halfedge
  rw [h, find_halfedge_set3]

theorem origin_set3 (m1 m2 : Mesh) (r1 r2 r3 : HalfEdgeRef) (v : Option Nat)
    (h : m2.edges = set_element (set_element (set_element m1.edges r1 v) r2 v) r3 v)
    (r : HalfEdgeRef) : m2.origin r = m1.origin r := by
  unfold Mesh.origin
  rw [halfedge_set3 m1 m2 r1 r2 r3 v h r]
  split_ifs
  · cases m1.halfedge r <;> simp
  · rfl

theorem find_node_congr (m1 m2 : Mesh) (h : m2.nodes = m1.nodes) (k : Nat) :
    m2.find_node k = m1.find_node k := by
  unfold Mesh.find_node; rw [h]

theorem ref_ne_of_lt (r : HalfEdgeRef) (k j : Nat) (i : Bool) (h : r.edge < k) (hj : k ≤ j) :
    r ≠ ⟨j, i⟩ := by
  intro hr
  rw [hr] at h
  simp only at h
  omega

/-- Adding an element on three free half-edges that form a cycle through the nodes `a`, `b`,
`c`: the operation succeeds, binds the three half-edges and changes nothing else. -/
theorem mesh_add_element_ok (m : Mesh) (e1 e2 e3 : HalfEdgeRef) (a b c : Nat)
    (hh1 : m.halfedge e1 = some ⟨a, none⟩) (hh2 : m.halfedge e2 = some ⟨b, none⟩)
    (hh3 : m.halfedge e3 = some ⟨c, none⟩)
    (t1 : m.target e1 = some b) (t2 : m.target e2 = some c) (t3 : m.target e3 = some a)
    (d12 : e1 ≠ e2) (d23 : e2 ≠ e3) (d31 : e3 ≠ e1) :
    ∃ m1, mesh_add_element m e1 e2 e3 = some (m1, ⟨m.fresh, e1, e2, e3⟩) ∧
      m1.nodes = m.nodes ∧ m1.Np = m.Np ∧ m1.Ne = m.Ne ∧ m1.Nt = m.Nt + 1 ∧
      m1.fresh = m.fresh + 1 ∧
      (∀ r, m1.halfedge r = if r = e1 ∨ r = e2 ∨ r = e3
        then (m.halfedge r).map (fun x => { x with element := some m.fresh })
        else m.halfedge r) ∧
      (∀ r, m1.origin r = m.origin r) ∧ (∀ r, m1.target r = m.target r) := by
  have o1 : m.origin e1 = some a := by unfold Mesh.origin; rw [hh1]; rfl
  have o2 : m.origin e2 = some b := by unfold Mesh.origin; rw [hh2]; rfl
  have o3 : m.origin e3 = some c := by unfold Mesh.origin; rw [hh3]; rfl
  obtain ⟨m1, hr, hnodes, hedges, _, hNp, hNe, hNt, hfresh⟩ :=
    mesh_add_element_spec m e1 e2 e3 _ _ _ hh1 hh2 hh3 d12 d23 d31 rfl rfl rfl
      (by rw [t1, o2]) (by rw [t2, o3]) (by rw [t3, o1])
  have horigin := origin_set3 m m1 e1 e2 e3 (some m.fresh) hedges
  refine ⟨m1, hr, hnodes, hNp, hNe, hNt, hfresh,
    halfedge_set3 m m1 e1 e2 e3 (some m.fresh) hedges, horigin, ?_⟩
  intro r
  unfold Mesh.target
  exact horigin _

/-- Adding an edge between two different nodes of the mesh that have free slots: the operation
succeeds and puts the new pair of free half-edges in front of the edges. -/
theorem mesh_add_edge_ok (m : Mesh) (n1 n2 : Nat) (hne : n1 ≠ n2)
    (h1 : (m.find_node n1).isSome = true) (h2 : (m.find_node n2).isSome = true)
    (s1 : m.has_free_slot n1 = true) (s2 : m.has_free_slot n2 = true) :
    ∃ m1, mesh_add_edge m n1 n2 = some (m1, ⟨m.fresh, ⟨n1, none⟩, ⟨n2, none⟩⟩) ∧
      m1.nodes = m.nodes ∧ m1.Np = m.Np ∧ m1.Ne = m.Ne + 1 ∧ m1.Nt = m.Nt ∧
      m1.fresh = m.fresh + 1 ∧
      (∀ r, m1.halfedge r = if m.fresh = r.edge
        then some (if r.idx then ⟨n2, none⟩ else ⟨n1, none⟩) else m.halfedge r) ∧
      (∀ k, m1.find_node k = m.find_node k) := by
  obtain ⟨m1, hr, hnodes, hedges, _, hNp, hNe, hNt, hfresh⟩ :=
    mesh_add_edge_spec m n1 n2 hne h1 h2 s1 s2
  refine ⟨m1, hr, hnodes, hNp, hNe, hNt, hfresh, ?_, find_node_congr m m1 hnodes⟩
  intro r
  rw [halfedge_cons m m1 _ hedges r]
  rfl

/-- Adding a node keeps a mesh consistent. -/
theorem mesh_add_node_consistent (m : Mesh) (hc : m.consistent) (x y : ℚ) :
    (mesh_add_node m x y).1.consistent := by
  obtain ⟨hNp, hNe, hNt, hnn, hen, htn, hnf, heo, hto⟩ := hc
  refine ⟨?_, hNe, hNt, ?_, hen, htn, ?_, ?_, ?_⟩
  · show m.Np + 1 = (_ :: m.nodes).length
    rw [List.length_cons, hNp]
  · show ((⟨m.fresh, ⟨x, y⟩⟩ :: m.nodes).map (fun n : Node => n.id)).Nodup
    rw [List.map_cons, List.nodup_cons]
    refine ⟨?_, hnn⟩
    intro hmem
    obtain ⟨n, hn, hid⟩ := List.mem_map.mp hmem
    have := hnf n hn
    simp only at hid
    omega
  · intro n hn
    show n.id < m.fresh + 1
    rcases List.mem_cons.mp hn with h | h
    · rw [h]; exact Nat.lt_succ_self _
    · exact Nat.lt_succ_of_lt (hnf n h)
  · intro e he
    obtain ⟨o1, o2, o3, o4, o5, o6⟩ := heo e he
    have hfn : ∀ k, (m.find_node k).isSome = true →
        ((mesh_add_node m x y).1.find_node k).isSome = true := by
      intro k hk
      show ((⟨m.fresh, ⟨x, y⟩⟩ :: m.nodes).find? (fun n : Node => n.id == k)).isSome = true
      rw [List.find?_cons]
      split
      · rfl
      · exact hk
    exact ⟨Nat.lt_succ_of_lt o1, o2, hfn _ o3, hfn _ o4, o5, o6⟩
  · intro t ht
    obtain ⟨p1, p2, p3, p4, p5, p6, p7⟩ := hto t ht
    exact ⟨Nat.lt_succ_of_lt p1, p2, p3, p4, p5, p6, p7⟩

theorem bounds_of_has (m : Mesh) (hc : m.consistent) (t : Element) (ht : t ∈ m.elements)
    (r : HalfEdgeRef) (hr : t.has r) : m.bounds r t.id := by
  obtain ⟨_, b1, b2, b3, _⟩ := hc.2.2.2.2.2.2.2.2 t ht
  rcases hr with h | h | h
  · rw [← h]; exact b1
  · rw [← h]; exact b2
  · rw [← h]; exact b3

theorem ref_eta (r : HalfEdgeRef) : (⟨r.edge, r.idx⟩ : HalfEdgeRef) = r := by
  cases r; rfl

/-- The half-edges of the other edges after an edge has been removed: they keep their origin
and target, and a half-edge that is still bound is bound to the same element as before, which
does not lie on the removed edge. -/
theorem halfedge_after_remove_edge (m m1 : Mesh) (e : Nat) (hc : m.consistent)
    (hc1 : m1.consistent)
    (hends : m1.edges.map Edge.ends = (m.edges.map Edge.ends).filter (fun x => x.1 != e))
    (helems : m1.elements = m.elements.filter (fun x => !x.uses e))
    (r : HalfEdgeRef) (x : HalfEdge) (hr : m.halfedge r = some x) (hre : r.edge ≠ e) :
    ∃ y, m1.halfedge r = some y ∧ y.origin = x.origin ∧
      m1.origin r = m.origin r ∧ m1.target r = m.target r ∧
      (∀ k, y.element = some k →
        x.element = some k ∧ ∃ t ∈ m.elements, t.id = k ∧ t.uses e = false) := by
  obtain ⟨ed, hem, hid, hhe, hfe⟩ := halfedge_mem m r x hr
  have hin : ed.ends ∈ (m.edges.map Edge.ends).filter (fun x => x.1 != e) := by
    apply List.mem_filter.mpr
    refine ⟨List.mem_map_of_mem _ hem, ?_⟩
    show (ed.id != e) = true
    rw [hid]
    simpa using hre
  rw [← hends] at hin
  obtain ⟨ed1, hem1, hends1⟩ := List.mem_map.mp hin
  unfold Edge.ends at hends1
  simp only [Prod.mk.injEq] at hends1
  obtain ⟨i1, i2, i3⟩ := hends1
  have hfe1 : m1.find_edge r.edge = some ed1 := by
    rw [← hid, ← i1]
    exact consistent_find_edge m1 hc1 ed1 hem1
  have hh1 := halfedge_of_find_edge m1 r.edge ed1 hfe1 r.idx
  rw [ref_eta] at hh1
  obtain ⟨a1, a2⟩ := origin_target_of_find_edge m r ed hfe
  obtain ⟨b1, b2⟩ := origin_target_of_find_edge m1 r ed1 hfe1
  have ho : ∀ j, (ed1.he j).origin = (ed.he j).origin := by
    intro j
    unfold Edge.he
    cases j
    · simpa using i2
    · simpa using i3
  refine ⟨ed1.he r.idx, hh1, ?_, ?_, ?_, ?_⟩
  · rw [ho, hhe]
  · rw [a1, b1, ho]
  · rw [a2, b2, ho]
  · intro k hk
    have hb : m1.binding_ok ed1 r.idx := by
      obtain ⟨_, _, _, _, o5, o6⟩ := hc1.2.2.2.2.2.2.2.1 ed1 hem1
      cases hi : r.idx
      · exact o5
      · exact o6
    obtain ⟨u, hu, huhas⟩ := hb k hk
    have hu2 : m1.find_element k = some u := hu
    obtain ⟨hum1, huid⟩ := find_element_mem m1 k u hu2
    rw [helems] at hum1
    obtain ⟨hum, huse⟩ := List.mem_filter.mp hum1
    have hreq : (⟨ed1.id, r.idx⟩ : HalfEdgeRef) = r := by
      rw [i1, hid]
    rw [hreq] at huhas
    have hbd := bounds_of_has m hc u hum r huhas
    unfold Mesh.bounds at hbd
    rw [hr] at hbd
    refine ⟨?_, u, hum, huid, by simpa using huse⟩
    rw [← huid]
    simpa using hbd

/-- The side of a free half-edge. -/
theorem side_of_free (m : Mesh) (r : HalfEdgeRef) (a : Nat)
    (hr : m.halfedge r = some ⟨a, none⟩) : m.side r = some none := by
  unfold Mesh.side
  rw [hr]

theorem pair_pair (r : HalfEdgeRef) : r.pair.pair = r := by
  cases r with
  | mk k j => unfold HalfEdgeRef.pair; cases j <;> rfl

/-- The side of a bound half-edge `r : a → b` of a consistent mesh: the element `t` it bounds,
the opposite corner `c`, and the two other half-edges `b → c` and `c → a` of the element, which
lie on other edges. -/
theorem side_of_bound (m : Mesh) (hc : m.consistent) (r : HalfEdgeRef) (a k : Nat)
    (hr : m.halfedge r = some ⟨a, some k⟩) :
    ∃ t nx pv b c, t ∈ m.elements ∧ t.id = k ∧ t.uses r.edge = true ∧
      m.side r = some (some ⟨c, nx, pv⟩) ∧
      m.halfedge nx = some ⟨b, some k⟩ ∧ m.halfedge pv = some ⟨c, some k⟩ ∧
      m.target r = some b ∧ m.target nx = some c ∧ m.target pv = some a ∧
      nx ≠ pv ∧ nx.edge ≠ r.edge ∧ pv.edge ≠ r.edge ∧ t.has nx ∧ t.has pv ∧ t.has r ∧
      ∀ s, t.has s → s = r ∨ s = nx ∨ s = pv := by
  obtain ⟨ed, hem, hid, hhe, hfe⟩ := halfedge_mem m r _ hr
  have hb : m.binding_ok ed r.idx := by
    obtain ⟨_, _, _, _, o5, o6⟩ := hc.2.2.2.2.2.2.2.1 ed hem
    cases hi : r.idx
    · exact o5
    · exact o6
  have hk : (ed.he r.idx).element = some k := by rw [hhe]
  obtain ⟨t, ht, hthas⟩ := hb k hk
  have ht2 : m.find_element k = some t := ht
  obtain ⟨htm, htid⟩ := find_element_mem m k t ht2
  have hreq : (⟨ed.id, r.idx⟩ : HalfEdgeRef) = r := by rw [hid]
  rw [hreq] at hthas
  obtain ⟨n1, n2, n3, hx1, hx2, hx3, o1, o2, o3, g1, g2, g3, ne12, ne23, ne31, d12, d23, d31⟩ :=
    consistent_element m hc t htm
  rw [htid] at hx1 hx2 hx3
  have hor : m.origin r = some a := by unfold Mesh.origin; rw [hr]; rfl
  have huses : t.uses r.edge = true := by
    rw [uses_iff_has]
    cases hi : r.idx
    · left; rw [← hi]; rw [ref_eta]; exact hthas
    · right; rw [← hi]; rw [ref_eta]; exact hthas
  -- a half-edge of the element on the same edge as `r` would be `r` or its twin
  have hedge : ∀ s : HalfEdgeRef, s.edge = r.edge → s = r ∨ s = r.pair := by
    intro s hs
    cases s with
    | mk se si =>
      cases r with
      | mk re ri =>
        simp only at hs
        subst hs
        unfold HalfEdgeRef.pair
        cases si <;> cases ri <;> simp
  have hside : ∀ c nx pv, m.find_element k = some t →
      (t.he1 = r → c = n3 ∧ nx = t.he2 ∧ pv = t.he3 → m.side r = some (some ⟨c, nx, pv⟩)) ∧
      (t.he1 ≠ r → t.he2 = r → c = n1 ∧ nx = t.he3 ∧ pv = t.he1 →
        m.side r = some (some ⟨c, nx, pv⟩)) ∧
      (t.he1 ≠ r → t.he2 ≠ r → t.he3 = r → c = n2 ∧ nx = t.he1 ∧ pv = t.he2 →
        m.side r = some (some ⟨c, nx, pv⟩)) := by
    intro c nx pv hfe2
    refine ⟨?_, ?_, ?_⟩
    · rintro h1 ⟨rfl, rfl, rfl⟩
      unfold Mesh.side
      rw [hr]
      simp only
      rw [hfe2]
      simp only
      rw [if_pos h1, o3]
      rfl
    · rintro h1 h2 ⟨rfl, rfl, rfl⟩
      unfold Mesh.side
      rw [hr]
      simp only
      rw [hfe2]
      simp only
      rw [if_neg h1, if_pos h2, o1]
      rfl
    · rintro h1 h2 h3 ⟨rfl, rfl, rfl⟩
      unfold Mesh.side
      rw [hr]
      simp only
      rw [hfe2]
      simp only
      rw [if_neg h1, if_neg h2, if_pos h3, o2]
      rfl
  -- the general argument for one rotation of the cycle
  have main : ∀ (nx pv : HalfEdgeRef) (b c : Nat),
      m.side r = some (some ⟨c, nx, pv⟩) →
      m.halfedge nx = some ⟨b, some k⟩ → m.halfedge pv = some ⟨c, some k⟩ →
      m.target r = some b → m.target nx = some c → m.target pv = some a →
      a ≠ b → b ≠ c → c ≠ a → nx ≠ r → pv ≠ r → nx ≠ pv → t.has nx → t.has pv →
      (∀ s, t.has s → s = r ∨ s = nx ∨ s = pv) →
      ∃ t nx pv b c, t ∈ m.elements ∧ t.id = k ∧ t.uses r.edge = true ∧
        m.side r = some (some ⟨c, nx, pv⟩) ∧
        m.halfedge nx = some ⟨b, some k⟩ ∧ m.halfedge pv = some ⟨c, some k⟩ ∧
        m.target r = some b ∧ m.target nx = some c ∧ m.target pv = some a ∧
        nx ≠ pv ∧ nx.edge ≠ r.edge ∧ pv.edge ≠ r.edge ∧ t.has nx ∧ t.has pv ∧ t.has r ∧
        ∀ s, t.has s → s = r ∨ s = nx ∨ s = pv := by
    intro nx pv b c hs hnx hpv tr tnx tpv nab nbc nca nxr pvr nxpv hasnx haspv hex
    refine ⟨t, nx, pv, b, c, htm, htid, huses, hs, hnx, hpv, tr, tnx, tpv, nxpv, ?_, ?_,
      hasnx, haspv, hthas, hex⟩
    · intro he
      rcases hedge nx he with h | h
      · exact nxr h
      · have : m.target nx = some a := by
          rw [h]; unfold Mesh.target; rw [pair_pair]; exact hor
        rw [tnx] at this
        exact nca (by simpa using this)
    · intro he
      rcases hedge pv he with h | h
      · exact pvr h
      · have h1 : m.origin pv = some c := by unfold Mesh.origin; rw [hpv]; rfl
        have h2 : m.origin pv = some b := by rw [h]; exact tr
        rw [h1] at h2
        exact nbc (by simpa using h2.symm)
  have hthas0 := hthas
  rcases hthas0 with h | h | h
  · -- r = he1 : a = n1, b = n2, c = n3
    have ha : n1 = a := by
      rw [h, hor] at o1; simpa using o1.symm
    subst ha
    exact main t.he2 t.he3 n2 n3 ((hside n3 t.he2 t.he3 ht2).1 h ⟨rfl, rfl, rfl⟩)
      hx2 hx3 (by rw [← h]; exact g1) g2 g3 ne12 ne23 ne31
      (by rw [← h]; exact d12.symm) (by rw [← h]; exact d31) d23
      (Or.inr (Or.inl rfl)) (Or.inr (Or.inr rfl))
      (by
        rintro s (hs | hs | hs)
        · left; rw [← hs, h]
        · right; left; exact hs.symm
        · right; right; exact hs.symm)
  · -- r = he2 : a = n2, b = n3, c = n1
    have ha : n2 = a := by
      rw [h, hor] at o2; simpa using o2.symm
    subst ha
    have h1 : t.he1 ≠ r := by rw [← h]; exact d12
    exact main t.he3 t.he1 n3 n1 ((hside n1 t.he3 t.he1 ht2).2.1 h1 h ⟨rfl, rfl, rfl⟩)
      hx3 hx1 (by rw [← h]; exact g2) g3 g1 ne23 ne31 ne12
      (by rw [← h]; exact d23.symm) (by rw [← h]; exact d12) d31
      (Or.inr (Or.inr rfl)) (Or.inl rfl)
      (by
        rintro s (hs | hs | hs)
        · right; right; exact hs.symm
        · left; rw [← hs, h]
        · right; left; exact hs.symm)
  · -- r = he3 : a = n3, b = n1, c = n2
    have ha : n3 = a := by
      rw [h, hor] at o3; simpa using o3.symm
    subst ha
    have h1 : t.he1 ≠ r := by rw [← h]; exact d31.symm
    have h2 : t.he2 ≠ r := by rw [← h]; exact d23
    exact main t.he1 t.he2 n1 n2 ((hside n2 t.he1 t.he2 ht2).2.2 h1 h2 h ⟨rfl, rfl, rfl⟩)
      hx1 hx2 (by rw [← h]; exact g3) g1 g2 ne31 ne12 ne23
      (by rw [← h]; exact d31.symm) (by rw [← h]; exact d23) d12
      (Or.inl rfl) (Or.inr (Or.inl rfl))
      (by
        rintro s (hs | hs | hs)
        · right; left; exact hs.symm
        · right; right; exact hs.symm
        · left; rw [← hs, h])

theorem connect_apex_ok (m : Mesh) (n : Nat) (s : Side) (hne : n ≠ s.apex)
    (h1 : (m.find_node n).isSome = true) (h2 : (m.find_node s.apex).isSome = true)
    (s1 : m.has_free_slot n = true) (s2 : m.has_free_slot s.apex = true) :
    ∃ m1, connect_apex m n (some s)
        = some (m1, some ⟨m.fresh, ⟨n, none⟩, ⟨s.apex, none⟩⟩) ∧
      m1.nodes = m.nodes ∧ m1.Np = m.Np ∧ m1.Ne = m.Ne + 1 ∧ m1.Nt = m.Nt ∧
      m1.fresh = m.fresh + 1 ∧
      (∀ r, m1.halfedge r = if m.fresh = r.edge
        then some (if r.idx then ⟨s.apex, none⟩ else ⟨n, none⟩) else m.halfedge r) ∧
      (∀ k, m1.find_node k = m.find_node k) := by
  obtain ⟨m1, hr, rest⟩ := mesh_add_edge_ok m n s.apex hne h1 h2 s1 s2
  refine ⟨m1, ?_, rest⟩
  show (match mesh_add_edge m n s.apex with
    | none => none
    | some (m1, e) => some (m1, some e)) = _
  rw [hr]

/-- Filling one side of a split edge with its two new elements. -/
theorem fill_side_ok (M : Mesh) (first second : HalfEdgeRef) (s : Side) (spoke : Edge)
    (a b n : Nat)
    (h1 : M.halfedge first = some ⟨a, none⟩) (t1 : M.target first = some n)
    (h2 : M.halfedge ⟨spoke.id, false⟩ = some ⟨n, none⟩)
    (t2 : M.target ⟨spoke.id, false⟩ = some s.apex)
    (h3 : M.halfedge s.previous = some ⟨s.apex, none⟩) (t3 : M.target s.previous = some a)
    (h4 : M.halfedge second = some ⟨n, none⟩) (t4 : M.target second = some b)
    (h5 : M.halfedge s.next = some ⟨b, none⟩) (t5 : M.target s.next = some s.apex)
    (h6 : M.halfedge ⟨spoke.id, true⟩ = some ⟨s.apex, none⟩)
    (t6 : M.target ⟨spoke.id, true⟩ = some n)
    (hnd : [first, ⟨spoke.id, false⟩, s.previous, second, s.next, ⟨spoke.id, true⟩].Nodup) :
    ∃ M2, fill_side M first second (some s) (some spoke) = some M2 ∧ M2.nodes = M.nodes ∧
      M2.Np = M.Np ∧ M2.Ne = M.Ne ∧ M2.Nt = M.Nt + 2 ∧ M2.fresh = M.fresh + 2 ∧
      (∀ r, r ∉ [first, ⟨spoke.id, false⟩, s.previous, second, s.next, ⟨spoke.id, true⟩] →
        M2.halfedge r = M.halfedge r) ∧
      (∀ r, M2.origin r = M.origin r) ∧ (∀ r, M2.target r = M.target r) := by
  simp only [List.nodup_cons, List.mem_cons, List.mem_singleton, not_or, List.not_mem_nil,
    not_false_eq_true, List.nodup_nil, and_true] at hnd
  obtain ⟨⟨n12, n13, n14, n15, n16⟩, ⟨n23, n24, n25, n26⟩, ⟨n34, n35, n36⟩, ⟨n45, n46⟩, n56⟩ :=
    hnd
  obtain ⟨M1, hr1, hnodes1, hNp1, hNe1, hNt1, hfresh1, H1, O1, T1⟩ :=
    mesh_add_element_ok M first ⟨spoke.id, false⟩ s.previous a n s.apex h1 h2 h3 t1 t2 t3
      n12 n23 (fun h => n13 h.symm)
  have k4 : M1.halfedge second = some ⟨n, none⟩ := by
    rw [H1, if_neg, h4]
    rintro (h | h | h)
    · exact n14 h.symm
    · exact n24 h.symm
    · exact n34 h.symm
  have k5 : M1.halfedge s.next = some ⟨b, none⟩ := by
    rw [H1, if_neg, h5]
    rintro (h | h | h)
    · exact n15 h.symm
    · exact n25 h.symm
    · exact n35 h.symm
  have k6 : M1.halfedge ⟨spoke.id, true⟩ = some ⟨s.apex, none⟩ := by
    rw [H1, if_neg, h6]
    rintro (h | h | h)
    · exact n16 h.symm
    · exact n26 h.symm
    · exact n36 h.symm
  obtain ⟨M2, hr2, hnodes2, hNp2, hNe2, hNt2, hfresh2, H2, O2, T2⟩ :=
    mesh_add_element_ok M1 second s.next ⟨spoke.id, true⟩ n b s.apex k4 k5 k6
      (by rw [T1]; exact t4) (by rw [T1]; exact t5) (by rw [T1]; exact t6)
      n45 n56 (fun h => n46 h.symm)
  refine ⟨M2, ?_, hnodes2.trans hnodes1, hNp2.trans hNp1, hNe2.trans hNe1, ?_, ?_, ?_, ?_, ?_⟩
  · show (match mesh_add_element M first ⟨spoke.id, false⟩ s.previous with
      | none => none
      | some (m1, _) =>
        match mesh_add_element m1 second s.next ⟨spoke.id, true⟩ with
        | none => none
        | some (m2, _) => some m2) = _
    rw [hr1]
    simp only
    rw [hr2]
  · rw [hNt2, hNt1]
  · rw [hfresh2, hfresh1]
  · intro r hr
    simp only [List.mem_cons, List.mem_singleton, not_or, List.not_mem_nil,
      not_false_eq_true, and_true] at hr
    obtain ⟨q1, q2, q3, q4, q5, q6⟩ := hr
    rw [H2, if_neg, H1, if_neg]
    · rintro (h | h | h)
      · exact q1 h
      · exact q2 h
      · exact q3 h
    · rintro (h | h | h)
      · exact q4 h
      · exact q5 h
      · exact q6 h
  · intro r; rw [O2, O1]
  · intro r; rw [T2, T1]

theorem find_node_add_node (m : Mesh) (x y : ℚ) (k : Nat) :
    (mesh_add_node m x y).1.find_node k
      = if m.fresh = k then some ⟨m.fresh, ⟨x, y⟩⟩ else m.find_node k := by
  show (⟨m.fresh, ⟨x, y⟩⟩ :: m.nodes).find? (fun n : Node => n.id == k) = _
  by_cases hk : m.fresh = k
  · rw [List.find?_cons_of_pos _ (by simpa using hk), if_pos hk]
  · rw [List.find?_cons_of_neg _ (by simpa using hk), if_neg hk]
    rfl

/-- The first steps of `mesh_split_edge`: the new node, the removal of the edge and the two
subedges. `ra` and `rb` are half-edges at the two end nodes that are free once the edge is
removed. -/
theorem split_edge_prefix (m : Mesh) (hc : m.consistent) (e : Nat) (ed : Edge)
    (hf : m.find_edge e = some ed) (x y : ℚ) (ra rb : HalfEdgeRef)
    (hra : m.frees e ra ed.he0.origin) (hrb : m.frees e rb ed.he1.origin) :
    ∃ m1 m2 m3,
      mesh_remove_edge (mesh_add_node m x y).1 e = some m1 ∧
      mesh_add_edge m1 ed.he0.origin m.fresh
        = some (m2, ⟨m.fresh + 1, ⟨ed.he0.origin, none⟩, ⟨m.fresh, none⟩⟩) ∧
      mesh_add_edge m2 m.fresh ed.he1.origin
        = some (m3, ⟨m.fresh + 2, ⟨m.fresh, none⟩, ⟨ed.he1.origin, none⟩⟩) ∧
      m3.fresh = m.fresh + 3 ∧ m3.Np = m.Np + 1 ∧ m3.Ne = m.Ne + 1 ∧
      m3.Nt = (m.elements.filter (fun t => !t.uses e)).length ∧
      (m3.find_node m.fresh).isSome = true ∧
      (∀ k, (m.find_node k).isSome = true → (m3.find_node k).isSome = true) ∧
      (∀ r n, m.frees e r n → m3.halfedge r = some ⟨n, none⟩ ∧ m3.target r = m.target r) ∧
      (∀ i, m3.halfedge ⟨m.fresh + 1, i⟩
        = some (if i then ⟨m.fresh, none⟩ else ⟨ed.he0.origin, none⟩)) ∧
      (∀ i, m3.halfedge ⟨m.fresh + 2, i⟩
        = some (if i then ⟨ed.he1.origin, none⟩ else ⟨m.fresh, none⟩)) := by
  have hc0 := mesh_add_node_consistent m hc x y
  have hf0 : (mesh_add_node m x y).1.find_edge e = some ed := hf
  obtain ⟨m1, hr1, hc1, hnodes1, hends1, helems1, hNp1, hNe1, hfresh1⟩ :=
    mesh_remove_edge_consistent _ hc0 e ed hf0
  have hends1 : m1.edges.map Edge.ends = (m.edges.map Edge.ends).filter (fun x => x.1 != e) :=
    hends1
  have helems1 : m1.elements = m.elements.filter (fun x => !x.uses e) := helems1
  have hNp1 : m1.Np = m.Np + 1 := hNp1
  have hNe1 : m1.Ne + 1 = m.Ne := hNe1
  have hfresh1 : m1.fresh = m.fresh + 1 := hfresh1
  have hedm : ed ∈ m.edges := List.mem_of_find?_eq_some hf
  obtain ⟨la, lb⟩ := consistent_edge_origins_lt m hc ed hedm
  obtain ⟨_, nab, fna, fnb, _, _⟩ := hc.2.2.2.2.2.2.2.1 ed hedm
  -- lookups in the mesh without the edge
  have L1 : ∀ r n, m.frees e r n →
      m1.halfedge r = some ⟨n, none⟩ ∧ m1.target r = m.target r ∧ r.edge < m.fresh := by
    rintro r n ⟨hre, xh, hxr, hxo, hxe⟩
    obtain ⟨yh, hy, hyo, _, hyt, hyel⟩ :=
      halfedge_after_remove_edge (mesh_add_node m x y).1 m1 e hc0 hc1 hends1 helems1 r xh hxr hre
    obtain ⟨hlt, _⟩ := consistent_halfedge m hc r xh hxr
    have hnone : yh.element = none := by
      cases hye : yh.element with
      | none => rfl
      | some k =>
        obtain ⟨hxk, t, ht, htid, htu⟩ := hyel k hye
        have ht : t ∈ m.elements := ht
        rcases hxe with h | ⟨u, hu, hxu, huu⟩
        · rw [h] at hxk; cases hxk
        · rw [hxu] at hxk
          have hid : u.id = t.id := by rw [htid]; simpa using hxk
          have f1 := consistent_find_element m hc u hu
          have f2 := consistent_find_element m hc t ht
          rw [hid, f2] at f1
          have : t = u := by simpa using f1
          rw [this, huu] at htu
          cases htu
    refine ⟨?_, hyt, hlt⟩
    rw [hy]
    cases yh with
    | mk o el =>
      simp only at hyo hnone
      rw [hyo, hnone, hxo]
  have FN1 : ∀ k, m1.find_node k
      = if m.fresh = k then some ⟨m.fresh, ⟨x, y⟩⟩ else m.find_node k := by
    intro k
    rw [find_node_congr _ m1 hnodes1, find_node_add_node]
  have fnew1 : (m1.find_node m.fresh).isSome = true := by rw [FN1]; simp
  have fold1 : ∀ k, (m.find_node k).isSome = true → (m1.find_node k).isSome = true := by
    intro k hs
    rw [FN1]
    split_ifs
    · rfl
    · exact hs
  have iso1 : m1.has_free_slot m.fresh = true := by
    apply has_free_slot_of_isolated
    intro e1 he1
    have hin : e1.ends ∈ m1.edges.map Edge.ends := List.mem_map_of_mem _ he1
    rw [hends1] at hin
    obtain ⟨e0, he0, he0e⟩ := List.mem_map.mp (List.mem_filter.mp hin).1
    unfold Edge.ends at he0e
    simp only [Prod.mk.injEq] at he0e
    obtain ⟨_, i2, i3⟩ := he0e
    obtain ⟨b0, b1⟩ := consistent_edge_origins_lt m hc e0 he0
    rw [← i2, ← i3]
    constructor <;> omega
  obtain ⟨a1, _, la1⟩ := L1 ra _ hra
  obtain ⟨b1, _, lb1⟩ := L1 rb _ hrb
  obtain ⟨m2, hr2, hnodes2, hNp2, hNe2, hNt2, hfresh2, H2, FN2⟩ :=
    mesh_add_edge_ok m1 ed.he0.origin m.fresh (by omega) (fold1 _ fna) fnew1
      (has_free_slot_of_halfedge m1 _ _ _ a1 rfl rfl) iso1
  rw [hfresh1] at hr2 H2 hfresh2
  have hb2 : m2.halfedge rb = some ⟨ed.he1.origin, none⟩ := by
    rw [H2, if_neg (by omega)]; exact b1
  have hn2 : m2.halfedge ⟨m.fresh + 1, true⟩ = some ⟨m.fresh, none⟩ := by
    rw [H2, if_pos rfl]; rfl
  obtain ⟨m3, hr3, hnodes3, hNp3, hNe3, hNt3, hfresh3, H3, FN3⟩ :=
    mesh_add_edge_ok m2 m.fresh ed.he1.origin (by omega)
      (by rw [FN2]; exact fnew1) (by rw [FN2]; exact fold1 _ fnb)
      (has_free_slot_of_halfedge m2 _ _ _ hn2 rfl rfl)
      (has_free_slot_of_halfedge m2 _ _ _ hb2 rfl rfl)
  rw [hfresh2] at hr3 H3 hfresh3
  have old3 : ∀ r, r.edge < m.fresh → m3.halfedge r = m1.halfedge r := by
    intro r hr
    rw [H3, if_neg (by omega), H2, if_neg (by omega)]
  refine ⟨m1, m2, m3, hr1, hr2, hr3, by omega, ?_, ?_, ?_, ?_, ?_, ?_, ?_, ?_⟩
  · rw [hNp3, hNp2, hNp1]
  · rw [hNe3, hNe2]; omega
  · rw [hNt3, hNt2, hc1.2.2.1, helems1]
  · rw [FN3, FN2]; exact fnew1
  · intro k hk
    rw [FN3, FN2]; exact fold1 k hk
  · intro r n hfr
    obtain ⟨q1, q2, q3⟩ := L1 r n hfr
    refine ⟨by rw [old3 r q3]; exact q1, ?_⟩
    rw [← q2]
    unfold Mesh.target Mesh.origin
    rw [old3 r.pair q3]
  · intro i
    rw [H3, if_neg (by dsimp only; omega), H2, if_pos rfl]
  · intro i
    rw [H3, if_pos rfl]

/-- The steps of `mesh_split_edge`, once each of them is known to succeed. -/
theorem mesh_split_edge_steps (m : Mesh) (e : Nat) (ed : Edge) (subedge1 subedge2 : Bool)
    (na nb : Node) (side0 side1 : Option Side)
    (hf : m.find_edge e = some ed)
    (hna : m.find_node ed.he0.origin = some na) (hnb : m.find_node ed.he1.origin = some nb)
    (hs0 : m.side ⟨e, false⟩ = some side0) (hs1 : m.side ⟨e, true⟩ = some side1)
    (m1 m2 m3 m4 m5 m6 m7 : Mesh) (S1 S2 : Edge) (sp0 sp1 : Option Edge)
    (hr1 : mesh_remove_edge (mesh_add_node m ((na.position.x + nb.position.x) / 2)
      ((na.position.y + nb.position.y) / 2)).1 e = some m1)
    (hr2 : mesh_add_edge m1 na.id m.fresh = some (m2, S1))
    (hr3 : mesh_add_edge m2 m.fresh nb.id = some (m3, S2))
    (hr4 : connect_apex m3 m.fresh side0 = some (m4, sp0))
    (hr5 : connect_apex m4 m.fresh side1 = some (m5, sp1))
    (hr6 : fill_side m5 ⟨S1.id, false⟩ ⟨S2.id, false⟩ side0 sp0 = some m6)
    (hr7 : fill_side m6 ⟨S2.id, true⟩ ⟨S1.id, true⟩ side1 sp1 = some m7) :
    mesh_split_edge m e subedge1 subedge2
      = some (m7, if subedge1 then some S1 else none, if subedge2 then some S2 else none) := by
  unfold mesh_split_edge
  rw [hf]
  simp only
  rw [hna, hnb, hs0, hs1]
  simp only
  rw [hr1]
  simp only
  have hn : (mesh_add_node m ((na.position.x + nb.position.x) / 2)
      ((na.position.y + nb.position.y) / 2)).2.id = m.fresh := rfl
  rw [hn, hr2]
  simp only
  rw [hr3]
  simp only
  rw [hr4]
  simp only
  rw [hr5]
  simp only
  rw [hr6]
  simp only
  rw [hr7]

theorem length_filter_uses_one (m : Mesh) (hc : m.consistent) (e : Nat) (t0 : Element)
    (h0 : t0 ∈ m.elements)
    (hu : ∀ t ∈ m.elements, t.uses e = true ↔ t.id = t0.id) :
    (m.elements.filter (fun t => !t.uses e)).length + 1 = m.elements.length := by
  have hcongr : m.elements.filter (fun t => !t.uses e)
      = m.elements.filter (fun t => t.id != t0.id) := by
    apply List.filter_congr
    intro t ht
    have := hu t ht
    by_cases hid : t.id = t0.id
    · simp [hid, this.mpr hid]
    · have hnu : t.uses e = false := by
        cases hx : t.uses e
        · rfl
        · exact absurd (this.mp hx) hid
      simp [hid, hnu]
  rw [hcongr]
  exact length_filter_ne_of_nodup (fun x : Element => x.id) m.elements hc.2.2.2.2.2.1 t0 h0

theorem length_filter_uses_two (m : Mesh) (hc : m.consistent) (e : Nat) (t0 t1 : Element)
    (h0 : t0 ∈ m.elements) (h1 : t1 ∈ m.elements) (hne : t0.id ≠ t1.id)
    (hu : ∀ t ∈ m.elements, t.uses e = true ↔ (t.id = t0.id ∨ t.id = t1.id)) :
    (m.elements.filter (fun t => !t.uses e)).length + 2 = m.elements.length := by
  have hcongr : m.elements.filter (fun t => !t.uses e)
      = (m.elements.filter (fun t => t.id != t0.id)).filter (fun t => t.id != t1.id) := by
    rw [List.filter_filter]
    apply List.filter_congr
    intro t ht
    have := hu t ht
    by_cases hid0 : t.id = t0.id
    · simp [hid0, this.mpr (Or.inl hid0)]
    · by_cases hid1 : t.id = t1.id
      · simp [hid1, this.mpr (Or.inr hid1)]
      · have hnu : t.uses e = false := by
          cases hx : t.uses e
          · rfl
          · rcases this.mp hx with h | h
            · exact absurd h hid0
            · exact absurd h hid1
        simp [hid0, hid1, hnu]
  rw [hcongr]
  have hnd : ((m.elements.filter (fun t => t.id != t0.id)).map (fun x : Element => x.id)).Nodup :=
    List.Nodup.sublist (List.Sublist.map _ (List.filter_sublist _)) hc.2.2.2.2.2.1
  have hmem : t1 ∈ m.elements.filter (fun t => t.id != t0.id) := by
    apply List.mem_filter.mpr
    refine ⟨h1, ?_⟩
    simpa using fun h => hne h.symm
  have a1 := length_filter_ne_of_nodup (fun x : Element => x.id) _ hnd t1 hmem
  have a2 := length_filter_ne_of_nodup (fun x : Element => x.id) m.elements hc.2.2.2.2.2.1 t0 h0
  simp only at a1 a2
  omega

theorem target_of_halfedge_pair (M : Mesh) (r : HalfEdgeRef) (x : HalfEdge)
    (h : M.halfedge r.pair = some x) : M.target r = some x.origin := by
  unfold Mesh.target Mesh.origin
  rw [h]; rfl

theorem find_node_id (m : Mesh) (k : Nat) (hk : (m.find_node k).isSome = true) :
    ∃ nd, m.find_node k = some nd ∧ nd.id = k := by
  cases hfn : m.find_node k with
  | none => rw [hfn] at hk; simp at hk
  | some nd =>
    exact ⟨nd, rfl, (find?_id_mem (fun x : Node => x.id) m.nodes k nd hfn).2⟩

/-- What `mesh_split_edge` needs to know about the element on one side of the edge. -/
theorem split_edge_side (m : Mesh) (hc : m.consistent) (e : Nat) (ed : Edge)
    (hf : m.find_edge e = some ed) (i : Bool) (k : Nat)
    (hk : (ed.he i).element = some k) :
    ∃ t nx pv c, t ∈ m.elements ∧ t.id = k ∧ t.has ⟨e, i⟩ ∧ t.has nx ∧ t.has pv ∧
      (∀ s, t.has s → s = ⟨e, i⟩ ∨ s = nx ∨ s = pv) ∧
      m.side ⟨e, i⟩ = some (some ⟨c, nx, pv⟩) ∧
      m.frees e nx (ed.he (!i)).origin ∧ m.frees e pv c ∧
      m.target nx = some c ∧ m.target pv = some (ed.he i).origin ∧
      nx ≠ pv ∧ nx.edge < m.fresh ∧ pv.edge < m.fresh ∧ c < m.fresh ∧
      (m.find_node c).isSome = true := by
  have hh := halfedge_of_find_edge m e ed hf i
  have hhe : ed.he i = ⟨(ed.he i).origin, some k⟩ := by
    cases hx : ed.he i with
    | mk o el =>
      rw [hx] at hk
      simp only at hk
      rw [hk]
  rw [hhe] at hh
  obtain ⟨t, nx, pv, b, c, htm, htid, huses, hside, hnx, hpv, tr, tnx, tpv, nxpv, nxe, pve,
    hasnx, haspv, hasr, hex⟩ := side_of_bound m hc ⟨e, i⟩ _ k hh
  obtain ⟨_, g2⟩ := origin_target_of_find_edge m ⟨e, i⟩ ed hf
  rw [tr] at g2
  have hb : b = (ed.he (!i)).origin := by simpa using g2
  obtain ⟨lnx, _⟩ := consistent_halfedge m hc nx _ hnx
  obtain ⟨lpv, _, _, _, _, lc, _, fc, _⟩ := consistent_halfedge m hc pv _ hpv
  refine ⟨t, nx, pv, c, htm, htid, hasr, hasnx, haspv, hex, hside, ?_, ?_, tnx, tpv, nxpv,
    lnx, lpv, lc, fc⟩
  · exact ⟨nxe, _, hnx, hb, Or.inr ⟨t, htm, by rw [htid], huses⟩⟩
  · exact ⟨pve, _, hpv, rfl, Or.inr ⟨t, htm, by rw [htid], huses⟩⟩

/-- Splitting an edge with an element on both sides. -/
theorem split_edge_internal (m : Mesh) (hc : m.consistent) (e : Nat) (ed : Edge)
    (subedge1 subedge2 : Bool) (hf : m.find_edge e = some ed) (k0 k1 : Nat)
    (hk0 : ed.he0.element = some k0) (hk1 : ed.he1.element = some k1) :
    ∃ m7 S1 S2, mesh_split_edge m e subedge1 subedge2
        = some (m7, if subedge1 then some S1 else none, if subedge2 then some S2 else none) ∧
      m7.Np = m.Np + 1 ∧ m7.Ne = m.Ne + 3 ∧ m7.Nt = m.Nt + 2 := by
  have hedm : ed ∈ m.edges := List.mem_of_find?_eq_some hf
  obtain ⟨_, nab, fna, fnb, _, _⟩ := hc.2.2.2.2.2.2.2.1 ed hedm
  obtain ⟨la, lb⟩ := consistent_edge_origins_lt m hc ed hedm
  obtain ⟨na, hna, hnaid⟩ := find_node_id m _ fna
  obtain ⟨nb, hnb, hnbid⟩ := find_node_id m _ fnb
  obtain ⟨t0, nx0, pv0, c0, ht0, ht0id, has0r, has0nx, has0pv, hex0, hside0, Fnx0, Fpv0, tnx0,
    tpv0, d0, lnx0, lpv0, lc0, fc0⟩ := split_edge_side m hc e ed hf false k0 hk0
  obtain ⟨t1, nx1, pv1, c1, ht1, ht1id, has1r, has1nx, has1pv, hex1, hside1, Fnx1, Fpv1, tnx1,
    tpv1, d1, lnx1, lpv1, lc1, fc1⟩ := split_edge_side m hc e ed hf true k1 hk1
  change m.frees e nx0 ed.he1.origin at Fnx0
  change m.target pv0 = some ed.he0.origin at tpv0
  change m.frees e nx1 ed.he0.origin at Fnx1
  change m.target pv1 = some ed.he1.origin at tpv1
  -- the two elements are different
  have hk01 : t0.id ≠ t1.id := by
    intro h
    have f0 := consistent_find_element m hc t0 ht0
    have f1 := consistent_find_element m hc t1 ht1
    rw [h, f1] at f0
    have h10 : t1 = t0 := by simpa using f0
    rw [h10] at has1r
    rcases hex0 _ has1r with h | h | h
    · simp at h
    · exact Fnx0.1 (by rw [← h])
    · exact Fpv0.1 (by rw [← h])
  have cross : ∀ x y, t0.has x → t1.has y → x ≠ y := by
    intro x y hx hy hxy
    rw [hxy] at hx
    exact hk01 (consistent_has_unique m hc t0 t1 ht0 ht1 y hx hy)
  have huses : ∀ t ∈ m.elements, t.uses e = true ↔ (t.id = t0.id ∨ t.id = t1.id) := by
    intro t ht
    rw [uses_iff_has]
    constructor
    · rintro (h | h)
      · exact Or.inl (consistent_has_unique m hc t t0 ht ht0 _ h has0r)
      · exact Or.inr (consistent_has_unique m hc t t1 ht ht1 _ h has1r)
    · rintro (h | h)
      · have f0 := consistent_find_element m hc t0 ht0
        have f := consistent_find_element m hc t ht
        rw [h, f0] at f
        have : t0 = t := by simpa using f
        rw [← this]; exact Or.inl has0r
      · have f1 := consistent_find_element m hc t1 ht1
        have f := consistent_find_element m hc t ht
        rw [h, f1] at f
        have : t1 = t := by simpa using f
        rw [← this]; exact Or.inr has1r
  have hcount := length_filter_uses_two m hc e t0 t1 ht0 ht1 hk01 huses
  -- the new node, the removal of the edge, the two subedges
  obtain ⟨m1, m2, m3, hr1, hr2, hr3, hfresh3, hNp3, hNe3, hNt3, fnew3, fold3, L3, SA3, SB3⟩ :=
    split_edge_prefix m hc e ed hf ((na.position.x + nb.position.x) / 2)
      ((na.position.y + nb.position.y) / 2) nx1 nx0 Fnx1 Fnx0
  obtain ⟨l3nx0, t3nx0⟩ := L3 nx0 _ Fnx0
  obtain ⟨l3pv0, t3pv0⟩ := L3 pv0 _ Fpv0
  obtain ⟨l3nx1, t3nx1⟩ := L3 nx1 _ Fnx1
  obtain ⟨l3pv1, t3pv1⟩ := L3 pv1 _ Fpv1
  -- the two edges to the opposite corners
  obtain ⟨m4, hr4, hnodes4, hNp4, hNe4, hNt4, hfresh4, H4, FN4⟩ :=
    connect_apex_ok m3 m.fresh ⟨c0, nx0, pv0⟩ (by dsimp only; omega) fnew3 (fold3 c0 fc0)
      (has_free_slot_of_halfedge m3 ⟨m.fresh + 1, true⟩ _ m.fresh (SA3 true) rfl rfl)
      (has_free_slot_of_halfedge m3 pv0 _ c0 l3pv0 rfl rfl)
  rw [hfresh3] at hr4 H4 hfresh4
  have l4pv1 : m4.halfedge pv1 = some ⟨c1, none⟩ := by
    rw [H4, if_neg (by omega)]; exact l3pv1
  have l4s : m4.halfedge ⟨m.fresh + 1, true⟩ = some ⟨m.fresh, none⟩ := by
    rw [H4, if_neg (by dsimp only; omega)]; exact SA3 true
  obtain ⟨m5, hr5, hnodes5, hNp5, hNe5, hNt5, hfresh5, H5, FN5⟩ :=
    connect_apex_ok m4 m.fresh ⟨c1, nx1, pv1⟩ (by dsimp only; omega)
      (by rw [FN4]; exact fnew3) (by rw [FN4]; exact fold3 c1 fc1)
      (has_free_slot_of_halfedge m4 ⟨m.fresh + 1, true⟩ _ m.fresh l4s rfl rfl)
      (has_free_slot_of_halfedge m4 pv1 _ c1 l4pv1 rfl rfl)
  rw [hfresh4] at hr5 H5 hfresh5
  -- lookups in the mesh with all new edges
  have old5 : ∀ r, r.edge < m.fresh + 3 → m5.halfedge r = m3.halfedge r := by
    intro r hr
    rw [H5, if_neg (by omega), H4, if_neg (by omega)]
  have sp0 : ∀ i, m5.halfedge ⟨m.fresh + 3, i⟩
      = some (if i then ⟨c0, none⟩ else ⟨m.fresh, none⟩) := by
    intro i
    rw [H5, if_neg (by dsimp only; omega), H4, if_pos rfl]
  have sp1 : ∀ i, m5.halfedge ⟨m.fresh + 4, i⟩
      = some (if i then ⟨c1, none⟩ else ⟨m.fresh, none⟩) := by
    intro i
    rw [H5, if_pos rfl]
  have sa5 : ∀ i, m5.halfedge ⟨m.fresh + 1, i⟩
      = some (if i then ⟨m.fresh, none⟩ else ⟨ed.he0.origin, none⟩) := by
    intro i
    rw [old5 _ (by dsimp only; omega)]; exact SA3 i
  have sb5 : ∀ i, m5.halfedge ⟨m.fresh + 2, i⟩
      = some (if i then ⟨ed.he1.origin, none⟩ else ⟨m.fresh, none⟩) := by
    intro i
    rw [old5 _ (by dsimp only; omega)]; exact SB3 i
  have oldt5 : ∀ r, r.edge < m.fresh → m5.target r = m3.target r := by
    intro r hr
    unfold Mesh.target Mesh.origin
    rw [old5 r.pair (by show r.edge < _; omega)]
  have N : ∀ r : HalfEdgeRef, r.edge < m.fresh → ∀ k i, r ≠ ⟨m.fresh + k, i⟩ := fun r hr k i =>
    ref_ne_of_lt r m.fresh _ i hr (by omega)
  have S : ∀ r : HalfEdgeRef, r.edge < m.fresh → ∀ k i, (⟨m.fresh + k, i⟩ : HalfEdgeRef) ≠ r :=
    fun r hr k i h => N r hr k i h.symm
  -- the two elements on the side of he[0]
  obtain ⟨m6, hr6, hnodes6, hNp6, hNe6, hNt6, hfresh6, H6, O6, T6⟩ :=
    fill_side_ok m5 ⟨m.fresh + 1, false⟩ ⟨m.fresh + 2, false⟩ ⟨c0, nx0, pv0⟩
      ⟨m.fresh + 3, ⟨m.fresh, none⟩, ⟨c0, none⟩⟩ ed.he0.origin ed.he1.origin m.fresh
      (sa5 false) (target_of_halfedge_pair m5 ⟨m.fresh + 1, false⟩ ⟨m.fresh, none⟩ (sa5 true))
      (sp0 false) (target_of_halfedge_pair m5 ⟨m.fresh + 3, false⟩ ⟨c0, none⟩ (sp0 true))
      (by rw [old5 pv0 (by omega)]; exact l3pv0)
      (by rw [oldt5 _ lpv0, t3pv0]; exact tpv0)
      (sb5 false) (target_of_halfedge_pair m5 ⟨m.fresh + 2, false⟩ ⟨ed.he1.origin, none⟩ (sb5 true))
      (by rw [old5 nx0 (by omega)]; exact l3nx0)
      (by rw [oldt5 _ lnx0, t3nx0]; exact tnx0)
      (sp0 true) (target_of_halfedge_pair m5 ⟨m.fresh + 3, true⟩ ⟨m.fresh, none⟩ (sp0 false))
      (by simp [N pv0 lpv0, N nx0 lnx0, S pv0 lpv0, S nx0 lnx0, d0, d0.symm])
  -- the two elements on the side of he[1]
  have keep : ∀ r, r ∉ [(⟨m.fresh + 1, false⟩ : HalfEdgeRef), ⟨m.fresh + 3, false⟩, pv0,
      ⟨m.fresh + 2, false⟩, nx0, ⟨m.fresh + 3, true⟩] → m6.halfedge r = m5.halfedge r := H6
  have x1 := cross pv0 pv1 has0pv has1pv
  have x2 := cross pv0 nx1 has0pv has1nx
  have x3 := cross nx0 pv1 has0nx has1pv
  have x4 := cross nx0 nx1 has0nx has1nx
  obtain ⟨m7, hr7, hnodes7, hNp7, hNe7, hNt7, hfresh7, H7, O7, T7⟩ :=
    fill_side_ok m6 ⟨m.fresh + 2, true⟩ ⟨m.fresh + 1, true⟩ ⟨c1, nx1, pv1⟩
      ⟨m.fresh + 4, ⟨m.fresh, none⟩, ⟨c1, none⟩⟩ ed.he1.origin ed.he0.origin m.fresh
      (by rw [keep _ (by simp [S pv0 lpv0, S nx0 lnx0])]; exact sb5 true)
      (by rw [T6]; exact target_of_halfedge_pair m5 ⟨m.fresh + 2, true⟩ ⟨m.fresh, none⟩ (sb5 false))
      (by rw [keep _ (by simp [S pv0 lpv0, S nx0 lnx0])]; exact sp1 false)
      (by rw [T6]; exact target_of_halfedge_pair m5 ⟨m.fresh + 4, false⟩ ⟨c1, none⟩ (sp1 true))
      (by rw [keep _ (by simp [N pv1 lpv1, x1.symm, x3.symm]), old5 pv1 (by omega)]; exact l3pv1)
      (by rw [T6, oldt5 _ lpv1, t3pv1]; exact tpv1)
      (by rw [keep _ (by simp [S pv0 lpv0, S nx0 lnx0])]; exact sa5 true)
      (by rw [T6]; exact target_of_halfedge_pair m5 ⟨m.fresh + 1, true⟩ ⟨ed.he0.origin, none⟩ (sa5 false))
      (by rw [keep _ (by simp [N nx1 lnx1, x2.symm, x4.symm]), old5 nx1 (by omega)]; exact l3nx1)
      (by rw [T6, oldt5 _ lnx1, t3nx1]; exact tnx1)
      (by rw [keep _ (by simp [S pv0 lpv0, S nx0 lnx0])]; exact sp1 true)
      (by rw [T6]; exact target_of_halfedge_pair m5 ⟨m.fresh + 4, true⟩ ⟨m.fresh, none⟩ (sp1 false))
      (by simp [N pv1 lpv1, N nx1 lnx1, S pv1 lpv1, S nx1 lnx1, d1, d1.symm])
  rw [← hnaid] at hr2
  rw [← hnbid] at hr3
  refine ⟨m7, _, _, mesh_split_edge_steps m e ed subedge1 subedge2 na nb _ _ hf hna hnb
    hside0 hside1 m1 m2 m3 m4 m5 m6 m7 _ _ _ _ hr1 hr2 hr3 hr4 hr5 hr6 hr7, ?_, ?_, ?_⟩
  · rw [hNp7, hNp6, hNp5, hNp4, hNp3]
  · rw [hNe7, hNe6, hNe5, hNe4, hNe3]
  · rw [hNt7, hNt6, hNt5, hNt4, hNt3, hc.2.2.1]
    omega

/-- On an edge with a free half-edge `he[i]` and a bound twin, the free successor of `he[i]`
is a free half-edge on another edge, at the target node of `he[i]`. -/
theorem free_ref_of_free_next (m : Mesh) (hc : m.consistent) (e : Nat) (ed : Edge)
    (hf : m.find_edge e = some ed) (i : Bool) (hfree : (ed.he i).element = none)
    (k : Nat) (hbound : (ed.he (!i)).element = some k) (hfn : m.free_next_ok ed i) :
    ∃ r, m.frees e r (ed.he (!i)).origin := by
  have hedm : ed ∈ m.edges := List.mem_of_find?_eq_some hf
  obtain ⟨_, nab, _⟩ := hc.2.2.2.2.2.2.2.1 ed hedm
  have hany := hfn hfree
  rw [List.any_eq_true] at hany
  obtain ⟨x, hx, hfa⟩ := hany
  have hfx := consistent_find_edge m hc x hx
  have hxe : x.id ≠ e := by
    intro h
    rw [h, hf] at hfx
    have hxed : ed = x := by simpa using hfx
    rw [← hxed] at hfa
    unfold Edge.free_at at hfa
    unfold Edge.he at hfree hbound hfa
    cases i
    · simp only [Bool.not_false, if_true] at hbound
      simp only [Bool.false_eq_true, if_false] at hfree
      simp only [Bool.not_false, if_true] at hfa
      simp [hbound, nab] at hfa
    · simp only [Bool.not_true, Bool.false_eq_true, if_false] at hbound
      simp only [if_true] at hfree
      simp only [Bool.not_true, Bool.false_eq_true, if_false] at hfa
      simp [hbound, Ne.symm nab] at hfa
  unfold Edge.free_at at hfa
  simp only [Bool.or_eq_true, Bool.and_eq_true, beq_iff_eq, Option.isNone_iff_eq_none] at hfa
  rcases hfa with ⟨ho, hel⟩ | ⟨ho, hel⟩
  · refine ⟨⟨x.id, false⟩, hxe, x.he0, halfedge_of_find_edge m x.id x hfx false, ho, Or.inl hel⟩
  · refine ⟨⟨x.id, true⟩, hxe, x.he1, halfedge_of_find_edge m x.id x hfx true, ho, Or.inl hel⟩

/-- Splitting an edge with an element on the side of `he[0]` only. -/
theorem split_edge_boundary0 (m : Mesh) (hw : m.wf) (e : Nat) (ed : Edge)
    (subedge1 subedge2 : Bool) (hf : m.find_edge e = some ed) (k0 : Nat)
    (hk0 : ed.he0.element = some k0) (hk1 : ed.he1.element = none) :
    ∃ m7 S1 S2, mesh_split_edge m e subedge1 subedge2
        = some (m7, if subedge1 then some S1 else none, if subedge2 then some S2 else none) ∧
      m7.Np = m.Np + 1 ∧ m7.Ne = m.Ne + 2 ∧ m7.Nt = m.Nt + 1 := by
  have hc := hw.1
  have hedm : ed ∈ m.edges := List.mem_of_find?_eq_some hf
  obtain ⟨_, nab, fna, fnb, _, _⟩ := hc.2.2.2.2.2.2.2.1 ed hedm
  obtain ⟨na, hna, hnaid⟩ := find_node_id m _ fna
  obtain ⟨nb, hnb, hnbid⟩ := find_node_id m _ fnb
  obtain ⟨t0, nx0, pv0, c0, ht0, ht0id, has0r, has0nx, has0pv, hex0, hside0, Fnx0, Fpv0, tnx0,
    tpv0, d0, lnx0, lpv0, lc0, fc0⟩ := split_edge_side m hc e ed hf false k0 hk0
  change m.frees e nx0 ed.he1.origin at Fnx0
  change m.target pv0 = some ed.he0.origin at tpv0
  obtain ⟨ra, Fra⟩ := free_ref_of_free_next m hc e ed hf true hk1 k0 hk0 (hw.2 ed hedm).2
  change m.frees e ra ed.he0.origin at Fra
  have hh1 : m.halfedge ⟨e, true⟩ = some ⟨ed.he1.origin, none⟩ := by
    rw [halfedge_of_find_edge m e ed hf true]
    show some ed.he1 = _
    cases hx : ed.he1 with
    | mk o el =>
      rw [hx] at hk1
      simp only at hk1
      rw [hk1]
  have hside1 := side_of_free m ⟨e, true⟩ _ hh1
  have huses : ∀ t ∈ m.elements, t.uses e = true ↔ t.id = t0.id := by
    intro t ht
    rw [uses_iff_has]
    constructor
    · rintro (h | h)
      · exact consistent_has_unique m hc t t0 ht ht0 _ h has0r
      · have hb := bounds_of_has m hc t ht _ h
        unfold Mesh.bounds at hb
        rw [hh1] at hb
        simp at hb
    · intro h
      have f0 := consistent_find_element m hc t0 ht0
      have f := consistent_find_element m hc t ht
      rw [h, f0] at f
      have : t0 = t := by simpa using f
      rw [← this]; exact Or.inl has0r
  have hcount := length_filter_uses_one m hc e t0 ht0 huses
  obtain ⟨m1, m2, m3, hr1, hr2, hr3, hfresh3, hNp3, hNe3, hNt3, fnew3, fold3, L3, SA3, SB3⟩ :=
    split_edge_prefix m hc e ed hf ((na.position.x + nb.position.x) / 2)
      ((na.position.y + nb.position.y) / 2) ra nx0 Fra Fnx0
  obtain ⟨l3nx0, t3nx0⟩ := L3 nx0 _ Fnx0
  obtain ⟨l3pv0, t3pv0⟩ := L3 pv0 _ Fpv0
  obtain ⟨m4, hr4, hnodes4, hNp4, hNe4, hNt4, hfresh4, H4, FN4⟩ :=
    connect_apex_ok m3 m.fresh ⟨c0, nx0, pv0⟩ (by dsimp only; omega) fnew3 (fold3 c0 fc0)
      (has_free_slot_of_halfedge m3 ⟨m.fresh + 1, true⟩ _ m.fresh (SA3 true) rfl rfl)
      (has_free_slot_of_halfedge m3 pv0 _ c0 l3pv0 rfl rfl)
  rw [hfresh3] at hr4 H4 hfresh4
  have hr5 : connect_apex m4 m.fresh none = some (m4, none) := rfl
  have old4 : ∀ r, r.edge < m.fresh + 3 → m4.halfedge r = m3.halfedge r := by
    intro r hr
    rw [H4, if_neg (by omega)]
  have sp0 : ∀ i, m4.halfedge ⟨m.fresh + 3, i⟩
      = some (if i then ⟨c0, none⟩ else ⟨m.fresh, none⟩) := by
    intro i
    rw [H4, if_pos rfl]
  have sa4 : ∀ i, m4.halfedge ⟨m.fresh + 1, i⟩
      = some (if i then ⟨m.fresh, none⟩ else ⟨ed.he0.origin, none⟩) := by
    intro i
    rw [old4 _ (by dsimp only; omega)]; exact SA3 i
  have sb4 : ∀ i, m4.halfedge ⟨m.fresh + 2, i⟩
      = some (if i then ⟨ed.he1.origin, none⟩ else ⟨m.fresh, none⟩) := by
    intro i
    rw [old4 _ (by dsimp only; omega)]; exact SB3 i
  have oldt4 : ∀ r, r.edge < m.fresh → m4.target r = m3.target r := by
    intro r hr
    unfold Mesh.target Mesh.origin
    rw [old4 r.pair (by show r.edge < _; omega)]
  have N : ∀ r : HalfEdgeRef, r.edge < m.fresh → ∀ k i, r ≠ ⟨m.fresh + k, i⟩ := fun r hr k i =>
    ref_ne_of_lt r m.fresh _ i hr (by omega)
  have S : ∀ r : HalfEdgeRef, r.edge < m.fresh → ∀ k i, (⟨m.fresh + k, i⟩ : HalfEdgeRef) ≠ r :=
    fun r hr k i h => N r hr k i h.symm
  obtain ⟨m6, hr6, hnodes6, hNp6, hNe6, hNt6, hfresh6, H6, O6, T6⟩ :=
    fill_side_ok m4 ⟨m.fresh + 1, false⟩ ⟨m.fresh + 2, false⟩ ⟨c0, nx0, pv0⟩
      ⟨m.fresh + 3, ⟨m.fresh, none⟩, ⟨c0, none⟩⟩ ed.he0.origin ed.he1.origin m.fresh
      (sa4 false) (target_of_halfedge_pair m4 ⟨m.fresh + 1, false⟩ ⟨m.fresh, none⟩ (sa4 true))
      (sp0 false) (target_of_halfedge_pair m4 ⟨m.fresh + 3, false⟩ ⟨c0, none⟩ (sp0 true))
      (by rw [old4 pv0 (by omega)]; exact l3pv0)
      (by rw [oldt4 _ lpv0, t3pv0]; exact tpv0)
      (sb4 false)
      (target_of_halfedge_pair m4 ⟨m.fresh + 2, false⟩ ⟨ed.he1.origin, none⟩ (sb4 true))
      (by rw [old4 nx0 (by omega)]; exact l3nx0)
      (by rw [oldt4 _ lnx0, t3nx0]; exact tnx0)
      (sp0 true) (target_of_halfedge_pair m4 ⟨m.fresh + 3, true⟩ ⟨m.fresh, none⟩ (sp0 false))
      (by simp [N pv0 lpv0, N nx0 lnx0, S pv0 lpv0, S nx0 lnx0, d0, d0.symm])
  have hr7 : fill_side m6 ⟨m.fresh + 2, true⟩ ⟨m.fresh + 1, true⟩ none none = some m6 := rfl
  rw [← hnaid] at hr2
  rw [← hnbid] at hr3
  refine ⟨m6, _, _, mesh_split_edge_steps m e ed subedge1 subedge2 na nb _ _ hf hna hnb
    hside0 hside1 m1 m2 m3 m4 m4 m6 m6 _ _ _ _ hr1 hr2 hr3 hr4 hr5 hr6 hr7, ?_, ?_, ?_⟩
  · rw [hNp6, hNp4, hNp3]
  · rw [hNe6, hNe4, hNe3]
  · rw [hNt6, hNt4, hNt3, hc.2.2.1]
    omega

/-- Splitting an edge with an element on the side of `he[1]` only. -/
theorem split_edge_boundary1 (m : Mesh) (hw : m.wf) (e : Nat) (ed : Edge)
    (subedge1 subedge2 : Bool) (hf : m.find_edge e = some ed) (k1 : Nat)
    (hk0 : ed.he0.element = none) (hk1 : ed.he1.element = some k1) :
    ∃ m7 S1 S2, mesh_split_edge m e subedge1 subedge2
        = some (m7, if subedge1 then some S1 else none, if subedge2 then some S2 else none) ∧
      m7.Np = m.Np + 1 ∧ m7.Ne = m.Ne + 2 ∧ m7.Nt = m.Nt + 1 := by
  have hc := hw.1
  have hedm : ed ∈ m.edges := List.mem_of_find?_eq_some hf
  obtain ⟨_, nab, fna, fnb, _, _⟩ := hc.2.2.2.2.2.2.2.1 ed hedm
  obtain ⟨na, hna, hnaid⟩ := find_node_id m _ fna
  obtain ⟨nb, hnb, hnbid⟩ := find_node_id m _ fnb
  obtain ⟨t1, nx1, pv1, c1, ht1, ht1id, has1r, has1nx, has1pv, hex1, hside1, Fnx1, Fpv1, tnx1,
    tpv1, d1, lnx1, lpv1, lc1, fc1⟩ := split_edge_side m hc e ed hf true k1 hk1
  change m.frees e nx1 ed.he0.origin at Fnx1
  change m.target pv1 = some ed.he1.origin at tpv1
  obtain ⟨rb, Frb⟩ := free_ref_of_free_next m hc e ed hf false hk0 k1 hk1 (hw.2 ed hedm).1
  change m.frees e rb ed.he1.origin at Frb
  have hh0 : m.halfedge ⟨e, false⟩ = some ⟨ed.he0.origin, none⟩ := by
    rw [halfedge_of_find_edge m e ed hf false]
    show some ed.he0 = _
    cases hx : ed.he0 with
    | mk o el =>
      rw [hx] at hk0
      simp only at hk0
      rw [hk0]
  have hside0 := side_of_free m ⟨e, false⟩ _ hh0
  have huses : ∀ t ∈ m.elements, t.uses e = true ↔ t.id = t1.id := by
    intro t ht
    rw [uses_iff_has]
    constructor
    · rintro (h | h)
      · have hb := bounds_of_has m hc t ht _ h
        unfold Mesh.bounds at hb
        rw [hh0] at hb
        simp at hb
      · exact consistent_has_unique m hc t t1 ht ht1 _ h has1r
    · intro h
      have f1 := consistent_find_element m hc t1 ht1
      have f := consistent_find_element m hc t ht
      rw [h, f1] at f
      have : t1 = t := by simpa using f
      rw [← this]; exact Or.inr has1r
  have hcount := length_filter_uses_one m hc e t1 ht1 huses
  obtain ⟨m1, m2, m3, hr1, hr2, hr3, hfresh3, hNp3, hNe3, hNt3, fnew3, fold3, L3, SA3, SB3⟩ :=
    split_edge_prefix m hc e ed hf ((na.position.x + nb.position.x) / 2)
      ((na.position.y + nb.position.y) / 2) nx1 rb Fnx1 Frb
  obtain ⟨l3nx1, t3nx1⟩ := L3 nx1 _ Fnx1
  obtain ⟨l3pv1, t3pv1⟩ := L3 pv1 _ Fpv1
  have hr4 : connect_apex m3 m.fresh none = some (m3, none) := rfl
  obtain ⟨m5, hr5, hnodes5, hNp5, hNe5, hNt5, hfresh5, H5, FN5⟩ :=
    connect_apex_ok m3 m.fresh ⟨c1, nx1, pv1⟩ (by dsimp only; omega) fnew3 (fold3 c1 fc1)
      (has_free_slot_of_halfedge m3 ⟨m.fresh + 1, true⟩ _ m.fresh (SA3 true) rfl rfl)
      (has_free_slot_of_halfedge m3 pv1 _ c1 l3pv1 rfl rfl)
  rw [hfresh3] at hr5 H5 hfresh5
  have old5 : ∀ r, r.edge < m.fresh + 3 → m5.halfedge r = m3.halfedge r := by
    intro r hr
    rw [H5, if_neg (by omega)]
  have sp1 : ∀ i, m5.halfedge ⟨m.fresh + 3, i⟩
      = some (if i then ⟨c1, none⟩ else ⟨m.fresh, none⟩) := by
    intro i
    rw [H5, if_pos rfl]
  have sa5 : ∀ i, m5.halfedge ⟨m.fresh + 1, i⟩
      = some (if i then ⟨m.fresh, none⟩ else ⟨ed.he0.origin, none⟩) := by
    intro i
    rw [old5 _ (by dsimp only; omega)]; exact SA3 i
  have sb5 : ∀ i, m5.halfedge ⟨m.fresh + 2, i⟩
      = some (if i then ⟨ed.he1.origin, none⟩ else ⟨m.fresh, none⟩) := by
    intro i
    rw [old5 _ (by dsimp only; omega)]; exact SB3 i
  have oldt5 : ∀ r, r.edge < m.fresh → m5.target r = m3.target r := by
    intro r hr
    unfold Mesh.target Mesh.origin
    rw [old5 r.pair (by show r.edge < _; omega)]
  have N : ∀ r : HalfEdgeRef, r.edge < m.fresh → ∀ k i, r ≠ ⟨m.fresh + k, i⟩ := fun r hr k i =>
    ref_ne_of_lt r m.fresh _ i hr (by omega)
  have S : ∀ r : HalfEdgeRef, r.edge < m.fresh → ∀ k i, (⟨m.fresh + k, i⟩ : HalfEdgeRef) ≠ r :=
    fun r hr k i h => N r hr k i h.symm
  have hr6 : fill_side m5 ⟨m.fresh + 1, false⟩ ⟨m.fresh + 2, false⟩ none none = some m5 := rfl
  obtain ⟨m7, hr7, hnodes7, hNp7, hNe7, hNt7, hfresh7, H7, O7, T7⟩ :=
    fill_side_ok m5 ⟨m.fresh + 2, true⟩ ⟨m.fresh + 1, true⟩ ⟨c1, nx1, pv1⟩
      ⟨m.fresh + 3, ⟨m.fresh, none⟩, ⟨c1, none⟩⟩ ed.he1.origin ed.he0.origin m.fresh
      (sb5 true) (target_of_halfedge_pair m5 ⟨m.fresh + 2, true⟩ ⟨m.fresh, none⟩ (sb5 false))
      (sp1 false) (target_of_halfedge_pair m5 ⟨m.fresh + 3, false⟩ ⟨c1, none⟩ (sp1 true))
      (by rw [old5 pv1 (by omega)]; exact l3pv1)
      (by rw [oldt5 _ lpv1, t3pv1]; exact tpv1)
      (sa5 true)
      (target_of_halfedge_pair m5 ⟨m.fresh + 1, true⟩ ⟨ed.he0.origin, none⟩ (sa5 false))
      (by rw [old5 nx1 (by omega)]; exact l3nx1)
      (by rw [oldt5 _ lnx1, t3nx1]; exact tnx1)
      (sp1 true) (target_of_halfedge_pair m5 ⟨m.fresh + 3, true⟩ ⟨m.fresh, none⟩ (sp1 false))
      (by simp [N pv1 lpv1, N nx1 lnx1, S pv1 lpv1, S nx1 lnx1, d1, d1.symm])
  rw [← hnaid] at hr2
  rw [← hnbid] at hr3
  refine ⟨m7, _, _, mesh_split_edge_steps m e ed subedge1 subedge2 na nb _ _ hf hna hnb
    hside0 hside1 m1 m2 m3 m3 m5 m5 m7 _ _ _ _ hr1 hr2 hr3 hr4 hr5 hr6 hr7, ?_, ?_, ?_⟩
  · rw [hNp7, hNp5, hNp3]
  · rw [hNe7, hNe5, hNe3]
  · rw [hNt7, hNt5, hNt3, hc.2.2.1]
    omega

/-! ## Lemmas on the bounding box -/

theorem box2_include_point_comm (b : Box2) (p q : Point2) :
    box2_include_point (box2_include_point b p) q
      = box2_include_point (box2_include_point b q) p := by
  unfold box2_include_point
  simp only
  rw [min_right_comm b.min.x, min_right_comm b.min.y, sup_right_comm b.max.x,
    sup_right_comm b.max.y]

theorem foldl_include_point (ns : List Node) :
    ∀ (b : Box2) (p : Point2),
      ns.foldl (fun box x => box2_include_point box x.position) (box2_include_point b p)
        = box2_include_point (ns.foldl (fun box x => box2_include_point box x.position) b) p := by
  induction ns with
  | nil => intro b p; rfl
  | cons n ns ih =>
    intro b p
    rw [List.foldl_cons, List.foldl_cons, box2_include_point_comm, ih]

/-- The scan over the nodes, started from a box `b`: the result is inside no bound of `b`,
contains every scanned position, and each of its bounds is a bound of `b` or is attained by a
scanned position. -/
theorem foldl_include_point_bounds (ns : List Node) :
    ∀ b : Box2,
      ((ns.foldl (fun box x => box2_include_point box x.position) b).min.x ≤ b.min.x ∧
       (ns.foldl (fun box x => box2_include_point box x.position) b).min.y ≤ b.min.y ∧
       b.max.x ≤ (ns.foldl (fun box x => box2_include_point box x.position) b).max.x ∧
       b.max.y ≤ (ns.foldl (fun box x => box2_include_point box x.position) b).max.y) ∧
      (∀ n ∈ ns,
        (ns.foldl (fun box x => box2_include_point box x.position) b).min.x ≤ n.position.x ∧
        (ns.foldl (fun box x => box2_include_point box x.position) b).min.y ≤ n.position.y ∧
        n.position.x ≤ (ns.foldl (fun box x => box2_include_point box x.position) b).max.x ∧
        n.position.y ≤ (ns.foldl (fun box x => box2_include_point box x.position) b).max.y) ∧
      ((ns.foldl (fun box x => box2_include_point box x.position) b).min.x = b.min.x ∨
        ∃ n ∈ ns, n.position.x
          = (ns.foldl (fun box x => box2_include_point box x.position) b).min.x) ∧
      ((ns.foldl (fun box x => box2_include_point box x.position) b).min.y = b.min.y ∨
        ∃ n ∈ ns, n.position.y
          = (ns.foldl (fun box x => box2_include_point box x.position) b).min.y) ∧
      ((ns.foldl (fun box x => box2_include_point box x.position) b).max.x = b.max.x ∨
        ∃ n ∈ ns, n.position.x
          = (ns.foldl (fun box x => box2_include_point box x.position) b).max.x) ∧
      ((ns.foldl (fun box x => box2_include_point box x.position) b).max.y = b.max.y ∨
        ∃ n ∈ ns, n.position.y
          = (ns.foldl (fun box x => box2_include_point box x.position) b).max.y) := by
  induction ns with
  | nil =>
    intro b
    simp
  | cons n ns ih =>
    intro b
    rw [List.foldl_cons, foldl_include_point]
    obtain ⟨⟨l1, l2, l3, l4⟩, hall, a1, a2, a3, a4⟩ := ih b
    generalize ns.foldl (fun box x => box2_include_point box x.position) b = r at *
    unfold box2_include_point
    simp only
    refine ⟨⟨?_, ?_, ?_, ?_⟩, ?_, ?_, ?_, ?_, ?_⟩
    · exact le_trans (min_le_left _ _) l1
    · exact le_trans (min_le_left _ _) l2
    · exact le_trans l3 (le_max_left _ _)
    · exact le_trans l4 (le_max_left _ _)
    · intro k hk
      rcases List.mem_cons.mp hk with h | h
      · subst h
        exact ⟨min_le_right _ _, min_le_right _ _, le_max_right _ _, le_max_right _ _⟩
      · obtain ⟨h1, h2, h3, h4⟩ := hall k h
        exact ⟨le_trans (min_le_left _ _) h1, le_trans (min_le_left _ _) h2,
          le_trans h3 (le_max_left _ _), le_trans h4 (le_max_left _ _)⟩
    · rcases min_choice r.min.x n.position.x with h | h
      · rw [h]
        rcases a1 with e | ⟨k, hk, e⟩
        · exact Or.inl e
        · exact Or.inr ⟨k, List.mem_cons_of_mem _ hk, e⟩
      · rw [h]; exact Or.inr ⟨n, List.mem_cons_self _ _, rfl⟩
    · rcases min_choice r.min.y n.position.y with h | h
      · rw [h]
        rcases a2 with e | ⟨k, hk, e⟩
        · exact Or.inl e
        · exact Or.inr ⟨k, List.mem_cons_of_mem _ hk, e⟩
      · rw [h]; exact Or.inr ⟨n, List.mem_cons_self _ _, rfl⟩
    · rcases max_choice r.max.x n.position.x with h | h
      · rw [h]
        rcases a3 with e | ⟨k, hk, e⟩
        · exact Or.inl e
        · exact Or.inr ⟨k, List.mem_cons_of_mem _ hk, e⟩
      · rw [h]; exact Or.inr ⟨n, List.mem_cons_self _ _, rfl⟩
    · rcases max_choice r.max.y n.position.y with h | h
      · rw [h]
        rcases a4 with e | ⟨k, hk, e⟩
        · exact Or.inl e
        · exact Or.inr ⟨k, List.mem_cons_of_mem _ hk, e⟩
      · rw [h]; exact Or.inr ⟨n, List.mem_cons_self _ _, rfl⟩

/-! ## Theorems on the mesh operators -/

/-- The construction of the test quadrilateral succeeds and gives a well-formed mesh with 4 nodes,
5 edges and 2 elements. -/
theorem test_quad_wf :
    test_quad_build = some test_quad ∧ test_quad.wf ∧
    test_quad.Np = 4 ∧ test_quad.Ne = 5 ∧ test_quad.Nt = 2 := by
  refine ⟨rfl, ?_, rfl, rfl, rfl⟩
  decide

/-- C6: removing an element `el` of a consistent mesh succeeds, decreases `Nt` by 1 and leaves
`Np` and `Ne` unchanged: the nodes are the same, the edges are the same with the same end nodes,
and only the element `el` is gone. On the test quadrilateral (4 nodes, 5 edges, 2 elements),
removing both elements leaves `Np = 4`, `Ne = 5`, `Nt = 0` and no element. -/
theorem mesh_remove_element_counts (m : Mesh) (el : Nat) (t : Element) (hc : m.consistent)
    (hf : m.find_element el = some t) :
    (∃ m1, mesh_remove_element m el = some m1 ∧
      m1.Nt + 1 = m.Nt ∧ m1.Np = m.Np ∧ m1.Ne = m.Ne ∧
      m1.nodes = m.nodes ∧ m1.edges.map Edge.ends = m.edges.map Edge.ends ∧
      m1.elements = m.elements.filter (fun x => x.id != el) ∧ m1.consistent) ∧
    (test_quad.Np = 4 ∧ test_quad.Ne = 5 ∧ test_quad.Nt = 2 ∧
      test_quad.elements.map (fun x => x.id) = [10, 9] ∧
      ∃ q1 q2, mesh_remove_element test_quad 9 = some q1 ∧
        mesh_remove_element q1 10 = some q2 ∧
        q2.Np = 4 ∧ q2.Ne = 5 ∧ q2.Nt = 0 ∧ q2.elements = []) := by
  constructor
  · obtain ⟨m1, hrm, hc1, hnodes, hends, helems, hNp, hNe, hNt, _, _, _⟩ :=
      mesh_remove_element_consistent m hc el t hf
    exact ⟨m1, hrm, hNt, hNp, hNe, hnodes, hends, helems, hc1⟩
  · exact ⟨rfl, rfl, rfl, rfl, _, _, rfl, rfl, rfl, rfl, rfl, rfl⟩

/-- Witness of C6 on the test quadrilateral and its element 9. -/
theorem mesh_remove_element_counts_witness :
    test_quad.consistent ∧
    test_quad.find_element 9 = some ⟨9, ⟨4, false⟩, ⟨5, false⟩, ⟨8, true⟩⟩ ∧
    ∃ m1, mesh_remove_element test_quad 9 = some m1 ∧
      m1.Nt + 1 = test_quad.Nt ∧ m1.Np = test_quad.Np ∧ m1.Ne = test_quad.Ne :=
  have hc : test_quad.consistent := by decide
  have hf : test_quad.find_element 9 = some ⟨9, ⟨4, false⟩, ⟨5, false⟩, ⟨8, true⟩⟩ := rfl
  match (mesh_remove_element_counts test_quad 9 _ hc hf).1 with
  | ⟨m1, h1, h2, h3, h4, _⟩ => ⟨hc, hf, m1, h1, h2, h3, h4⟩

/-- C7: removing a node `n` of a consistent mesh succeeds, decreases `Np` by 1, `Ne` by the
number of edges incident to `n` and `Nt` by the number of elements incident to `n`; the node `n`,
the edges incident to `n` and the elements with corner `n` are removed and nothing else. On the
test quadrilateral the node 0 has 3 incident edges and 2 incident elements, and removing it
leaves `Np = 3`, `Ne = 2`, `Nt = 0`. -/
theorem mesh_remove_node_counts (m : Mesh) (n : Nat) (hc : m.consistent)
    (hn : (m.find_node n).isSome = true) :
    (∃ m1, mesh_remove_node m n = some m1 ∧
      m1.Np + 1 = m.Np ∧ m1.Ne + (m.incident_edges n).length = m.Ne ∧
      m1.Nt + (m.incident_elements n).length = m.Nt ∧
      m1.nodes = m.nodes.filter (fun x => x.id != n) ∧
      m1.edges.map Edge.ends = (m.edges.filter (fun e => !e.incident n)).map Edge.ends ∧
      m1.elements = m.elements.filter (fun t => !m.corner t n)) ∧
    ((test_quad.incident_edges 0).length = 3 ∧ (test_quad.incident_elements 0).length = 2 ∧
      ∃ q1, mesh_remove_node test_quad 0 = some q1 ∧ q1.Np = 3 ∧ q1.Ne = 2 ∧ q1.Nt = 0) := by
  constructor
  · have hLnd : (m.incident_edges n).Nodup := by
      unfold Mesh.incident_edges
      exact List.Nodup.sublist (List.Sublist.map _ (List.filter_sublist _)) hc.2.2.2.2.1
    have hLmem : ∀ e ∈ m.incident_edges n, e ∈ (m.edges.map Edge.ends).map (fun x => x.1) := by
      intro e he
      unfold Mesh.incident_edges at he
      obtain ⟨x, hx, hxe⟩ := List.mem_map.mp he
      rw [List.map_map]
      exact List.mem_map.mpr ⟨x, (List.mem_filter.mp hx).1, hxe⟩
    obtain ⟨m1, hr1, hc1, hnodes1, hends1, helems1, hNp1, hNe1, hfresh1⟩ :=
      remove_edges_consistent (m.incident_edges n) m hc hLnd hLmem
    cases hfn : m.find_node n with
    | none => rw [hfn] at hn; simp at hn
    | some nd =>
      have hndm : nd ∈ m.nodes := List.mem_of_find?_eq_some hfn
      have hpos : 0 < m.nodes.length := List.length_pos_of_mem hndm
      have hres : mesh_remove_node m n
          = some { m1 with nodes := m1.nodes.filter (fun x => x.id != n), Np := m1.Np - 1 } := by
        unfold mesh_remove_node
        rw [hfn]
        simp only
        by_cases hiso : m.is_isolated n = true
        · have hL : m.incident_edges n = [] := by
            unfold Mesh.incident_edges
            unfold Mesh.is_isolated at hiso
            rw [List.all_eq_true] at hiso
            have : m.edges.filter (fun e => e.incident n) = [] := by
              apply List.filter_eq_nil_iff.mpr
              intro x hx
              have := hiso x hx
              simpa using this
            rw [this]; rfl
          rw [hL] at hr1
          have hm1 : m = m1 := by
            have : some m = some m1 := hr1
            simpa using this
          rw [if_pos hiso, ← hm1]
        · rw [if_neg hiso, hr1]
      refine ⟨_, hres, ?_, ?_, ?_, ?_, ?_, ?_⟩
      · show m1.Np - 1 + 1 = m.Np
        rw [hNp1, hc.1]; omega
      · exact hNe1
      · show m1.Nt + (m.incident_elements n).length = m.Nt
        rw [hc1.2.2.1, hc.2.2.1, helems1]
        unfold Mesh.incident_elements
        have hcongr : m.elements.filter (fun x => !(m.incident_edges n).any (fun e => x.uses e))
            = m.elements.filter (fun x => !m.corner x n) := by
          apply List.filter_congr
          intro x hx
          rw [uses_incident_iff_corner m hc n x hx]
        rw [hcongr]
        have := length_filter_add_not (fun t => m.corner t n) m.elements
        omega
      · show m1.nodes.filter (fun x => x.id != n) = _
        rw [hnodes1]
      · show m1.edges.map Edge.ends = _
        rw [hends1, List.filter_map]
        congr 1
        apply List.filter_congr
        intro x hx
        have := mem_incident_edges m hc n x hx
        simp only [Function.comp]
        show (!(m.incident_edges n).contains x.id) = !x.incident n
        cases hi : x.incident n
        · have hnot : x.id ∉ m.incident_edges n := fun h => by
            rw [this.mp h] at hi; cases hi
          simp [hnot]
        · have hin : x.id ∈ m.incident_edges n := this.mpr hi
          simp [hin]
      · show m1.elements = _
        rw [helems1]
        apply List.filter_congr
        intro x hx
        rw [uses_incident_iff_corner m hc n x hx]
  · exact ⟨rfl, rfl, _, rfl, rfl, rfl, rfl⟩

/-- Witness of C7 on the test quadrilateral and its node 0. -/
theorem mesh_remove_node_counts_witness :
    test_quad.consistent ∧ (test_quad.find_node 0).isSome = true ∧
    ∃ m1, mesh_remove_node test_quad 0 = some m1 ∧
      m1.Np + 1 = test_quad.Np ∧ m1.Ne + (test_quad.incident_edges 0).length = test_quad.Ne ∧
      m1.Nt + (test_quad.incident_elements 0).length = test_quad.Nt :=
  have hc : test_quad.consistent := by decide
  have hn : (test_quad.find_node 0).isSome = true := rfl
  match (mesh_remove_node_counts test_quad 0 hc hn).1 with
  | ⟨m1, h1, h2, h3, h4, _⟩ => ⟨hc, hn, m1, h1, h2, h3, h4⟩

/-- C5: splitting an element `el` of a consistent mesh at a point `p` succeeds, increases `Np`
by 1, `Ne` by 3 and `Nt` by 2, and returns a node of the new mesh whose position is `p`, in both
coordinates. -/
theorem mesh_split_element_counts (m : Mesh) (el : Nat) (t : Element) (p : Point2)
    (hc : m.consistent) (hf : m.find_element el = some t) :
    ∃ m1 nd, mesh_split_element m el p = some (m1, nd) ∧
      m1.Np = m.Np + 1 ∧ m1.Ne = m.Ne + 3 ∧ m1.Nt = m.Nt + 2 ∧
      nd.position = p ∧ nd.position.x = p.x ∧ nd.position.y = p.y ∧
      m1.find_node nd.id = some nd := by
  obtain ⟨htm, htid⟩ := find_element_mem m el t hf
  obtain ⟨n1, n2, n3, hx1, hx2, hx3, o1, o2, o3, g1, g2, g3, _, _, _, d12, d23, d31⟩ :=
    consistent_element m hc t htm
  obtain ⟨l1, _, _, _, _, q1, _, fn1, _⟩ := consistent_halfedge m hc _ _ hx1
  obtain ⟨l2, _, _, _, _, q2, _, fn2, _⟩ := consistent_halfedge m hc _ _ hx2
  obtain ⟨l3, _, _, _, _, q3, _, fn3, _⟩ := consistent_halfedge m hc _ _ hx3
  simp only at q1 q2 q3 fn1 fn2 fn3
  have hpos : 0 < m.elements.length := List.length_pos_of_mem htm
  have hNt0 : m.Nt = m.elements.length := hc.2.2.1
  -- the new node and the removal of the element
  have hf0 : (mesh_add_node m p.x p.y).1.find_element el = some t := hf
  obtain ⟨m1, hr1, hnodes1, hedges1, helems1, hNp1, hNe1, hNt1, hfresh1⟩ :=
    mesh_remove_element_spec _ el t hf0
  have hnodes1 : m1.nodes = ⟨m.fresh, ⟨p.x, p.y⟩⟩ :: m.nodes := hnodes1
  have hedges1 : m1.edges
      = set_element (set_element (set_element m.edges t.he1 none) t.he2 none) t.he3 none :=
    hedges1
  have hNp1 : m1.Np = m.Np + 1 := hNp1
  have hNe1 : m1.Ne = m.Ne := hNe1
  have hNt1 : m1.Nt = m.Nt - 1 := hNt1
  have hfresh1 : m1.fresh = m.fresh + 1 := hfresh1
  have H1 : ∀ r, m1.halfedge r = if r = t.he1 ∨ r = t.he2 ∨ r = t.he3
      then (m.halfedge r).map (fun x => { x with element := none }) else m.halfedge r :=
    halfedge_set3 m m1 _ _ _ none hedges1
  have O1 : ∀ r, m1.origin r = m.origin r := origin_set3 m m1 _ _ _ none hedges1
  have FN1 : ∀ k, m1.find_node k
      = if m.fresh = k then some ⟨m.fresh, ⟨p.x, p.y⟩⟩ else m.find_node k := by
    intro k
    unfold Mesh.find_node
    rw [hnodes1]
    by_cases hk : m.fresh = k
    · rw [List.find?_cons_of_pos _ (by simpa using hk), if_pos hk]
    · rw [List.find?_cons_of_neg _ (by simpa using hk), if_neg hk]
  have fnew1 : (m1.find_node m.fresh).isSome = true := by rw [FN1]; simp
  have fold1 : ∀ k, k < m.fresh → (m.find_node k).isSome = true →
      (m1.find_node k).isSome = true := by
    intro k hk hs
    rw [FN1, if_neg (by omega)]; exact hs
  have a1 : m1.halfedge t.he1 = some ⟨n1, none⟩ := by rw [H1, hx1]; simp
  have a2 : m1.halfedge t.he2 = some ⟨n2, none⟩ := by rw [H1, hx2]; simp
  have a3 : m1.halfedge t.he3 = some ⟨n3, none⟩ := by rw [H1, hx3]; simp
  have iso1 : m1.has_free_slot m.fresh = true := by
    apply has_free_slot_of_isolated
    intro e he
    rw [hedges1] at he
    obtain ⟨e0, he0, _, h0, h1, _⟩ := mem_unbind m.edges t e he
    obtain ⟨b0, b1⟩ := consistent_edge_origins_lt m hc e0 he0
    rw [h0, h1]
    constructor <;> omega
  -- the three edges from the new node to the corners
  obtain ⟨m2, hr2, hnodes2, hedges2, helems2, hNp2, hNe2, hNt2, hfresh2⟩ :=
    mesh_add_edge_spec m1 m.fresh n1 (by omega) fnew1 (fold1 n1 q1 fn1) iso1
      (has_free_slot_of_halfedge m1 _ _ n1 a1 rfl rfl)
  rw [hfresh1] at hr2 hedges2 hfresh2
  have hfresh2 : m2.fresh = m.fresh + 2 := by omega
  have H2 := halfedge_cons m1 m2 _ hedges2
  simp only at H2
  have fnew2 : (m2.find_node m.fresh).isSome = true := by
    rw [find_node_congr m1 m2 hnodes2]; exact fnew1
  have b2 : m2.halfedge t.he2 = some ⟨n2, none⟩ := by
    rw [H2, if_neg (by omega)]; exact a2
  have bn2 : m2.halfedge ⟨m.fresh + 1, false⟩ = some ⟨m.fresh, none⟩ := by
    rw [H2]; simp [Edge.he]
  obtain ⟨m3, hr3, hnodes3, hedges3, helems3, hNp3, hNe3, hNt3, hfresh3⟩ :=
    mesh_add_edge_spec m2 m.fresh n2 (by omega) fnew2
      (by rw [find_node_congr m1 m2 hnodes2]; exact fold1 n2 q2 fn2)
      (has_free_slot_of_halfedge m2 _ _ m.fresh bn2 rfl rfl)
      (has_free_slot_of_halfedge m2 _ _ n2 b2 rfl rfl)
  rw [hfresh2] at hr3 hedges3 hfresh3
  have hfresh3 : m3.fresh = m.fresh + 3 := by omega
  have H3 := halfedge_cons m2 m3 _ hedges3
  simp only at H3
  have fnew3 : (m3.find_node m.fresh).isSome = true := by
    rw [find_node_congr m2 m3 hnodes3]; exact fnew2
  have c3 : m3.halfedge t.he3 = some ⟨n3, none⟩ := by
    rw [H3, if_neg (by omega), H2, if_neg (by omega)]; exact a3
  have cn3 : m3.halfedge ⟨m.fresh + 1, false⟩ = some ⟨m.fresh, none⟩ := by
    rw [H3, if_neg (by dsimp only; omega)]; exact bn2
  obtain ⟨m4, hr4, hnodes4, hedges4, helems4, hNp4, hNe4, hNt4, hfresh4⟩ :=
    mesh_add_edge_spec m3 m.fresh n3 (by omega) fnew3
      (by rw [find_node_congr m2 m3 hnodes3, find_node_congr m1 m2 hnodes2]
          exact fold1 n3 q3 fn3)
      (has_free_slot_of_halfedge m3 _ _ m.fresh cn3 rfl rfl)
      (has_free_slot_of_halfedge m3 _ _ n3 c3 rfl rfl)
  rw [hfresh3] at hr4 hedges4 hfresh4
  have hfresh4 : m4.fresh = m.fresh + 4 := by omega
  have H4 := halfedge_cons m3 m4 _ hedges4
  simp only at H4
  -- lookups in the mesh with the three new edges
  have old4 : ∀ r, r.edge < m.fresh → m4.halfedge r = m1.halfedge r := by
    intro r hr
    rw [H4, if_neg (by omega), H3, if_neg (by omega), H2, if_neg (by omega)]
  have new4 : ∀ i, m4.halfedge ⟨m.fresh + 1, i⟩
        = some (Edge.he ⟨m.fresh + 1, ⟨m.fresh, none⟩, ⟨n1, none⟩⟩ i) ∧
      m4.halfedge ⟨m.fresh + 2, i⟩
        = some (Edge.he ⟨m.fresh + 2, ⟨m.fresh, none⟩, ⟨n2, none⟩⟩ i) ∧
      m4.halfedge ⟨m.fresh + 3, i⟩
        = some (Edge.he ⟨m.fresh + 3, ⟨m.fresh, none⟩, ⟨n3, none⟩⟩ i) := by
    intro i
    refine ⟨?_, ?_, ?_⟩
    · rw [H4, if_neg (by dsimp only; omega), H3, if_neg (by dsimp only; omega), H2, if_pos rfl]
    · rw [H4, if_neg (by dsimp only; omega), H3, if_pos rfl]
    · rw [H4, if_pos rfl]
  have N1 : ∀ k i, t.he1 ≠ ⟨m.fresh + k, i⟩ := fun k i =>
    ref_ne_of_lt _ m.fresh _ i l1 (by omega)
  have N2 : ∀ k i, t.he2 ≠ ⟨m.fresh + k, i⟩ := fun k i =>
    ref_ne_of_lt _ m.fresh _ i l2 (by omega)
  have N3 : ∀ k i, t.he3 ≠ ⟨m.fresh + k, i⟩ := fun k i =>
    ref_ne_of_lt _ m.fresh _ i l3 (by omega)
  have S1 : ∀ k i, (⟨m.fresh + k, i⟩ : HalfEdgeRef) ≠ t.he1 := fun k i h => N1 k i h.symm
  have S2 : ∀ k i, (⟨m.fresh + k, i⟩ : HalfEdgeRef) ≠ t.he2 := fun k i h => N2 k i h.symm
  have S3 : ∀ k i, (⟨m.fresh + k, i⟩ : HalfEdgeRef) ≠ t.he3 := fun k i h => N3 k i h.symm
  have oldo4 : ∀ r, r.edge < m.fresh → m4.origin r = m.origin r := by
    intro r hr
    unfold Mesh.origin
    rw [old4 r hr]
    exact O1 r
  have oldt4 : ∀ r, r.edge < m.fresh → m4.target r = m.target r := by
    intro r hr
    exact oldo4 r.pair hr
  have newo4 : ∀ k i x, m4.halfedge ⟨m.fresh + k, i⟩ = some x →
      m4.origin ⟨m.fresh + k, i⟩ = some x.origin := by
    intro k i x hx
    unfold Mesh.origin
    rw [hx]; rfl
  have e1f := (new4 false).1
  have e1t := (new4 true).1
  have e2f := (new4 false).2.1
  have e2t := (new4 true).2.1
  have e3f := (new4 false).2.2
  have e3t := (new4 true).2.2
  have h4a1 : m4.halfedge t.he1 = some ⟨n1, none⟩ := by rw [old4 _ l1]; exact a1
  have h4a2 : m4.halfedge t.he2 = some ⟨n2, none⟩ := by rw [old4 _ l2]; exact a2
  have h4a3 : m4.halfedge t.he3 = some ⟨n3, none⟩ := by rw [old4 _ l3]; exact a3
  -- the first element: he1, corner 2 → new node, new node → corner 1
  obtain ⟨m5, hr5, hnodes5, hNp5, hNe5, hNt5, hfresh5, H5, O5, T5⟩ :=
    mesh_add_element_ok m4 t.he1 ⟨m.fresh + 2, true⟩ ⟨m.fresh + 1, false⟩ n1 n2 m.fresh
      h4a1 e2t e1f
      (by rw [oldt4 _ l1]; exact g1)
      (newo4 2 false _ e2f)
      (newo4 1 true _ e1t)
      (N1 2 true) (by simp) (S1 1 false)
  rw [hfresh4] at hr5 H5
  have h5a2 : m5.halfedge t.he2 = some ⟨n2, none⟩ := by
    rw [H5, if_neg (by simp [d12.symm, N2]), h4a2]
  have h5e3t : m5.halfedge ⟨m.fresh + 3, true⟩ = some ⟨n3, none⟩ := by
    rw [H5, if_neg (by simp [S1]), e3t]; rfl
  have h5e2f : m5.halfedge ⟨m.fresh + 2, false⟩ = some ⟨m.fresh, none⟩ := by
    rw [H5, if_neg (by simp [S1]), e2f]; rfl
  obtain ⟨m6, hr6, hnodes6, hNp6, hNe6, hNt6, hfresh6, H6, O6, T6⟩ :=
    mesh_add_element_ok m5 t.he2 ⟨m.fresh + 3, true⟩ ⟨m.fresh + 2, false⟩ n2 n3 m.fresh
      h5a2 h5e3t h5e2f
      (by rw [T5, oldt4 _ l2]; exact g2)
      (by rw [T5]; exact newo4 3 false _ e3f)
      (by rw [T5]; exact newo4 2 true _ e2t)
      (N2 3 true) (by simp) (S2 2 false)
  rw [hfresh5, hfresh4] at hr6 H6
  have h6a3 : m6.halfedge t.he3 = some ⟨n3, none⟩ := by
    rw [H6, if_neg (by simp [d23.symm, N3]), H5, if_neg (by simp [d31, N3]), h4a3]
  have h6e1t : m6.halfedge ⟨m.fresh + 1, true⟩ = some ⟨n1, none⟩ := by
    rw [H6, if_neg (by simp [S2]), H5, if_neg (by simp [S1]), e1t]; rfl
  have h6e3f : m6.halfedge ⟨m.fresh + 3, false⟩ = some ⟨m.fresh, none⟩ := by
    rw [H6, if_neg (by simp [S2]), H5, if_neg (by simp [S1]), e3f]; rfl
  obtain ⟨m7, hr7, hnodes7, hNp7, hNe7, hNt7, hfresh7, H7, O7, T7⟩ :=
    mesh_add_element_ok m6 t.he3 ⟨m.fresh + 1, true⟩ ⟨m.fresh + 3, false⟩ n3 n1 m.fresh
      h6a3 h6e1t h6e3f
      (by rw [T6, T5, oldt4 _ l3]; exact g3)
      (by rw [T6, T5]; exact newo4 1 false _ e1f)
      (by rw [T6, T5]; exact newo4 3 true _ e3t)
      (N3 1 true) (by simp) (S3 3 false)
  rw [hfresh6, hfresh5, hfresh4] at hr7
  -- the result
  have hres : mesh_split_element m el p = some (m7, ⟨m.fresh, ⟨p.x, p.y⟩⟩) := by
    unfold mesh_split_element
    rw [hf]
    simp only
    rw [o1, o2, o3]
    simp only
    rw [hr1]
    simp only
    have hn : (mesh_add_node m p.x p.y).2 = ⟨m.fresh, ⟨p.x, p.y⟩⟩ := rfl
    rw [hn]
    simp only
    rw [hr2]
    simp only
    rw [hr3]
    simp only
    rw [hr4]
    simp only
    rw [hr5]
    simp only
    rw [hr6]
    simp only
    rw [hr7]
  refine ⟨m7, _, hres, ?_, ?_, ?_, rfl, rfl, rfl, ?_⟩
  · rw [hNp7, hNp6, hNp5, hNp4, hNp3, hNp2, hNp1]
  · rw [hNe7, hNe6, hNe5, hNe4, hNe3, hNe2, hNe1]
  · rw [hNt7, hNt6, hNt5, hNt4, hNt3, hNt2, hNt1]; omega
  · rw [find_node_congr m6 m7 hnodes7, find_node_congr m5 m6 hnodes6,
      find_node_congr m4 m5 hnodes5, find_node_congr m3 m4 hnodes4,
      find_node_congr m2 m3 hnodes3, find_node_congr m1 m2 hnodes2, FN1]
    simp

/-- Witness of C5 on the test quadrilateral, its element 9 and the point (1/4, 1/4). -/
theorem mesh_split_element_counts_witness :
    test_quad.consistent ∧
    test_quad.find_element 9 = some ⟨9, ⟨4, false⟩, ⟨5, false⟩, ⟨8, true⟩⟩ ∧
    ∃ m1 nd, mesh_split_element test_quad 9 ⟨1 / 4, 1 / 4⟩ = some (m1, nd) ∧
      m1.Np = test_quad.Np + 1 ∧ m1.Ne = test_quad.Ne + 3 ∧ m1.Nt = test_quad.Nt + 2 ∧
      nd.position = ⟨1 / 4, 1 / 4⟩ ∧ nd.position.x = 1 / 4 ∧ nd.position.y = 1 / 4 ∧
      m1.find_node nd.id = some nd :=
  have hc : test_quad.consistent := by decide
  have hf : test_quad.find_element 9 = some ⟨9, ⟨4, false⟩, ⟨5, false⟩, ⟨8, true⟩⟩ := rfl
  ⟨hc, hf, mesh_split_element_counts test_quad 9 _ ⟨1 / 4, 1 / 4⟩ hc hf⟩

/-- C4: on a well-formed mesh, `mesh_split_edge` on an edge with an element on both sides
succeeds and increases `Np` by 1, `Ne` by 3 and `Nt` by 2; on an edge with an element on exactly
one side it succeeds and increases `Np` by 1, `Ne` by 2 and `Nt` by 1; in both cases for every
choice of NULL and non-NULL subedge output pointers, and a subedge is written exactly through
the non-NULL ones. On the unit square of the test, split at (1/4, 1/4) in element 9, splitting
the diagonal (edge 8) gives (6, 11, 6) and then splitting the side edge 5 gives (7, 13, 7). -/
theorem mesh_split_edge_counts (m : Mesh) (e : Nat) (ed : Edge) (subedge1 subedge2 : Bool)
    (hw : m.wf) (hf : m.find_edge e = some ed) :
    (ed.he0.element.isSome = true ∧ ed.he1.element.isSome = true →
      ∃ m1 s1 s2, mesh_split_edge m e subedge1 subedge2 = some (m1, s1, s2) ∧
        m1.Np = m.Np + 1 ∧ m1.Ne = m.Ne + 3 ∧ m1.Nt = m.Nt + 2 ∧
        s1.isSome = subedge1 ∧ s2.isSome = subedge2) ∧
    (ed.he0.element.isSome ≠ ed.he1.element.isSome →
      ∃ m1 s1 s2, mesh_split_edge m e subedge1 subedge2 = some (m1, s1, s2) ∧
        m1.Np = m.Np + 1 ∧ m1.Ne = m.Ne + 2 ∧ m1.Nt = m.Nt + 1 ∧
        s1.isSome = subedge1 ∧ s2.isSome = subedge2) ∧
    (∃ q1 n5 q2 a2 b2 q3 a3 b3,
      mesh_split_element test_square 9 ⟨1 / 4, 1 / 4⟩ = some (q1, n5) ∧
      mesh_split_edge q1 8 false false = some (q2, a2, b2) ∧
      q2.Np = 6 ∧ q2.Ne = 11 ∧ q2.Nt = 6 ∧
      mesh_split_edge q2 5 false false = some (q3, a3, b3) ∧
      q3.Np = 7 ∧ q3.Ne = 13 ∧ q3.Nt = 7) := by
  have hout : ∀ (S1 S2 : Edge), (if subedge1 then some S1 else none).isSome = subedge1 ∧
      (if subedge2 then some S2 else none).isSome = subedge2 := by
    intro S1 S2
    cases subedge1 <;> cases subedge2 <;> simp
  refine ⟨?_, ?_, ?_⟩
  · rintro ⟨h0, h1⟩
    obtain ⟨k0, hk0⟩ := Option.isSome_iff_exists.mp h0
    obtain ⟨k1, hk1⟩ := Option.isSome_iff_exists.mp h1
    obtain ⟨m7, S1, S2, hr, c1, c2, c3⟩ :=
      split_edge_internal m hw.1 e ed subedge1 subedge2 hf k0 k1 hk0 hk1
    exact ⟨m7, _, _, hr, c1, c2, c3, (hout S1 S2).1, (hout S1 S2).2⟩
  · intro hne
    cases hk0 : ed.he0.element with
    | none =>
      cases hk1 : ed.he1.element with
      | none => rw [hk0, hk1] at hne; exact absurd rfl hne
      | some k1 =>
        obtain ⟨m7, S1, S2, hr, c1, c2, c3⟩ :=
          split_edge_boundary1 m hw e ed subedge1 subedge2 hf k1 hk0 hk1
        exact ⟨m7, _, _, hr, c1, c2, c3, (hout S1 S2).1, (hout S1 S2).2⟩
    | some k0 =>
      cases hk1 : ed.he1.element with
      | none =>
        obtain ⟨m7, S1, S2, hr, c1, c2, c3⟩ :=
          split_edge_boundary0 m hw e ed subedge1 subedge2 hf k0 hk0 hk1
        exact ⟨m7, _, _, hr, c1, c2, c3, (hout S1 S2).1, (hout S1 S2).2⟩
      | some k1 => rw [hk0, hk1] at hne; exact absurd rfl hne
  · exact ⟨_, _, _, _, _, _, _, _, rfl, rfl, rfl, rfl, rfl, rfl, rfl, rfl, rfl⟩

/-- Witness of C4 on the test quadrilateral: its diagonal, edge 8, has an element on both sides,
and its side, edge 4, on one side only. -/
theorem mesh_split_edge_counts_witness :
    test_quad.wf ∧
    test_quad.find_edge 8 = some ⟨8, ⟨0, some 10⟩, ⟨2, some 9⟩⟩ ∧
    test_quad.find_edge 4 = some ⟨4, ⟨0, some 9⟩, ⟨1, none⟩⟩ ∧
    (∃ m1 s1 s2, mesh_split_edge test_quad 8 true false = some (m1, s1, s2) ∧
      m1.Np = test_quad.Np + 1 ∧ m1.Ne = test_quad.Ne + 3 ∧ m1.Nt = test_quad.Nt + 2 ∧
      s1.isSome = true ∧ s2.isSome = false) ∧
    (∃ m1 s1 s2, mesh_split_edge test_quad 4 false false = some (m1, s1, s2) ∧
      m1.Np = test_quad.Np + 1 ∧ m1.Ne = test_quad.Ne + 2 ∧ m1.Nt = test_quad.Nt + 1 ∧
      s1.isSome = false ∧ s2.isSome = false) :=
  have hw : test_quad.wf := by decide
  have h8 : test_quad.find_edge 8 = some ⟨8, ⟨0, some 10⟩, ⟨2, some 9⟩⟩ := rfl
  have h4 : test_quad.find_edge 4 = some ⟨4, ⟨0, some 9⟩, ⟨1, none⟩⟩ := rfl
  ⟨hw, h8, h4,
    (mesh_split_edge_counts test_quad 8 _ true false hw h8).1 ⟨rfl, rfl⟩,
    (mesh_split_edge_counts test_quad 4 _ false false hw h4).2.1 (by decide)⟩

/-! ## Theorems on the bounding box -/

/-- C11: for a mesh with at least one node, `mesh_get_bounding_box` returns a box that contains
the position of every node and each of whose four bounds is attained by some node, so its `min`
and `max` are the componentwise minimum and maximum of the node positions; after
`mesh_add_node x y` the box is the old box extended to contain `(x, y)`. On the unit square the
box is [0,1]×[0,1] and after adding a node at (2,3) it is [0,2]×[0,3]; on the test quadrilateral
it is [0,2]×[0,2] and then [0,2]×[0,3]. -/
theorem mesh_get_bounding_box_min_max (m : Mesh) (x y : ℚ) (hne : m.nodes ≠ []) :
    (∃ b, mesh_get_bounding_box m = some b ∧
      (∀ n ∈ m.nodes, b.min.x ≤ n.position.x ∧ n.position.x ≤ b.max.x ∧
        b.min.y ≤ n.position.y ∧ n.position.y ≤ b.max.y) ∧
      (∃ n ∈ m.nodes, n.position.x = b.min.x) ∧ (∃ n ∈ m.nodes, n.position.y = b.min.y) ∧
      (∃ n ∈ m.nodes, n.position.x = b.max.x) ∧ (∃ n ∈ m.nodes, n.position.y = b.max.y) ∧
      mesh_get_bounding_box (mesh_add_node m x y).1 = some (box2_include_point b ⟨x, y⟩)) ∧
    (mesh_get_bounding_box test_square = some ⟨⟨0, 0⟩, ⟨1, 1⟩⟩ ∧
      mesh_get_bounding_box (mesh_add_node test_square 2 3).1 = some ⟨⟨0, 0⟩, ⟨2, 3⟩⟩ ∧
      mesh_get_bounding_box test_quad = some ⟨⟨0, 0⟩, ⟨2, 2⟩⟩ ∧
      mesh_get_bounding_box (mesh_add_node test_quad 2 3).1 = some ⟨⟨0, 0⟩, ⟨2, 3⟩⟩) := by
  constructor
  · cases hns : m.nodes with
    | nil => exact absurd hns hne
    | cons n ns =>
      obtain ⟨⟨l1, l2, l3, l4⟩, hall, a1, a2, a3, a4⟩ :=
        foldl_include_point_bounds ns ⟨n.position, n.position⟩
      have hbb : mesh_get_bounding_box m
          = some (ns.foldl (fun box x => box2_include_point box x.position)
              ⟨n.position, n.position⟩) := by
        unfold mesh_get_bounding_box
        rw [hns]
      refine ⟨_, hbb, ?_, ?_, ?_, ?_, ?_, ?_⟩
      · intro k hk
        rcases List.mem_cons.mp hk with h | h
        · subst h
          exact ⟨l1, l3, l2, l4⟩
        · obtain ⟨h1, h2, h3, h4⟩ := hall k h
          exact ⟨h1, h3, h2, h4⟩
      · rcases a1 with e | ⟨k, hk, e⟩
        · exact ⟨n, List.mem_cons_self _ _, e.symm⟩
        · exact ⟨k, List.mem_cons_of_mem _ hk, e⟩
      · rcases a2 with e | ⟨k, hk, e⟩
        · exact ⟨n, List.mem_cons_self _ _, e.symm⟩
        · exact ⟨k, List.mem_cons_of_mem _ hk, e⟩
      · rcases a3 with e | ⟨k, hk, e⟩
        · exact ⟨n, List.mem_cons_self _ _, e.symm⟩
        · exact ⟨k, List.mem_cons_of_mem _ hk, e⟩
      · rcases a4 with e | ⟨k, hk, e⟩
        · exact ⟨n, List.mem_cons_self _ _, e.symm⟩
        · exact ⟨k, List.mem_cons_of_mem _ hk, e⟩
      · have hnew : (mesh_add_node m x y).1.nodes = ⟨m.fresh, ⟨x, y⟩⟩ :: n :: ns := by
          show _ :: m.nodes = _
          rw [hns]
        unfold mesh_get_bounding_box
        rw [hnew]
        simp only [List.foldl_cons]
        have hswap : box2_include_point ⟨⟨x, y⟩, ⟨x, y⟩⟩ n.position
            = box2_include_point ⟨n.position, n.position⟩ ⟨x, y⟩ := by
          unfold box2_include_point
          simp only [min_comm, max_comm]
        rw [hswap, foldl_include_point]
  · have hs : test_square.nodes = [⟨3, ⟨0, 1⟩⟩, ⟨2, ⟨1, 1⟩⟩, ⟨1, ⟨1, 0⟩⟩, ⟨0, ⟨0, 0⟩⟩] := rfl
    have hq : test_quad.nodes = [⟨3, ⟨2, 1⟩⟩, ⟨2, ⟨1, 0⟩⟩, ⟨1, ⟨0, 1⟩⟩, ⟨0, ⟨1, 2⟩⟩] := rfl
    have hs2 : (mesh_add_node test_square 2 3).1.nodes
        = [⟨11, ⟨2, 3⟩⟩, ⟨3, ⟨0, 1⟩⟩, ⟨2, ⟨1, 1⟩⟩, ⟨1, ⟨1, 0⟩⟩, ⟨0, ⟨0, 0⟩⟩] := rfl
    have hq2 : (mesh_add_node test_quad 2 3).1.nodes
        = [⟨11, ⟨2, 3⟩⟩, ⟨3, ⟨2, 1⟩⟩, ⟨2, ⟨1, 0⟩⟩, ⟨1, ⟨0, 1⟩⟩, ⟨0, ⟨1, 2⟩⟩] := rfl
    refine ⟨?_, ?_, ?_, ?_⟩
    · unfold mesh_get_bounding_box
      rw [hs]
      norm_num [box2_include_point]
    · unfold mesh_get_bounding_box
      rw [hs2]
      norm_num [box2_include_point]
    · unfold mesh_get_bounding_box
      rw [hq]
      norm_num [box2_include_point]
    · unfold mesh_get_bounding_box
      rw [hq2]
      norm_num [box2_include_point]

/-- Witness of C11 on the unit square and the new node (2, 3). -/
theorem mesh_get_bounding_box_min_max_witness :
    test_square.nodes ≠ [] ∧
    ∃ b, mesh_get_bounding_box test_square = some b ∧
      mesh_get_bounding_box (mesh_add_node test_square 2 3).1
        = some (box2_include_point b ⟨2, 3⟩) :=
  have hne : test_square.nodes ≠ [] := by decide
  match (mesh_get_bounding_box_min_max test_square 2 3 hne).1 with
  | ⟨b, h1, _, _, _, _, _, h2⟩ => ⟨hne, b, h1, h2⟩

/-! ## Theorems on the edge selection of `offcenter` -/

/-- On a counter-clockwise triple `offcenter` returns what the branch of the selected edge
computes. -/
theorem offcenter_by_edge (p1 p2 p3 : Point2) (k : ℚ) (h : orient2d p1 p2 p3 > 0) :
    offcenter p1 p2 p3 k =
      match offcenter_edge p1 p2 p3 with
      | TriangleEdge.p1p2 =>
        if dist2 (offcandidate p1 p2 k) p1 < dist2 (ccpoint p1 p2 p3) p1
        then Outcome.point (offcandidate p1 p2 k) else Outcome.point (ccpoint p1 p2 p3)
      | TriangleEdge.p1p3 =>
        if dist2 (offcandidate p3 p1 k) p1 < dist2 (ccpoint p1 p2 p3) p1
        then Outcome.point (offcandidate p3 p1 k) else Outcome.point (ccpoint p1 p2 p3)
      | TriangleEdge.p2p3 =>
        if dist2 (offcandidate p2 p3 k) p2 < dist2 (ccpoint p1 p2 p3) p2
        then Outcome.point ⟨2 * p2.x - (offcandidate p2 p3 k).x, 2 * p2.y - (offcandidate p2 p3 k).y⟩
        else Outcome.point (ccpoint p1 p2 p3) := by
  rw [offcenter_branches p1 p2 p3 k h]
  have hsel : offcenter_edge p1 p2 p3
      = if dist2 p2 p1 < dist2 p3 p1 ∧ dist2 p2 p1 < dist2 p2 p3 then TriangleEdge.p1p2
        else if dist2 p3 p1 < dist2 p2 p3 then TriangleEdge.p1p3 else TriangleEdge.p2p3 := rfl
  rw [hsel]
  by_cases hb1 : dist2 p2 p1 < dist2 p3 p1 ∧ dist2 p2 p1 < dist2 p2 p3
  · rw [if_pos hb1, if_pos hb1]
  · rw [if_neg hb1, if_neg hb1]
    by_cases hb2 : dist2 p3 p1 < dist2 p2 p3
    · rw [if_pos hb2, if_pos hb2]
    · rw [if_neg hb2, if_neg hb2]

/-- C12: the edge on which `offcenter` builds its off-center candidate has minimal squared
length among `p1p2`, `p1p3`, `p2p3`: `p1p2` is selected only if `|p2-p1|^2` is strictly the
smallest, `p1p3` only if `|p3-p1|^2 ≤ |p2-p1|^2` and `|p3-p1|^2 < |p2-p3|^2`, and `p2p3` only if
`|p2-p3|^2` is at most both others. Whenever `circumcenter` returns a point `cc`, the result of
`offcenter` is the one its branch for the selected edge computes. -/
theorem offcenter_edge_minimal (p1 p2 p3 : Point2) :
    (offcenter_edge p1 p2 p3 = TriangleEdge.p1p2 →
      dist2 p2 p1 < dist2 p3 p1 ∧ dist2 p2 p1 < dist2 p2 p3) ∧
    (offcenter_edge p1 p2 p3 = TriangleEdge.p1p3 →
      dist2 p3 p1 ≤ dist2 p2 p1 ∧ dist2 p3 p1 < dist2 p2 p3) ∧
    (offcenter_edge p1 p2 p3 = TriangleEdge.p2p3 →
      dist2 p2 p3 ≤ dist2 p2 p1 ∧ dist2 p2 p3 ≤ dist2 p3 p1) ∧
    (∀ offconstant cc, circumcenter p1 p2 p3 = Outcome.point cc →
      offcenter p1 p2 p3 offconstant =
        match offcenter_edge p1 p2 p3 with
        | TriangleEdge.p1p2 =>
          if dist2 (offcandidate p1 p2 offconstant) p1 < dist2 cc p1
          then Outcome.point (offcandidate p1 p2 offconstant) else Outcome.point cc
        | TriangleEdge.p1p3 =>
          if dist2 (offcandidate p3 p1 offconstant) p1 < dist2 cc p1
          then Outcome.point (offcandidate p3 p1 offconstant) else Outcome.point cc
        | TriangleEdge.p2p3 =>
          if dist2 (offcandidate p2 p3 offconstant) p2 < dist2 cc p2
          then Outcome.point ⟨2 * p2.x - (offcandidate p2 p3 offconstant).x,
                     2 * p2.y - (offcandidate p2 p3 offconstant).y⟩
          else Outcome.point cc) := by
  have hsel : offcenter_edge p1 p2 p3
      = if dist2 p2 p1 < dist2 p3 p1 ∧ dist2 p2 p1 < dist2 p2 p3 then TriangleEdge.p1p2
        else if dist2 p3 p1 < dist2 p2 p3 then TriangleEdge.p1p3 else TriangleEdge.p2p3 := rfl
  refine ⟨?_, ?_, ?_, ?_⟩
  · intro h
    rw [hsel] at h
    by_cases hb1 : dist2 p2 p1 < dist2 p3 p1 ∧ dist2 p2 p1 < dist2 p2 p3
    · exact hb1
    · rw [if_neg hb1] at h
      split_ifs at h
  · intro h
    rw [hsel] at h
    by_cases hb1 : dist2 p2 p1 < dist2 p3 p1 ∧ dist2 p2 p1 < dist2 p2 p3
    · rw [if_pos hb1] at h; cases h
    · rw [if_neg hb1] at h
      by_cases hb2 : dist2 p3 p1 < dist2 p2 p3
      · refine ⟨?_, hb2⟩
        by_contra hc
        apply hb1
        constructor
        · exact not_le.mp hc
        · exact lt_trans (not_le.mp hc) hb2
      · rw [if_neg hb2] at h; cases h
  · intro h
    rw [hsel] at h
    by_cases hb1 : dist2 p2 p1 < dist2 p3 p1 ∧ dist2 p2 p1 < dist2 p2 p3
    · rw [if_pos hb1] at h; cases h
    · rw [if_neg hb1] at h
      by_cases hb2 : dist2 p3 p1 < dist2 p2 p3
      · rw [if_pos hb2] at h; cases h
      · have h32 : dist2 p2 p3 ≤ dist2 p3 p1 := not_lt.mp hb2
        refine ⟨?_, h32⟩
        by_contra hc
        apply hb1
        constructor
        · exact lt_of_lt_of_le (not_le.mp hc) h32
        · exact not_le.mp hc
  · intro offconstant cc hcc
    have ho : orient2d p1 p2 p3 > 0 := by
      rcases lt_trichotomy (orient2d p1 p2 p3) 0 with hn | hn | hn
      · rw [circumcenter_eq_assertion_failed p1 p2 p3 hn] at hcc
        cases hcc
      · rw [circumcenter_eq_division_by_zero p1 p2 p3 hn] at hcc
        cases hcc
      · exact hn
    rw [circumcenter_eq_point p1 p2 p3 ho] at hcc
    have hcc2 : ccpoint p1 p2 p3 = cc := by simpa using hcc
    rw [← hcc2]
    exact offcenter_by_edge p1 p2 p3 offconstant ho

/-- Witness of C12 on the triangle (0,0), (4,-1), (4,1), whose shortest edge is `p2p3`. -/
theorem offcenter_edge_minimal_witness :
    offcenter_edge ⟨0, 0⟩ ⟨4, -1⟩ ⟨4, 1⟩ = TriangleEdge.p2p3 ∧
    dist2 ⟨4, -1⟩ ⟨4, 1⟩ ≤ dist2 ⟨4, -1⟩ ⟨0, 0⟩ ∧ dist2 ⟨4, -1⟩ ⟨4, 1⟩ ≤ dist2 ⟨4, 1⟩ ⟨0, 0⟩ :=
  have h : offcenter_edge ⟨0, 0⟩ ⟨4, -1⟩ ⟨4, 1⟩ = TriangleEdge.p2p3 := by
    norm_num [offcenter_edge]
  ⟨h, (offcenter_edge_minimal ⟨0, 0⟩ ⟨4, -1⟩ ⟨4, 1⟩).2.2.1 h⟩

/-- The branches of `offcenter` for the edges `p1p2` and `p1p3` return a point at equal distance
from the two endpoints of the selected edge, and so does the branch for `p2p3` when it returns
the circumcenter. -/
theorem offcenter_on_bisector (p1 p2 p3 : Point2) (k : ℚ) (h : signed_area p1 p2 p3 > 0) :
    ∃ r, offcenter p1 p2 p3 k = Outcome.point r ∧
      (offcenter_edge p1 p2 p3 = TriangleEdge.p1p2 → dist2 r p1 = dist2 r p2) ∧
      (offcenter_edge p1 p2 p3 = TriangleEdge.p1p3 → dist2 r p1 = dist2 r p3) ∧
      (offcenter_edge p1 p2 p3 = TriangleEdge.p2p3 →
        ¬ dist2 (offcandidate p2 p3 k) p2 < dist2 (ccpoint p1 p2 p3) p2 →
        dist2 r p2 = dist2 r p3) := by
  have ho : orient2d p1 p2 p3 > 0 := (signed_area_pos_iff p1 p2 p3).mp h
  have hne : orient2d p1 p2 p3 ≠ 0 := ne_of_gt ho
  have c2 := ccpoint_dist_p2 p1 p2 p3 hne
  have c3 := ccpoint_dist_p3 p1 p2 p3 hne
  have hby := offcenter_by_edge p1 p2 p3 k ho
  cases hsel : offcenter_edge p1 p2 p3 with
  | p1p2 =>
    rw [hsel] at hby
    simp only at hby
    by_cases hcnd : dist2 (offcandidate p1 p2 k) p1 < dist2 (ccpoint p1 p2 p3) p1
    · rw [if_pos hcnd] at hby
      refine ⟨_, hby, fun _ => (offcandidate_on_bisector p1 p2 k).1, ?_, ?_⟩
      · intro hh; cases hh
      · intro hh; cases hh
    · rw [if_neg hcnd] at hby
      refine ⟨_, hby, fun _ => c2, ?_, ?_⟩
      · intro hh; cases hh
      · intro hh; cases hh
  | p1p3 =>
    rw [hsel] at hby
    simp only at hby
    by_cases hcnd : dist2 (offcandidate p3 p1 k) p1 < dist2 (ccpoint p1 p2 p3) p1
    · rw [if_pos hcnd] at hby
      refine ⟨_, hby, ?_, fun _ => ((offcandidate_on_bisector p3 p1 k).1).symm, ?_⟩
      · intro hh; cases hh
      · intro hh; cases hh
    · rw [if_neg hcnd] at hby
      refine ⟨_, hby, ?_, fun _ => c3, ?_⟩
      · intro hh; cases hh
      · intro hh; cases hh
  | p2p3 =>
    rw [hsel] at hby
    simp only at hby
    by_cases hcnd : dist2 (offcandidate p2 p3 k) p2 < dist2 (ccpoint p1 p2 p3) p2
    · rw [if_pos hcnd] at hby
      refine ⟨_, hby, ?_, ?_, ?_⟩
      · intro hh; cases hh
      · intro hh; cases hh
      · intro _ hn; exact absurd hcnd hn
    · rw [if_neg hcnd] at hby
      refine ⟨_, hby, ?_, ?_, fun _ _ => by rw [← c2, c3]⟩
      · intro hh; cases hh
      · intro hh; cases hh

/-- C13 fails in the third branch: on the counter-clockwise triple (0,0), (4,-1), (4,1) the
selected edge is `p2p3`, and with `offconstant = 1/2` `offcenter` returns (5,-2), at squared
distance 2 from `p2` and 10 from `p3`, while the candidate of the edge `p2p3` is (3,0), on the
bisector of the edge. -/
theorem offcenter_third_branch_off_bisector :
    signed_area ⟨0, 0⟩ ⟨4, -1⟩ ⟨4, 1⟩ > 0 ∧
    offcenter_edge ⟨0, 0⟩ ⟨4, -1⟩ ⟨4, 1⟩ = TriangleEdge.p2p3 ∧
    offcenter ⟨0, 0⟩ ⟨4, -1⟩ ⟨4, 1⟩ (1 / 2) = Outcome.point ⟨5, -2⟩ ∧
    dist2 ⟨5, -2⟩ ⟨4, -1⟩ = 2 ∧ dist2 ⟨5, -2⟩ ⟨4, 1⟩ = 10 ∧
    offcandidate ⟨4, -1⟩ ⟨4, 1⟩ (1 / 2) = ⟨3, 0⟩ ∧
    dist2 ⟨3, 0⟩ ⟨4, -1⟩ = dist2 ⟨3, 0⟩ ⟨4, 1⟩ := by
  refine ⟨?_, ?_, ?_, ?_, ?_, ?_, ?_⟩
  · norm_num [signed_area, orient2d]
  · norm_num [offcenter_edge]
  · norm_num [offcenter, signed_area, orient2d]
  · norm_num [dist2]
  · norm_num [dist2]
  · norm_num [offcandidate]
  · norm_num [dist2]

end Umeshu
